import Mathlib

/-!
# V2V node: replay cache, rate limiter, receive step and helpers

A shallow embedding of `src/node/src/replay.c`, `src/node/src/ratelimit.c`,
`src/node/src/jsonmsg.c`, of `parse_json_fields`, `parse_ip_port` and the body of
`recv_thread` in `src/node/src/main.c`, of the base64 functions of
`src/node/src/crypto.c`, of the confirmers text of `alert_to_verified`, and of
the alert consensus map declared in `src/node/src/core/alerts.h`.

Conventions of the embedding

* A C string is the list of its chars before the terminating NUL (`CStr`).
  A pointer argument that may be NULL is an `Option`.
* `time_t` clock readings are integers.  Every function that reads the clock
  with `time(NULL)` takes that reading as the argument `now`; the reading
  taken by a sweep called from an operation is the operation's own reading.
* The intrusive doubly linked lists are lists of their entries, head first.
* `size_t` counters wrap modulo `2 ^ 64`.
* `malloc` is a step that may fail: the flag `alloc_ok`.
* Taking a store's mutex succeeds; the locks themselves are not part of the
  state here.
-/

namespace V2V

/-- A C string, without its terminating NUL. -/
abbrev CStr := List Char

/-- The number of values of a `size_t` (and of a `uint64_t`). -/
def SIZE_MOD : Nat := 2 ^ 64

/-- The effect of `strncpy(dst, src, n); dst[n] = 0` on a fresh buffer: the
string left in `dst` is the first `n` chars of `src`. -/
def strncpy_str (src : CStr) (n : Nat) : CStr := src.take n

/-! ## replay.h / replay.c -/

/-- `#define REPLAY_CACHE_TTL 600`. -/
def REPLAY_CACHE_TTL : Int := 600

/-- `replay_entry_t`: `char ephemeral_id[64]`, `uint64_t seq`, `time_t timestamp`
(the links `next` and `prev` are the list structure). -/
structure replay_entry_t where
  ephemeral_id : CStr
  seq : Nat
  timestamp : Int
deriving DecidableEq, Repr

/-- `replay_cache_t`: the list of entries and the `size_t count`. -/
structure replay_cache_t where
  entries : List replay_entry_t
  count : Nat
deriving DecidableEq, Repr

/-- `replay_cache_init`: empty list, count zero. -/
def replay_cache_init : replay_cache_t := { entries := [], count := 0 }

/-- The `while` loop of `replay_cache_expire_old_entries`: walks the list; an
entry with `now - timestamp > REPLAY_CACHE_TTL` is unlinked and `count--` runs
(on a `size_t`), any other entry stays where it is. -/
def replay_expire_loop (now : Int) : List replay_entry_t → Nat → List replay_entry_t × Nat
  | [], cnt => ([], cnt)
  | e :: rest, cnt =>
    if now - e.timestamp > REPLAY_CACHE_TTL then
      replay_expire_loop now rest ((cnt + SIZE_MOD - 1) % SIZE_MOD)
    else
      let r := replay_expire_loop now rest cnt
      (e :: r.1, r.2)

/-- `replay_cache_expire_old_entries` at clock reading `now`. -/
def replay_cache_expire_old_entries (now : Int) (c : replay_cache_t) : replay_cache_t :=
  let r := replay_expire_loop now c.entries c.count
  { entries := r.1, count := r.2 }

/-- The duplicate scan of `replay_cache_check_and_add`: is there an entry with
`strcmp(current->ephemeral_id, ephemeral_id) == 0 && current->seq == seq`. -/
def replay_scan (ephemeral_id : CStr) (seq : Nat) : List replay_entry_t → Bool
  | [] => false
  | e :: rest =>
    if e.ephemeral_id = ephemeral_id ∧ e.seq = seq then true
    else replay_scan ephemeral_id seq rest

/-- `replay_cache_check_and_add(ephemeral_id, seq)` at clock reading `now`:
the returned `int` and the cache afterwards.  NULL id: 0.  Otherwise sweep,
scan for a duplicate (0 if found), allocate (0 if that fails), and push the new
entry, whose id is copied with `strncpy(.., 63)`, at the head. -/
def replay_cache_check_and_add (now : Int) (alloc_ok : Bool) (ephemeral_id : Option CStr)
    (seq : Nat) (c : replay_cache_t) : Int × replay_cache_t :=
  match ephemeral_id with
  | none => (0, c)
  | some id =>
    let c1 := replay_cache_expire_old_entries now c
    if replay_scan id seq c1.entries then (0, c1)
    else if alloc_ok then
      (1, { entries := { ephemeral_id := strncpy_str id 63, seq := seq, timestamp := now }
                        :: c1.entries,
            count := (c1.count + 1) % SIZE_MOD })
    else (0, c1)

/-- One call of `replay_cache_check_and_add` as data: clock reading, whether
the allocation succeeds, the id and the sequence number. -/
structure replay_call where
  now : Int
  alloc_ok : Bool
  ephemeral_id : Option CStr
  seq : Nat
deriving DecidableEq, Repr

/-- The cache after a sequence of `replay_cache_check_and_add` calls. -/
def replay_run : List replay_call → replay_cache_t → replay_cache_t
  | [], c => c
  | k :: ks, c => replay_run ks (replay_cache_check_and_add k.now k.alloc_ok k.ephemeral_id k.seq c).2

/-- The representation invariant of the cache: `count` is the number of
entries, and it is a `size_t` value. -/
def replay_cache_wf (c : replay_cache_t) : Prop :=
  c.count = c.entries.length ∧ c.entries.length < SIZE_MOD

instance (c : replay_cache_t) : Decidable (replay_cache_wf c) := by
  unfold replay_cache_wf; infer_instance

/-! ## ratelimit.h / ratelimit.c -/

/-- `#define MAX_PER_WINDOW 6`. -/
def MAX_PER_WINDOW : Nat := 6

/-- `#define WINDOW_SECONDS 10`. -/
def WINDOW_SECONDS : Int := 10

/-- `rate_entry_t`: `char id[64]`, `time_t timestamps[MAX_PER_WINDOW]` (slot 0
first; the value 0 marks an empty slot), `int count`. -/
structure rate_entry_t where
  id : CStr
  timestamps : List Int
  count : Int
deriving DecidableEq, Repr

/-- `rate_limiter_t`: the list of entries and the `size_t count`. -/
structure rate_limiter_t where
  entries : List rate_entry_t
  count : Nat
deriving DecidableEq, Repr

/-- `ratelimit_init`: empty list, count zero. -/
def ratelimit_init : rate_limiter_t := { entries := [], count := 0 }

/-- The inner `for` loop of `ratelimit_expire_inactive_senders`: is there a slot
`i < MAX_PER_WINDOW` with `timestamps[i] != 0` and
`now - timestamps[i] <= WINDOW_SECONDS * 2`. -/
def has_recent_activity (now : Int) (timestamps : List Int) : Bool :=
  (List.range MAX_PER_WINDOW).any (fun i =>
    decide (timestamps.getD i 0 ≠ 0 ∧ now - timestamps.getD i 0 ≤ WINDOW_SECONDS * 2))

/-- The `while` loop of `ratelimit_expire_inactive_senders`: an entry without
recent activity is unlinked and `count--` runs (on a `size_t`). -/
def ratelimit_expire_loop (now : Int) : List rate_entry_t → Nat → List rate_entry_t × Nat
  | [], cnt => ([], cnt)
  | e :: rest, cnt =>
    if has_recent_activity now e.timestamps then
      let r := ratelimit_expire_loop now rest cnt
      (e :: r.1, r.2)
    else
      ratelimit_expire_loop now rest ((cnt + SIZE_MOD - 1) % SIZE_MOD)

/-- `ratelimit_expire_inactive_senders` at clock reading `now`. -/
def ratelimit_expire_inactive_senders (now : Int) (l : rate_limiter_t) : rate_limiter_t :=
  let r := ratelimit_expire_loop now l.entries l.count
  { entries := r.1, count := r.2 }

/-- The body of the loop "Remove timestamps older than the window" for slot `i`,
on the pair (timestamps, valid_count). -/
def ratelimit_filter_step (now : Int) (st : List Int × Nat) (i : Nat) : List Int × Nat :=
  if st.1.getD i 0 ≠ 0 ∧ now - st.1.getD i 0 ≤ WINDOW_SECONDS then
    (if st.2 ≠ i then (st.1.set st.2 (st.1.getD i 0)).set i 0 else st.1, st.2 + 1)
  else
    (st.1.set i 0, st.2)

/-- The loop "Remove timestamps older than the window": slots 0 to
`MAX_PER_WINDOW - 1` in turn, from `valid_count = 0`; the timestamps afterwards and
the final `valid_count`. -/
def ratelimit_filter (now : Int) (timestamps : List Int) : List Int × Nat :=
  (List.range MAX_PER_WINDOW).foldl (ratelimit_filter_step now) (timestamps, 0)

/-- The part of `ratelimit_allow` that works on the sender's entry: the window
filter, the limit check (return 0 without recording `now`), and otherwise
`timestamps[valid_count] = now; count = valid_count + 1` (return 1). -/
def ratelimit_window (now : Int) (e : rate_entry_t) : Int × rate_entry_t :=
  let r := ratelimit_filter now e.timestamps
  if r.2 ≥ MAX_PER_WINDOW then
    (0, { e with timestamps := r.1 })
  else
    (1, { e with timestamps := r.1.set r.2 now, count := (r.2 : Int) + 1 })

/-- The lookup loop of `ratelimit_allow` followed by the work on the entry it
stops at: the first entry with `strcmp(entry->id, ephemeral_id) == 0` is
updated in place by `ratelimit_window`; `none` when the loop ends with
`entry == NULL`. -/
def ratelimit_on_entry (now : Int) (ephemeral_id : CStr) :
    List rate_entry_t → Option (Int × List rate_entry_t)
  | [] => none
  | e :: rest =>
    if e.id = ephemeral_id then
      some ((ratelimit_window now e).1, (ratelimit_window now e).2 :: rest)
    else
      match ratelimit_on_entry now ephemeral_id rest with
      | none => none
      | some r => some (r.1, e :: r.2)

/-- The entry `ratelimit_allow` creates for a sender without one: the id copied
with `strncpy(.., 63)`, `count = 0`, all slots zeroed by `memset`. -/
def rate_entry_new (ephemeral_id : CStr) : rate_entry_t :=
  { id := strncpy_str ephemeral_id 63, timestamps := List.replicate MAX_PER_WINDOW 0, count := 0 }

/-- `ratelimit_allow(ephemeral_id)` at clock reading `now`: the returned `int`
and the limiter afterwards.  NULL id: 0.  Otherwise sweep the inactive senders,
look the sender up, create its entry at the head when there is none (0 when the
allocation fails), and run the window filter and limit check on the entry. -/
def ratelimit_allow (now : Int) (alloc_ok : Bool) (ephemeral_id : Option CStr)
    (l : rate_limiter_t) : Int × rate_limiter_t :=
  match ephemeral_id with
  | none => (0, l)
  | some id =>
    let l1 := ratelimit_expire_inactive_senders now l
    match ratelimit_on_entry now id l1.entries with
    | some r => (r.1, { entries := r.2, count := l1.count })
    | none =>
      if alloc_ok then
        ((ratelimit_window now (rate_entry_new id)).1,
          { entries := (ratelimit_window now (rate_entry_new id)).2 :: l1.entries,
            count := (l1.count + 1) % SIZE_MOD })
      else (0, l1)

/-- One call of `ratelimit_allow` as data: clock reading, whether an allocation
would succeed, and the id. -/
structure rate_call where
  now : Int
  alloc_ok : Bool
  ephemeral_id : Option CStr
deriving DecidableEq, Repr

/-- A sequence of `ratelimit_allow` calls: each call paired with the value it
returned, and the limiter at the end. -/
def ratelimit_run : List rate_call → rate_limiter_t → List (rate_call × Int) × rate_limiter_t
  | [], l => ([], l)
  | k :: ks, l =>
    let r := ratelimit_allow k.now k.alloc_ok k.ephemeral_id l
    let rs := ratelimit_run ks r.2
    ((k, r.1) :: rs.1, rs.2)

/-- The representation invariant of the limiter: every entry has its
`MAX_PER_WINDOW` slots, `count` is the number of entries, a `size_t` value. -/
def rate_limiter_wf (l : rate_limiter_t) : Prop :=
  (∀ e ∈ l.entries, e.timestamps.length = MAX_PER_WINDOW)
    ∧ l.count = l.entries.length ∧ l.entries.length < SIZE_MOD

instance (l : rate_limiter_t) : Decidable (rate_limiter_wf l) := by
  unfold rate_limiter_wf; infer_instance

/-- Is the stored value `ts` a non-empty timestamp with `now - ts <= d`. -/
def ts_within (now d : Int) (ts : Int) : Bool := decide (ts ≠ 0 ∧ now - ts ≤ d)

/-- The entry the lookup loop of `ratelimit_allow` stops at, if any. -/
def rate_lookup (id : CStr) (entries : List rate_entry_t) : Option rate_entry_t :=
  entries.find? (fun e => decide (e.id = id))

/-- The limiter that holds one entry: sender `id` with the timestamps `live` in
its first slots, zeros behind, and their number as its count. -/
def rate_single (id : CStr) (live : List Int) : rate_limiter_t :=
  { entries := [{ id := id,
                  timestamps := live ++ List.replicate (MAX_PER_WINDOW - live.length) 0,
                  count := (live.length : Int) }],
    count := 1 }

/-- The number of calls in a trace of `ratelimit_run` that were made for sender
`s`, returned 1, and have a clock reading in `[t, t + 10]`. -/
def admitted_in_window (s : CStr) (t : Int) (trace : List (rate_call × Int)) : Nat :=
  (trace.filter (fun kr =>
    decide (kr.1.ephemeral_id = some s ∧ kr.2 = 1 ∧ t ≤ kr.1.now ∧ kr.1.now ≤ t + 10))).length

/-- The number of calls in a trace that were made for sender `s`, returned 1,
and have a clock reading of `th` or later. -/
def admitted_since (s : CStr) (th : Int) (trace : List (rate_call × Int)) : Nat :=
  (trace.filter (fun kr =>
    decide (kr.1.ephemeral_id = some s ∧ kr.2 = 1 ∧ th ≤ kr.1.now))).length

/-- The number of non-empty timestamps of `th` or later an entry stores (0 when
there is no entry). -/
def stored_since (th : Int) : Option rate_entry_t → Nat
  | none => 0
  | some e => (e.timestamps.filter (fun ts => decide (ts ≠ 0 ∧ th ≤ ts))).length

/-- The invariant that links a limiter to the trace of the calls that led to
it, `last` being the latest clock reading: every entry has its six slots, and
every admission of the last ten seconds is still stored in its sender's entry. -/
def rate_inv (l : rate_limiter_t) (trace : List (rate_call × Int)) (last : Int) : Prop :=
  (∀ e ∈ l.entries, e.timestamps.length = MAX_PER_WINDOW)
    ∧ ∀ s th, last - 10 ≤ th → admitted_since s th trace ≤ stored_since th (rate_lookup s l.entries)

/-! ## jsonmsg.c and `parse_json_fields` of main.c -/

/-- `%llu` of `snprintf`: the decimal digits of an unsigned value. -/
def fmt_llu (n : Nat) : CStr := Nat.toDigits 10 n

/-- `%d` of `snprintf`: the decimal digits of an `int`, with a minus sign when
it is negative. -/
def fmt_d (i : Int) : CStr :=
  if i < 0 then '-' :: Nat.toDigits 10 i.natAbs else Nat.toDigits 10 i.natAbs

/-- `INT_MAX`, the largest length `snprintf` can report. -/
def INT_MAX : Nat := 2147483647

/-- `build_canonical_hazard_json`: the heap string it returns, `none` for
NULL.  A NULL `msg_type`, `ephemeral_id` or `hazard_type` is replaced by its
default.  The text that `snprintf` writes for each `double` (`%.6f`, `%.2f`,
`%.4f`) is taken as an argument: `lat`, `lon`, `speed`, `heading` and
`confidence` are those renderings.  The result is NULL when the length does not
fit an `int` or when `malloc` fails. -/
def build_canonical_hazard_json (alloc_ok : Bool) (msg_type ephemeral_id : Option CStr)
    (seq timestamp : Nat) (lat lon speed heading : CStr) (hazard_type : Option CStr)
    (confidence : CStr) (ttl_seconds : Int) : Option CStr :=
  let msg_type := msg_type.getD "hazard_report".toList
  let ephemeral_id := ephemeral_id.getD "unknown".toList
  let hazard_type := hazard_type.getD "unknown".toList
  let text : CStr :=
    "\x7b\"msg_type\":\"".toList ++ msg_type
      ++ "\",\"version\":1,\"ephemeral_id\":\"".toList ++ ephemeral_id
      ++ "\",\"seq\":".toList ++ fmt_llu seq
      ++ ",\"timestamp\":".toList ++ fmt_llu timestamp
      ++ ",\"location\":[".toList ++ lat ++ ",".toList ++ lon
      ++ "],\"speed\":".toList ++ speed
      ++ ",\"heading\":".toList ++ heading
      ++ ",\"hazard_type\":\"".toList ++ hazard_type
      ++ "\",\"confidence\":".toList ++ confidence
      ++ ",\"ttl_seconds\":".toList ++ fmt_d ttl_seconds ++ "\x7d".toList
  if text.length > INT_MAX then none
  else if alloc_ok then some text
  else none

/-- Does the string `s` begin with `needle`. -/
def starts_with : CStr → CStr → Bool
  | _, [] => true
  | [], _ :: _ => false
  | c :: cs, n :: ns => if c = n then starts_with cs ns else false

/-- `strstr(haystack, needle)`: the rest of `haystack` from the first
occurrence of `needle` on, `none` for NULL. -/
def strstr : CStr → CStr → Option CStr
  | [], needle => if starts_with [] needle then some [] else none
  | c :: cs, needle => if starts_with (c :: cs) needle then some (c :: cs) else strstr cs needle

/-- `strchr(s, ch)` for a `ch` other than NUL: the rest of `s` from the first
`ch` on, `none` for NULL. -/
def strchr : CStr → Char → Option CStr
  | [], _ => none
  | c :: cs, ch => if c = ch then some (c :: cs) else strchr cs ch

/-- `isspace` in the C locale. -/
def c_isspace (c : Char) : Bool :=
  c = ' ' || c = '\t' || c = '\n' || c = '\x0b' || c = '\x0c' || c = '\r'

/-- Is the char a decimal digit. -/
def c_isdigit (c : Char) : Bool := decide ('0'.toNat ≤ c.toNat ∧ c.toNat ≤ '9'.toNat)

/-- `strtoull(s, NULL, 10)`: white space is skipped, a sign is read, then the
longest run of digits; no digits give 0, a value of `2 ^ 64` or more gives
`ULLONG_MAX`, and a minus sign negates the value as an unsigned number. -/
def strtoull10 (s : CStr) : Nat :=
  let s1 := s.dropWhile c_isspace
  let neg := match s1 with
    | '-' :: _ => true
    | _ => false
  let s2 := match s1 with
    | '-' :: r => r
    | '+' :: r => r
    | _ => s1
  let v := (s2.takeWhile c_isdigit).foldl (fun acc c => acc * 10 + (c.toNat - '0'.toNat)) 0
  if v ≥ SIZE_MOD then SIZE_MOD - 1
  else if neg then (SIZE_MOD - v) % SIZE_MOD
  else v

/-- `parse_json_fields(json, ephemeral_id, seq)` with non-NULL out pointers: the
returned `int`, and the contents of the buffer `ephemeral_id` and of `*seq`
afterwards (`id0` and `seq0` are their contents before).  The id field is looked
up with `strstr`, the pointer advanced by 15, the closing quote looked up with
`strchr`, and `id_len` chars copied when `id_len < 64`; then the seq field is
looked up, the pointer advanced by 6, and `strtoull` run. -/
def parse_json_fields (json : Option CStr) (id0 : CStr) (seq0 : Nat) : Int × CStr × Nat :=
  match json with
  | none => (0, id0, seq0)
  | some json =>
    match strstr json "\"ephemeral_id\":\"".toList with
    | none => (0, id0, seq0)
    | some found =>
      let id_start := found.drop 15
      match strchr id_start '"' with
      | none => (0, id0, seq0)
      | some id_end =>
        let id_len := id_start.length - id_end.length
        if id_len < 64 then
          let ephemeral_id := id_start.take id_len
          match strstr json "\"seq\":".toList with
          | none => (0, ephemeral_id, seq0)
          | some seq_found => (1, ephemeral_id, strtoull10 (seq_found.drop 6))
        else (0, id0, seq0)

/-- The body of `parse_json_fields` with the advance past the id marker as a
parameter `skip`: the code advances by 15 (`parse_json_fields` is the instance
at 15), the marker `"ephemeral_id":"` is 16 chars long.  Everything else is the
code of `parse_json_fields`. -/
def parse_json_fields_skip (skip : Nat) (json : Option CStr) (id0 : CStr) (seq0 : Nat) :
    Int × CStr × Nat :=
  match json with
  | none => (0, id0, seq0)
  | some json =>
    match strstr json "\"ephemeral_id\":\"".toList with
    | none => (0, id0, seq0)
    | some found =>
      let id_start := found.drop skip
      match strchr id_start '"' with
      | none => (0, id0, seq0)
      | some id_end =>
        let id_len := id_start.length - id_end.length
        if id_len < 64 then
          let ephemeral_id := id_start.take id_len
          match strstr json "\"seq\":".toList with
          | none => (0, ephemeral_id, seq0)
          | some seq_found => (1, ephemeral_id, strtoull10 (seq_found.drop 6))
        else (0, id0, seq0)

/-- The message the sender thread builds for sequence number `seq` at clock
reading `timestamp`: `build_canonical_hazard_json("hazard_report", "node_002",
seq, timestamp, 40.7589, -73.9851, 55.0, 270.0, "debris", 0.88, 300)`, the
doubles in the text `snprintf` gives them. -/
def send_thread_message (seq timestamp : Nat) : Option CStr :=
  build_canonical_hazard_json true (some "hazard_report".toList) (some "node_002".toList)
    seq timestamp "40.758900".toList "-73.985100".toList "55.00".toList "270.00".toList
    (some "debris".toList) "0.8800".toList 300

/-! ## The receive step of main.c -/

/-- The two stores of the receive path. -/
structure node_state where
  replay : replay_cache_t
  limiter : rate_limiter_t
deriving DecidableEq, Repr

/-- What the body of `recv_thread` calls for one datagram, in program order,
with the value each check returned. -/
inductive recv_event where
  | replay_checked (ret : Int)
  | rate_checked (ret : Int)
  | verified
deriving DecidableEq, Repr

/-- The body of the loop of `recv_thread` for one datagram with `n > 0`, whose
text is `buf`: the stores afterwards and the calls made.  `now_replay` and
`now_rate` are the clock readings of the two checks, `alloc_replay` and
`alloc_rate` say whether their allocations would succeed.  The buffers start as
`char ephemeral_id[64] = {0}` and `seq = 0`; each `continue` ends the step. -/
def recv_step (now_replay now_rate : Int) (alloc_replay alloc_rate : Bool) (buf : CStr)
    (st : node_state) : node_state × List recv_event :=
  let p := parse_json_fields (some buf) [] 0
  if p.1 = 0 then (st, [])
  else
    let r := replay_cache_check_and_add now_replay alloc_replay (some p.2.1) p.2.2 st.replay
    if r.1 = 0 then ({ replay := r.2, limiter := st.limiter }, [recv_event.replay_checked r.1])
    else
      let q := ratelimit_allow now_rate alloc_rate (some p.2.1) st.limiter
      if q.1 = 0 then
        ({ replay := r.2, limiter := q.2 },
          [recv_event.replay_checked r.1, recv_event.rate_checked q.1])
      else
        ({ replay := r.2, limiter := q.2 },
          [recv_event.replay_checked r.1, recv_event.rate_checked q.1, recv_event.verified])

/-! ## The mutexes of the two stores -/

/-- The reference rate limiter, by the words of the specification: a request of
sender `s` at time `now` is admitted (1) if and only if fewer than 6 earlier
requests of `s` were admitted at times `t` with `now - t <= 10`.  `hist` holds
the earlier requests with their results. -/
def ratelimit_reference : List (Int × CStr) → List ((Int × CStr) × Int) → List Int
  | [], _ => []
  | q :: qs, hist =>
    let r : Int :=
      if (hist.filter (fun h => decide (h.1.2 = q.2 ∧ h.2 = 1 ∧ q.1 - h.1.1 ≤ 10))).length < 6
      then 1 else 0
    r :: ratelimit_reference qs ((q, r) :: hist)

/-- The `ratelimit_allow` call a request stands for: non-NULL id, allocation
succeeding. -/
def rate_call_of (q : Int × CStr) : rate_call :=
  { now := q.1, alloc_ok := true, ephemeral_id := some q.2 }

/-! ## core/alerts.h and the alert consensus map

`alerts.c` is not among the sources: the constants and the `Alert` record are
those of `core/alerts.h`, the operations follow the specification.  A `double`
is a rational number here; only its order and the rounding of a coordinate to
its grid cell are used. -/

/-- `#define CONFIRMERS_MAX 10`. -/
def CONFIRMERS_MAX : Nat := 10

/-- `#define ALERT_TTL 600`. -/
def ALERT_TTL : Int := 600

/-- `#define ALERT_VERIFICATION_THRESHOLD 2`. -/
def ALERT_VERIFICATION_THRESHOLD : Int := 2

/-- The contents of `char status[ALERT_STATUS_MAX]`: "TENTATIVE" or "VERIFIED". -/
inductive alert_status where
  | TENTATIVE
  | VERIFIED
deriving DecidableEq, Repr

/-- Modelled from the spec: the alert key, whose construction is in the missing
`alerts.c`: "derived deterministically from quantized latitude, quantized
longitude, and hazard type". -/
structure alert_key_t where
  cell_lat : Int
  cell_lon : Int
  hazard_type : CStr
deriving DecidableEq, Repr

/-- Modelled from the spec: the quantization of the missing `alerts.c`: "round
each coordinate to a fixed number of decimal places, e.g. 3, to form a spatial
grid cell". -/
def alert_quantize (x : ℚ) : Int := round (x * 1000)

/-- Modelled from the spec: the key of a report, computed in the missing
`alerts.c`: `alert_key = quantize(lat, lon) ⊕ hazard_type`. -/
def make_alert_key (hazard_type : CStr) (lat lon : ℚ) : alert_key_t :=
  { cell_lat := alert_quantize lat, cell_lon := alert_quantize lon, hazard_type := hazard_type }

/-- `Alert` of `core/alerts.h` (`next` is the list structure; `confirmers` holds
the recorded ids, at most `CONFIRMERS_MAX` of them). -/
structure Alert where
  alert_key : alert_key_t
  latitude : ℚ
  longitude : ℚ
  hazard_type : CStr
  confidence : ℚ
  first_seen : Int
  last_seen : Int
  confirmations : Int
  confirmers : List CStr
  status : alert_status
deriving DecidableEq, Repr

/-- Modelled from the spec: `promote_alert_if_threshold` of the missing
`alerts.c`: "If confirmations crosses the threshold (>= 2) and status is still
TENTATIVE, transition to VERIFIED"; a one-way transition. -/
def promote_alert_if_threshold (a : Alert) : Alert :=
  if a.confirmations ≥ ALERT_VERIFICATION_THRESHOLD ∧ a.status = alert_status.TENTATIVE then
    { a with status := alert_status.VERIFIED }
  else a

/-- Modelled from the spec: the "not found" case of `add_or_update_alert` in the
missing `alerts.c`: "creates a new Alert with status TENTATIVE, confirmations=1,
confirmers={sender_id}, first_seen=last_seen=now", with the coordinates of this
first report. -/
def alert_new (now : Int) (ephemeral_id hazard_type : CStr) (lat lon confidence : ℚ) : Alert :=
  { alert_key := make_alert_key hazard_type lat lon, latitude := lat, longitude := lon,
    hazard_type := hazard_type, confidence := confidence, first_seen := now, last_seen := now,
    confirmations := 1, confirmers := [ephemeral_id], status := alert_status.TENTATIVE }

/-- Modelled from the spec: the two "found" cases of `add_or_update_alert` in
the missing `alerts.c`.  A sender already in `confirmers`: refresh `last_seen`,
confidence becomes the maximum of stored and incoming, confirmations is not
incremented.  A new sender: "add to confirmers (up to the 10-slot cap; beyond
the cap, confirmations still increments but the identity is not retained),
increment confirmations, refresh last_seen, update confidence as above", then
the promotion check. -/
def alert_update (now : Int) (ephemeral_id : CStr) (confidence : ℚ) (a : Alert) : Alert :=
  if ephemeral_id ∈ a.confirmers then
    { a with last_seen := now, confidence := max a.confidence confidence }
  else
    promote_alert_if_threshold
      { a with
        confirmers :=
          if a.confirmers.length < CONFIRMERS_MAX then a.confirmers ++ [ephemeral_id]
          else a.confirmers,
        confirmations := a.confirmations + 1,
        last_seen := now,
        confidence := max a.confidence confidence }

/-- Modelled from the spec: `add_or_update_alert` of the missing `alerts.c`, at
clock reading `now`, on the map as the list of its alerts: the alert with the
report's key is updated where it stands, and when there is none a new alert is
added. -/
def add_or_update_alert (now : Int) (ephemeral_id hazard_type : CStr)
    (lat lon confidence : ℚ) : List Alert → List Alert
  | [] => [alert_new now ephemeral_id hazard_type lat lon confidence]
  | a :: rest =>
    if a.alert_key = make_alert_key hazard_type lat lon then
      alert_update now ephemeral_id confidence a :: rest
    else a :: add_or_update_alert now ephemeral_id hazard_type lat lon confidence rest

/-- Modelled from the spec: `expire_old_alerts` of the missing `alerts.c`:
"removes every Alert with now - last_seen > 600s, regardless of status". -/
def expire_old_alerts (now : Int) (m : List Alert) : List Alert :=
  m.filter (fun a => decide (now - a.last_seen ≤ ALERT_TTL))

/-- The alert stored under a key, if any. -/
def alert_find (k : alert_key_t) (m : List Alert) : Option Alert :=
  m.find? (fun a => decide (a.alert_key = k))

/-- An operation on the alert map: a report handed to `add_or_update_alert`, or
a sweep by `expire_old_alerts`. -/
inductive alert_op where
  | report (now : Int) (ephemeral_id hazard_type : CStr) (lat lon confidence : ℚ)
  | expire (now : Int)

/-- One operation on the alert map. -/
def alerts_step (m : List Alert) : alert_op → List Alert
  | alert_op.report now id ht lat lon conf => add_or_update_alert now id ht lat lon conf m
  | alert_op.expire now => expire_old_alerts now m

/-- A sequence of operations on the alert map. -/
def alerts_run (ops : List alert_op) (m : List Alert) : List Alert :=
  ops.foldl alerts_step m

/-- A further report of the same sender and hazard type: clock reading,
latitude, longitude, confidence. -/
structure alert_resend where
  now : Int
  lat : ℚ
  lon : ℚ
  confidence : ℚ

/-- The map after the further reports of one sender for one hazard type. -/
def alerts_resend (ephemeral_id hazard_type : CStr) (rs : List alert_resend)
    (m : List Alert) : List Alert :=
  rs.foldl (fun acc r =>
    add_or_update_alert r.now ephemeral_id hazard_type r.lat r.lon r.confidence acc) m

/-- The invariant of the alert map: every alert counts at least one
confirmation and is VERIFIED exactly when it counts
`ALERT_VERIFICATION_THRESHOLD` or more, and no two alerts share a key. -/
def alert_inv (m : List Alert) : Prop :=
  (∀ a ∈ m, 1 ≤ a.confirmations
      ∧ (a.status = alert_status.VERIFIED ↔ ALERT_VERIFICATION_THRESHOLD ≤ a.confirmations))
    ∧ (m.map (fun a => a.alert_key)).Nodup

/-- The converse invariant of the limiter and its trace: every non-empty
timestamp of the last ten seconds that an entry stores is an admission of the
entry's sender. -/
def rate_inv_stored (l : rate_limiter_t) (trace : List (rate_call × Int)) (last : Int) : Prop :=
  ∀ e ∈ l.entries, ∀ th, last - 10 ≤ th →
    stored_since th (some e) ≤ admitted_since e.id th trace

/-! ## `parse_ip_port` of main.c -/

/-- `atoi(s)`: white space is skipped, a sign is read, then the longest run of
digits; no digits give 0.  The value goes through `strtol` (kept within `long`)
and the conversion to `int` (modulo `2 ^ 32`), which is what the usual library
does where the C standard leaves the result of an overflow open. -/
def c_atoi (s : CStr) : Int :=
  let s1 := s.dropWhile c_isspace
  let neg := match s1 with
    | '-' :: _ => true
    | _ => false
  let s2 := match s1 with
    | '-' :: r => r
    | '+' :: r => r
    | _ => s1
  let v : Nat := (s2.takeWhile c_isdigit).foldl (fun acc c => acc * 10 + (c.toNat - '0'.toNat)) 0
  let l : Int :=
    if neg then (if v > 2 ^ 63 then -(2 ^ 63) else -(v : Int))
    else (if v ≥ 2 ^ 63 then 2 ^ 63 - 1 else (v : Int))
  (l + 2 ^ 31) % 2 ^ 32 - 2 ^ 31

/-- `parse_ip_port(s, out_ip, out_port)`: the returned `int` and the contents
of `out_ip` and `*out_port` afterwards (`ip0` and `port0` before).  The colon is
looked up with `strchr`; `iplen >= 63` is refused; then `iplen` chars are copied
and the port is read with `atoi` from behind the colon. -/
def parse_ip_port (s : CStr) (ip0 : CStr) (port0 : Int) : Int × CStr × Int :=
  match strchr s ':' with
  | none => (-1, ip0, port0)
  | some colon =>
    let iplen := s.length - colon.length
    if iplen ≥ 63 then (-1, ip0, port0)
    else
      let out_port := c_atoi (colon.drop 1)
      (if out_port > 0 ∧ out_port < 65536 then 0 else -1, s.take iplen, out_port)

/-! ## `alert_to_verified` of core/alerts_integration_example.c -/

/-- The loop of `alert_to_verified` that appends the confirmers to
`confirmers_json`, from index `i`, on the text built so far (`fuel` bounds the
iterations; 10 are enough).  `confirmers[i]` of a slot that holds no id is the
empty string. -/
def confirmers_json_loop (a : Alert) : Nat → Nat → CStr → CStr
  | 0, _, buf => buf
  | fuel + 1, i, buf =>
    if (i : Int) < a.confirmations ∧ i < 10 then
      confirmers_json_loop a fuel (i + 1)
        ((if i > 0 then buf ++ ",".toList else buf) ++ "\"".toList ++ a.confirmers.getD i []
          ++ "\"".toList)
    else buf

/-- The text that `alert_to_verified` builds in `verified->confirmers_json` with
`strcpy` and `strcat`, none of which looks at the size of the field: "[", the
quoted confirmers separated by commas, "]". -/
def alert_to_verified_confirmers_json (a : Alert) : CStr :=
  confirmers_json_loop a 10 0 "[".toList ++ "]".toList

/-- The size of `char confirmers_json[512]` of `VerifiedAlert` (db/db.h). -/
def CONFIRMERS_JSON_SIZE : Nat := 512

/-! ## `base64_encode` and `base64_decode` of crypto.c -/

/-- The alphabet `chars` of both functions. -/
def BASE64_CHARS : CStr :=
  "ABCDEFGHIJKLMNOPQRSTUVWXYZabcdefghijklmnopqrstuvwxyz0123456789+/".toList

/-- The four output chars of one iteration of the loop of `base64_encode`, for
the bytes `a`, `b`, `c` (0 where the input has ended): `triple` is a
`uint32_t`. -/
def base64_quad (a b c : Nat) : CStr :=
  let triple := ((a <<< 16) ||| (b <<< 8) ||| c) % 2 ^ 32
  [BASE64_CHARS.getD ((triple >>> 18) &&& 0x3F) 'A',
   BASE64_CHARS.getD ((triple >>> 12) &&& 0x3F) 'A',
   BASE64_CHARS.getD ((triple >>> 6) &&& 0x3F) 'A',
   BASE64_CHARS.getD (triple &&& 0x3F) 'A']

/-- The encoding loop of `base64_encode`: three bytes, or what is left of the
input, per iteration. -/
def base64_encode_loop : List Nat → CStr
  | [] => []
  | [a] => base64_quad a 0 0
  | [a, b] => base64_quad a b 0
  | a :: b :: c :: rest => base64_quad a b c ++ base64_encode_loop rest

/-- `base64_encode(in, in_len, &out_str)` for a non-NULL `out_str`: the string
left in `*out_str`, `none` when the function returns -1 (the allocation
failed).  After the loop the last `(3 - in_len % 3) % 3` chars are overwritten
with '='. -/
def base64_encode (alloc_ok : Bool) (input : List Nat) : Option CStr :=
  if alloc_ok then
    let out := base64_encode_loop input
    let j := out.length
    some ((List.range ((3 - input.length % 3) % 3)).foldl (fun o i => o.set (j - 1 - i) '=') out)
  else none

/-- `strchr(chars, ch) - chars` as a `uint32_t`: the index of `ch` in the
alphabet, 64 for the terminating NUL, and for any other char the value `miss`
that the subtraction from a NULL pointer yields (the C standard does not say
which). -/
def base64_index (miss : Nat) (ch : Char) : Nat :=
  if ch = '\x00' then 64
  else if ch ∈ BASE64_CHARS then BASE64_CHARS.indexOf ch
  else miss % 2 ^ 32

/-- One iteration of the loop of `base64_decode` on the chars `c0 .. c3`: the
first byte is always written, the second and third only while `j < *out_len`. -/
def base64_decode_quad (miss out_len : Nat) (c0 c1 c2 c3 : Char) (out : List Nat) : List Nat :=
  let triple := ((base64_index miss c0 <<< 18) ||| (base64_index miss c1 <<< 12)
    ||| (base64_index miss c2 <<< 6) ||| base64_index miss c3) % 2 ^ 32
  let out1 := out ++ [(triple >>> 16) &&& 0xFF]
  let out2 := if out1.length < out_len then out1 ++ [(triple >>> 8) &&& 0xFF] else out1
  if out2.length < out_len then out2 ++ [triple &&& 0xFF] else out2

/-- The decoding loop of `base64_decode`: four chars per iteration while
`i < in_len && in_str[i] != '='`; a char read at or behind the end of the string
is the NUL. -/
def base64_decode_loop (miss out_len : Nat) : CStr → List Nat → List Nat
  | [], out => out
  | [c0], out =>
    if c0 = '=' then out else base64_decode_quad miss out_len c0 '\x00' '\x00' '\x00' out
  | [c0, c1], out =>
    if c0 = '=' then out else base64_decode_quad miss out_len c0 c1 '\x00' '\x00' out
  | [c0, c1, c2], out =>
    if c0 = '=' then out else base64_decode_quad miss out_len c0 c1 c2 '\x00' out
  | c0 :: c1 :: c2 :: c3 :: rest, out =>
    if c0 = '=' then out
    else base64_decode_loop miss out_len rest (base64_decode_quad miss out_len c0 c1 c2 c3 out)

/-- `base64_decode(in_str, &out, &out_len)` for non-NULL out pointers: the bytes
written to `*out` and the final `*out_len`, `none` when the function returns -1
(the allocation failed).  The empty string gives no buffer and length 0;
otherwise `*out_len` starts as `in_len * 3 / 4` and ends as the number of bytes
written. -/
def base64_decode (alloc_ok : Bool) (miss : Nat) (in_str : CStr) : Option (List Nat × Nat) :=
  if in_str.length = 0 then some ([], 0)
  else if alloc_ok then
    let out := base64_decode_loop miss (in_str.length * 3 / 4) in_str []
    some (out, out.length)
  else none

/-- The values returned to one sender `s`, as the sender's own calls determine
them: each call returns 1 exactly when fewer than six of the sender's earlier
calls (in `hist`, with their results) were admitted within the ten seconds
before it. -/
def sender_results (s : CStr) : List rate_call → List (rate_call × Int) → List Int
  | [], _ => []
  | k :: ks, hist =>
    let r : Int := if admitted_since s (k.now - 10) hist < 6 then 1 else 0
    r :: sender_results s ks ((k, r) :: hist)

/-! ### Lemmas on the replay cache -/

theorem replay_expire_loop_fst (now : Int) (l : List replay_entry_t) (cnt : Nat) :
    (replay_expire_loop now l cnt).1 = l.filter (fun e => decide (now - e.timestamp ≤ REPLAY_CACHE_TTL)) := by
  induction l generalizing cnt with
  | nil => rfl
  | cons e rest ih =>
    by_cases h : now - e.timestamp > REPLAY_CACHE_TTL
    · have h' : ¬ (now - e.timestamp ≤ REPLAY_CACHE_TTL) := by omega
      rw [replay_expire_loop, if_pos h, ih, List.filter_cons_of_neg (by simpa using h')]
    · have h' : now - e.timestamp ≤ REPLAY_CACHE_TTL := by omega
      rw [replay_expire_loop, if_neg h, List.filter_cons_of_pos (by simpa using h')]
      simp only [ih]

theorem size_dec_eq (cnt : Nat) (h1 : 0 < cnt) (h2 : cnt < SIZE_MOD) :
    (cnt + SIZE_MOD - 1) % SIZE_MOD = cnt - 1 := by
  have : cnt + SIZE_MOD - 1 = (cnt - 1) + SIZE_MOD := by omega
  rw [this, Nat.add_mod_right, Nat.mod_eq_of_lt (by omega)]

theorem replay_expire_loop_snd (now : Int) (l : List replay_entry_t) (cnt : Nat)
    (hc : l.length ≤ cnt) (hlt : cnt < SIZE_MOD) :
    (replay_expire_loop now l cnt).2 + l.length
      = cnt + (l.filter (fun e => decide (now - e.timestamp ≤ REPLAY_CACHE_TTL))).length := by
  induction l generalizing cnt with
  | nil => simp [replay_expire_loop]
  | cons e rest ih =>
    simp only [List.length_cons] at hc
    by_cases h : now - e.timestamp > REPLAY_CACHE_TTL
    · have h' : ¬ (now - e.timestamp ≤ REPLAY_CACHE_TTL) := by omega
      have hm := size_dec_eq cnt (by omega) hlt
      have := ih (cnt - 1) (by omega) (by omega)
      rw [replay_expire_loop, if_pos h, hm, List.filter_cons_of_neg (by simpa using h'),
        List.length_cons]
      omega
    · have h' : now - e.timestamp ≤ REPLAY_CACHE_TTL := by omega
      have := ih cnt (by omega) hlt
      rw [replay_expire_loop, if_neg h, List.filter_cons_of_pos (by simpa using h')]
      simp only [List.length_cons]
      omega

theorem replay_scan_iff (id : CStr) (seq : Nat) (l : List replay_entry_t) :
    replay_scan id seq l = true ↔ ∃ e ∈ l, e.ephemeral_id = id ∧ e.seq = seq := by
  induction l with
  | nil => simp [replay_scan]
  | cons e rest ih =>
    by_cases h : e.ephemeral_id = id ∧ e.seq = seq
    · simp [replay_scan, h]
    · simp only [replay_scan, h, if_false, ih, List.mem_cons, exists_eq_or_imp, false_or]

theorem replay_expire_entries (now : Int) (c : replay_cache_t) :
    (replay_cache_expire_old_entries now c).entries
      = c.entries.filter (fun e => decide (now - e.timestamp ≤ REPLAY_CACHE_TTL)) :=
  replay_expire_loop_fst now c.entries c.count

theorem replay_expire_wf (now : Int) (c : replay_cache_t) (h : replay_cache_wf c) :
    replay_cache_wf (replay_cache_expire_old_entries now c) := by
  obtain ⟨h1, h2⟩ := h
  have hs := replay_expire_loop_snd now c.entries c.count (by omega) (by omega)
  have hle := List.length_filter_le (fun e => decide (now - e.timestamp ≤ REPLAY_CACHE_TTL)) c.entries
  have he := replay_expire_entries now c
  unfold replay_cache_wf
  rw [he]
  simp only [replay_cache_expire_old_entries]
  constructor <;> omega

/-- What a call with a non-NULL id does, in terms of the swept cache. -/
theorem replay_check_some (now : Int) (a : Bool) (id : CStr) (seq : Nat) (c : replay_cache_t) :
    replay_cache_check_and_add now a (some id) seq c =
      if replay_scan id seq (replay_cache_expire_old_entries now c).entries then
        (0, replay_cache_expire_old_entries now c)
      else if a then
        (1, { entries := { ephemeral_id := strncpy_str id 63, seq := seq, timestamp := now }
                          :: (replay_cache_expire_old_entries now c).entries,
              count := ((replay_cache_expire_old_entries now c).count + 1) % SIZE_MOD })
      else (0, replay_cache_expire_old_entries now c) := rfl

theorem strncpy_str_short (id : CStr) (n : Nat) (h : id.length ≤ n) : strncpy_str id n = id := by
  unfold strncpy_str
  exact List.take_of_length_le h

/-- An entry young enough at `now` survives a call made at `now`. -/
theorem replay_check_keeps (now : Int) (a : Bool) (oid : Option CStr) (seq : Nat)
    (c : replay_cache_t) (e : replay_entry_t) (he : e ∈ c.entries)
    (hy : now - e.timestamp ≤ REPLAY_CACHE_TTL) :
    e ∈ (replay_cache_check_and_add now a oid seq c).2.entries := by
  cases oid with
  | none => exact he
  | some id =>
    have hs : e ∈ (replay_cache_expire_old_entries now c).entries := by
      rw [replay_expire_entries]
      exact List.mem_filter.mpr ⟨he, by simpa using hy⟩
    rw [replay_check_some]
    split
    · exact hs
    · split
      · exact List.mem_cons_of_mem _ hs
      · exact hs

theorem replay_run_keeps (calls : List replay_call) (c : replay_cache_t) (e : replay_entry_t)
    (he : e ∈ c.entries) (hy : ∀ k ∈ calls, k.now - e.timestamp ≤ REPLAY_CACHE_TTL) :
    e ∈ (replay_run calls c).entries := by
  induction calls generalizing c with
  | nil => exact he
  | cons k ks ih =>
    simp only [replay_run]
    apply ih
    · exact replay_check_keeps k.now k.alloc_ok k.ephemeral_id k.seq c e he
        (hy k (List.mem_cons_self _ _))
    · intro k' hk'
      exact hy k' (List.mem_cons_of_mem _ hk')

/-- An admitted call leaves its entry at the head of the list. -/
theorem replay_admit_head (now : Int) (a : Bool) (id : CStr) (seq : Nat) (c : replay_cache_t)
    (h : (replay_cache_check_and_add now a (some id) seq c).1 = 1) :
    replay_scan id seq (replay_cache_expire_old_entries now c).entries = false ∧
    (replay_cache_check_and_add now a (some id) seq c).2.entries
      = { ephemeral_id := strncpy_str id 63, seq := seq, timestamp := now }
          :: (replay_cache_expire_old_entries now c).entries := by
  rw [replay_check_some] at h ⊢
  split at h
  · simp at h
  · rename_i hs
    split at h
    · rename_i ha
      simp only [hs, ha, if_true, Bool.false_eq_true, if_false, and_self]
    · simp at h

/-- The keys (id, seq) of the entries of a cache. -/
theorem replay_keys_nodup_step (now : Int) (a : Bool) (oid : Option CStr) (seq : Nat)
    (c : replay_cache_t) (hshort : ∀ id, oid = some id → id.length < 64)
    (h : (c.entries.map (fun e => (e.ephemeral_id, e.seq))).Nodup) :
    ((replay_cache_check_and_add now a oid seq c).2.entries.map
      (fun e => (e.ephemeral_id, e.seq))).Nodup := by
  cases oid with
  | none => exact h
  | some id =>
    have hsw : ((replay_cache_expire_old_entries now c).entries.map
        (fun e => (e.ephemeral_id, e.seq))).Nodup := by
      rw [replay_expire_entries]
      exact h.sublist (List.Sublist.map _ (List.filter_sublist _))
    rw [replay_check_some]
    split
    · exact hsw
    · rename_i hs
      split
      · simp only [List.map_cons, List.nodup_cons]
        refine ⟨?_, hsw⟩
        intro hmem
        apply hs
        rw [replay_scan_iff]
        obtain ⟨e, he, hk⟩ := List.mem_map.mp hmem
        rw [strncpy_str_short id 63 (by have := hshort id rfl; omega)] at hk
        simp only [Prod.mk.injEq] at hk
        exact ⟨e, he, hk.1, hk.2⟩
      · exact hsw

theorem replay_run_keys_nodup (calls : List replay_call) (c : replay_cache_t)
    (hshort : ∀ k ∈ calls, ∀ id, k.ephemeral_id = some id → id.length < 64)
    (h : (c.entries.map (fun e => (e.ephemeral_id, e.seq))).Nodup) :
    ((replay_run calls c).entries.map (fun e => (e.ephemeral_id, e.seq))).Nodup := by
  induction calls generalizing c with
  | nil => exact h
  | cons k ks ih =>
    simp only [replay_run]
    apply ih
    · intro k' hk'
      exact hshort k' (List.mem_cons_of_mem _ hk')
    · exact replay_keys_nodup_step k.now k.alloc_ok k.ephemeral_id k.seq c
        (hshort k (List.mem_cons_self _ _)) h

/-- A call for another pair, with a short id, cannot create an entry for the
pair `(id, seq)`; so entries of that pair keep the timestamps they had. -/
theorem replay_check_pair_stamp (now : Int) (a : Bool) (oid : Option CStr) (sq : Nat)
    (c : replay_cache_t) (id : CStr) (seq : Nat) (t1 : Int)
    (hshort : ∀ id', oid = some id' → id'.length < 64)
    (hother : ¬ (oid = some id ∧ sq = seq))
    (h : ∀ e ∈ c.entries, e.ephemeral_id = id → e.seq = seq → e.timestamp = t1) :
    ∀ e ∈ (replay_cache_check_and_add now a oid sq c).2.entries,
      e.ephemeral_id = id → e.seq = seq → e.timestamp = t1 := by
  cases oid with
  | none => exact h
  | some id' =>
    have hsw : ∀ e ∈ (replay_cache_expire_old_entries now c).entries,
        e.ephemeral_id = id → e.seq = seq → e.timestamp = t1 := by
      intro e he
      rw [replay_expire_entries] at he
      exact h e (List.mem_filter.mp he).1
    rw [replay_check_some]
    split
    · exact hsw
    · split
      · intro e he h1 h2
        rcases List.mem_cons.mp he with rfl | he'
        · exfalso
          apply hother
          simp only at h1 h2
          rw [strncpy_str_short id' 63 (by have := hshort id' rfl; omega)] at h1
          exact ⟨by rw [h1], h2⟩
        · exact hsw e he' h1 h2
      · exact hsw

theorem replay_run_pair_stamp (calls : List replay_call) (c : replay_cache_t) (id : CStr)
    (seq : Nat) (t1 : Int)
    (hcalls : ∀ k ∈ calls, (∀ id', k.ephemeral_id = some id' → id'.length < 64) ∧
      ¬ (k.ephemeral_id = some id ∧ k.seq = seq))
    (h : ∀ e ∈ c.entries, e.ephemeral_id = id → e.seq = seq → e.timestamp = t1) :
    ∀ e ∈ (replay_run calls c).entries, e.ephemeral_id = id → e.seq = seq → e.timestamp = t1 := by
  induction calls generalizing c with
  | nil => exact h
  | cons k ks ih =>
    simp only [replay_run]
    apply ih
    · intro k' hk'
      exact hcalls k' (List.mem_cons_of_mem _ hk')
    · exact replay_check_pair_stamp k.now k.alloc_ok k.ephemeral_id k.seq c id seq t1
        (hcalls k (List.mem_cons_self _ _)).1 (hcalls k (List.mem_cons_self _ _)).2 h

/-! ## The claims on the replay cache -/

/-- C1 (as the code has it, for a sender id shorter than 64 characters): if
`replay_cache_check_and_add(id, seq)` at time `t1` returns 1 on any cache, then
after any calls made at clock readings up to `t2`, where `t2 - t1 <= 600`, a
call with the same `(id, seq)` at a reading `t` up to `t2` returns 0; and on the
empty cache the first call returns 1. -/
theorem replay_idempotence (c : replay_cache_t) (id : CStr) (seq : Nat) (t1 t2 t : Int)
    (a1 a2 : Bool) (calls : List replay_call)
    (hid : id.length < 64) (httl : t2 - t1 ≤ 600)
    (hadm : (replay_cache_check_and_add t1 a1 (some id) seq c).1 = 1)
    (hcalls : ∀ k ∈ calls, k.now ≤ t2) (ht : t ≤ t2) :
    (replay_cache_check_and_add t a2 (some id) seq
        (replay_run calls (replay_cache_check_and_add t1 a1 (some id) seq c).2)).1 = 0
    ∧ (replay_cache_check_and_add t1 true (some id) seq replay_cache_init).1 = 1 := by
  constructor
  · obtain ⟨_, hhead⟩ := replay_admit_head t1 a1 id seq c hadm
    rw [strncpy_str_short id 63 (by omega)] at hhead
    have hmem : ({ ephemeral_id := id, seq := seq, timestamp := t1 } : replay_entry_t)
        ∈ (replay_cache_check_and_add t1 a1 (some id) seq c).2.entries := by
      rw [hhead]; exact List.mem_cons_self _ _
    have hrun := replay_run_keeps calls _ _ hmem (by
      intro k hk
      have := hcalls k hk
      simp only [REPLAY_CACHE_TTL]
      omega)
    have hsw : ({ ephemeral_id := id, seq := seq, timestamp := t1 } : replay_entry_t)
        ∈ (replay_cache_expire_old_entries t
            (replay_run calls (replay_cache_check_and_add t1 a1 (some id) seq c).2)).entries := by
      rw [replay_expire_entries]
      refine List.mem_filter.mpr ⟨hrun, ?_⟩
      simp only [REPLAY_CACHE_TTL, decide_eq_true_eq]
      omega
    have hscan := (replay_scan_iff id seq _).mpr ⟨_, hsw, rfl, rfl⟩
    rw [replay_check_some, if_pos hscan]
  · rfl

theorem replay_idempotence_witness :
    (replay_cache_check_and_add 1000 true (some "A".toList) 5
        (replay_run [] (replay_cache_check_and_add 1000 true (some "A".toList) 5
          replay_cache_init).2)).1 = 0
    ∧ (replay_cache_check_and_add 1000 true (some "A".toList) 5 replay_cache_init).1 = 1 :=
  replay_idempotence replay_cache_init "A".toList 5 1000 1001 1000 true true []
    (by decide) (by decide) (by decide) (by simp) (by decide)

/-- C1 as stated fails for a sender id of 64 characters: the stored id is cut to
63 characters, the scan compares it with the whole id, and the same pair is
admitted twice in the same second. -/
theorem replay_idempotence_counterexample :
    (replay_cache_check_and_add 1000 true (some (List.replicate 64 'A')) 5
        replay_cache_init).1 = 1
    ∧ (replay_cache_check_and_add 1000 true (some (List.replicate 64 'A')) 5
        (replay_cache_check_and_add 1000 true (some (List.replicate 64 'A')) 5
          replay_cache_init).2).1 = 1 := by
  decide

/-- C3 (as the code has it): for a non-NULL id and a successful allocation, with
`S` the cache after the expiry sweep at `now`: if `S` holds an entry with this id
and seq the call returns 0 and the cache is exactly `S`; otherwise it returns 1
and the cache is `S` with one new entry at the head, whose id is the first 63
characters of `id` (the id itself when it is shorter than 64), whose seq is
`seq` and whose timestamp is `now`, and count is `|S| + 1`. -/
theorem replay_check_and_add_step (now : Int) (id : CStr) (seq : Nat) (c : replay_cache_t)
    (hwf : replay_cache_wf c) (hroom : c.entries.length + 1 < SIZE_MOD) :
    ((∃ e ∈ (replay_cache_expire_old_entries now c).entries,
          e.ephemeral_id = id ∧ e.seq = seq) →
        replay_cache_check_and_add now true (some id) seq c
          = (0, replay_cache_expire_old_entries now c))
    ∧ ((¬ ∃ e ∈ (replay_cache_expire_old_entries now c).entries,
          e.ephemeral_id = id ∧ e.seq = seq) →
        replay_cache_check_and_add now true (some id) seq c
          = (1, { entries := { ephemeral_id := id.take 63, seq := seq, timestamp := now }
                              :: (replay_cache_expire_old_entries now c).entries,
                  count := (replay_cache_expire_old_entries now c).entries.length + 1 })
        ∧ (id.length < 64 → id.take 63 = id)) := by
  have hS := replay_expire_wf now c hwf
  have hle : (replay_cache_expire_old_entries now c).entries.length ≤ c.entries.length := by
    rw [replay_expire_entries]
    exact List.length_filter_le _ _
  constructor
  · intro h
    rw [replay_check_some, if_pos ((replay_scan_iff id seq _).mpr h)]
  · intro h
    have hs : ¬ (replay_scan id seq (replay_cache_expire_old_entries now c).entries = true) :=
      fun hh => h ((replay_scan_iff id seq _).mp hh)
    constructor
    · rw [replay_check_some, if_neg hs, if_pos rfl, hS.1, Nat.mod_eq_of_lt (by omega)]
      rfl
    · intro hl
      exact List.take_of_length_le (by omega)

theorem replay_check_and_add_step_witness :
    replay_cache_check_and_add 1000 true (some "A".toList) 5
        { entries := [{ ephemeral_id := "A".toList, seq := 4, timestamp := 900 },
                      { ephemeral_id := "B".toList, seq := 5, timestamp := 100 }], count := 2 }
      = (1, { entries := [{ ephemeral_id := "A".toList, seq := 5, timestamp := 1000 },
                          { ephemeral_id := "A".toList, seq := 4, timestamp := 900 }],
              count := 2 }) :=
  ((replay_check_and_add_step 1000 "A".toList 5
      { entries := [{ ephemeral_id := "A".toList, seq := 4, timestamp := 900 },
                    { ephemeral_id := "B".toList, seq := 5, timestamp := 100 }], count := 2 }
      (by decide) (by decide)).2 (by decide)).1

/-- C3 as stated fails for an id of 64 characters: the entry pushed at the head
does not hold `id` but its first 63 characters. -/
theorem replay_check_and_add_step_counterexample :
    replay_cache_check_and_add 1000 true (some (List.replicate 64 'A')) 5 replay_cache_init
      ≠ (1, { entries := [{ ephemeral_id := List.replicate 64 'A', seq := 5,
                            timestamp := 1000 }], count := 1 })
    ∧ replay_cache_check_and_add 1000 true (some (List.replicate 64 'A')) 5 replay_cache_init
      = (1, { entries := [{ ephemeral_id := List.replicate 63 'A', seq := 5,
                            timestamp := 1000 }], count := 1 }) := by
  decide

/-- C6: on a cache whose count is its number of entries,
`replay_cache_expire_old_entries` at `now` leaves exactly the entries with
`now - timestamp <= 600`, in their order and unchanged (so an entry aged exactly
600 is kept and one aged more is gone), and count is the number of entries kept. -/
theorem replay_expire_spec (now : Int) (c : replay_cache_t) (hwf : replay_cache_wf c) :
    (replay_cache_expire_old_entries now c).entries
        = c.entries.filter (fun e => decide (now - e.timestamp ≤ 600))
    ∧ (replay_cache_expire_old_entries now c).count
        = (c.entries.filter (fun e => decide (now - e.timestamp ≤ 600))).length
    ∧ (∀ e ∈ c.entries, now - e.timestamp = 600 →
        e ∈ (replay_cache_expire_old_entries now c).entries)
    ∧ (∀ e ∈ (replay_cache_expire_old_entries now c).entries, ¬ (now - e.timestamp > 600)) := by
  have he := replay_expire_entries now c
  have hS := replay_expire_wf now c hwf
  simp only [REPLAY_CACHE_TTL] at he
  refine ⟨he, ?_, ?_, ?_⟩
  · rw [hS.1, he]
  · intro e hmem hage
    rw [he]
    exact List.mem_filter.mpr ⟨hmem, by simp only [decide_eq_true_eq]; omega⟩
  · intro e hmem
    rw [he] at hmem
    have := (List.mem_filter.mp hmem).2
    simp only [decide_eq_true_eq] at this
    omega

theorem replay_expire_spec_witness :
    replay_cache_expire_old_entries 1000
        { entries := [{ ephemeral_id := "A".toList, seq := 1, timestamp := 900 },
                      { ephemeral_id := "B".toList, seq := 2, timestamp := 399 },
                      { ephemeral_id := "C".toList, seq := 3, timestamp := 400 }], count := 3 }
      = { entries := [{ ephemeral_id := "A".toList, seq := 1, timestamp := 900 },
                      { ephemeral_id := "C".toList, seq := 3, timestamp := 400 }], count := 2 } := by
  have h := replay_expire_spec 1000
    { entries := [{ ephemeral_id := "A".toList, seq := 1, timestamp := 900 },
                  { ephemeral_id := "B".toList, seq := 2, timestamp := 399 },
                  { ephemeral_id := "C".toList, seq := 3, timestamp := 400 }], count := 3 }
    (by decide)
  cases hr : replay_cache_expire_old_entries 1000
    { entries := [{ ephemeral_id := "A".toList, seq := 1, timestamp := 900 },
                  { ephemeral_id := "B".toList, seq := 2, timestamp := 399 },
                  { ephemeral_id := "C".toList, seq := 3, timestamp := 400 }], count := 3 } with
  | mk ents cnt =>
    rw [hr] at h
    obtain ⟨h1, h2, _, _⟩ := h
    simp only at h1 h2
    rw [h1, h2]
    decide

/-- C8 (as the code has it): in every cache reached from the empty cache by
calls of `replay_cache_check_and_add` whose sender ids are shorter than 64
characters (any sequence numbers, clock readings and allocation outcomes), no
two entries hold the same (ephemeral_id, seq) pair. -/
theorem replay_unique_pairs (calls : List replay_call)
    (hshort : ∀ k ∈ calls, ∀ id, k.ephemeral_id = some id → id.length < 64) :
    ((replay_run calls replay_cache_init).entries.map
      (fun e => (e.ephemeral_id, e.seq))).Nodup :=
  replay_run_keys_nodup calls replay_cache_init hshort List.nodup_nil

theorem replay_unique_pairs_witness :
    ((replay_run [⟨1000, true, some "A".toList, 5⟩, ⟨1000, true, some "A".toList, 5⟩,
                  ⟨1001, true, some "B".toList, 5⟩] replay_cache_init).entries.map
      (fun e => (e.ephemeral_id, e.seq))).Nodup :=
  replay_unique_pairs [⟨1000, true, some "A".toList, 5⟩, ⟨1000, true, some "A".toList, 5⟩,
                  ⟨1001, true, some "B".toList, 5⟩] (by decide)

/-- C8 as stated fails: two calls with the same 64-character id and the same seq
leave two entries with the same (ephemeral_id, seq) pair. -/
theorem replay_unique_pairs_counterexample :
    ¬ ((replay_run [⟨1000, true, some (List.replicate 64 'A'), 5⟩,
                    ⟨1000, true, some (List.replicate 64 'A'), 5⟩]
          replay_cache_init).entries.map (fun e => (e.ephemeral_id, e.seq))).Nodup := by
  decide

/-- C9 (as the code has it, for sender ids shorter than 64 characters): if
`replay_cache_check_and_add(id, seq)` is admitted at `t1`, the calls made
afterwards are for other pairs, and `t2 - t1 > 600`, then the call for
`(id, seq)` at `t2` returns 1 and the cache then holds the pair with timestamp
`t2`, at the head. -/
theorem replay_recency_only (c : replay_cache_t) (id : CStr) (seq : Nat) (t1 t2 : Int)
    (a1 : Bool) (calls : List replay_call)
    (hid : id.length < 64) (hgap : t2 - t1 > 600)
    (hadm : (replay_cache_check_and_add t1 a1 (some id) seq c).1 = 1)
    (hcalls : ∀ k ∈ calls, (∀ id', k.ephemeral_id = some id' → id'.length < 64) ∧
      ¬ (k.ephemeral_id = some id ∧ k.seq = seq)) :
    (replay_cache_check_and_add t2 true (some id) seq
        (replay_run calls (replay_cache_check_and_add t1 a1 (some id) seq c).2)).1 = 1
    ∧ (replay_cache_check_and_add t2 true (some id) seq
        (replay_run calls (replay_cache_check_and_add t1 a1 (some id) seq c).2)).2.entries.head?
        = some { ephemeral_id := id, seq := seq, timestamp := t2 } := by
  obtain ⟨hscan, hhead⟩ := replay_admit_head t1 a1 id seq c hadm
  have h0 : ∀ e ∈ (replay_cache_check_and_add t1 a1 (some id) seq c).2.entries,
      e.ephemeral_id = id → e.seq = seq → e.timestamp = t1 := by
    intro e he h1 h2
    rw [hhead] at he
    rcases List.mem_cons.mp he with rfl | he'
    · rfl
    · exfalso
      have := (replay_scan_iff id seq _).mpr ⟨e, he', h1, h2⟩
      rw [hscan] at this
      exact Bool.false_ne_true this
  have hrun := replay_run_pair_stamp calls _ id seq t1 hcalls h0
  have hs : ¬ (replay_scan id seq (replay_cache_expire_old_entries t2
      (replay_run calls (replay_cache_check_and_add t1 a1 (some id) seq c).2)).entries
        = true) := by
    intro hh
    obtain ⟨e, he, h1, h2⟩ := (replay_scan_iff id seq _).mp hh
    rw [replay_expire_entries] at he
    obtain ⟨hm, hy⟩ := List.mem_filter.mp he
    have := hrun e hm h1 h2
    simp only [REPLAY_CACHE_TTL, decide_eq_true_eq] at hy
    omega
  rw [replay_check_some, if_neg hs, if_pos rfl, strncpy_str_short id 63 (by omega)]
  exact ⟨rfl, rfl⟩

theorem replay_recency_only_witness :
    (replay_cache_check_and_add 1601 true (some "A".toList) 5
        (replay_run [⟨1300, true, some "B".toList, 5⟩]
          (replay_cache_check_and_add 1000 true (some "A".toList) 5 replay_cache_init).2)).1 = 1
    ∧ (replay_cache_check_and_add 1601 true (some "A".toList) 5
        (replay_run [⟨1300, true, some "B".toList, 5⟩]
          (replay_cache_check_and_add 1000 true (some "A".toList) 5
            replay_cache_init).2)).2.entries.head?
        = some { ephemeral_id := "A".toList, seq := 5, timestamp := 1601 } :=
  replay_recency_only replay_cache_init "A".toList 5 1000 1601 true
    [⟨1300, true, some "B".toList, 5⟩] (by decide) (by decide) (by decide) (by decide)

/-- C9 as stated fails in two ways.  A call in between for another pair, whose
64-character id is cut to the 63 characters of `id`, leaves a fresh entry for
`(id, seq)`, and the call for `(id, seq)` more than 600 seconds after its
admission returns 0.  And for a 64-character id the call at `t2` returns 1 but no
entry of the cache holds the id afterwards. -/
theorem replay_recency_only_counterexample :
    ((replay_cache_check_and_add 1000 true (some (List.replicate 63 'A')) 5
        replay_cache_init).1 = 1
      ∧ (some (List.replicate 64 'A'), 5) ≠ (some (List.replicate 63 'A'), 5)
      ∧ (replay_cache_check_and_add 1601 true (some (List.replicate 63 'A')) 5
          (replay_run [⟨1601, true, some (List.replicate 64 'A'), 5⟩]
            (replay_cache_check_and_add 1000 true (some (List.replicate 63 'A')) 5
              replay_cache_init).2)).1 = 0)
    ∧ ((replay_cache_check_and_add 1000 true (some (List.replicate 64 'A')) 5
        replay_cache_init).1 = 1
      ∧ (replay_cache_check_and_add 1601 true (some (List.replicate 64 'A')) 5
          (replay_cache_check_and_add 1000 true (some (List.replicate 64 'A')) 5
            replay_cache_init).2).1 = 1
      ∧ ∀ e ∈ (replay_cache_check_and_add 1601 true (some (List.replicate 64 'A')) 5
          (replay_cache_check_and_add 1000 true (some (List.replicate 64 'A')) 5
            replay_cache_init).2).2.entries, e.ephemeral_id ≠ List.replicate 64 'A') := by
  decide

/-! ### Lemmas on the rate limiter -/

theorem getD_mid (F D : List Int) (m : Nat) (x : Int) :
    (F ++ List.replicate m 0 ++ x :: D).getD (F.length + m) 0 = x := by
  rw [List.getD_append_right _ _ _ _ (by simp)]
  simp

theorem set_mid (F D : List Int) (m : Nat) (x y : Int) :
    (F ++ List.replicate m 0 ++ x :: D).set (F.length + m) y
      = F ++ List.replicate m 0 ++ y :: D := by
  rw [List.set_append, if_neg (by simp)]
  simp

theorem set_front (F R : List Int) (y z : Int) :
    (F ++ y :: R).set F.length z = F ++ z :: R := by
  rw [List.set_append, if_neg (by simp)]
  simp

/-- One iteration of the window filter on a list of the shape the loop keeps:
the kept timestamps, then zeros, then the slots not visited yet. -/
theorem ratelimit_filter_step_shape (now : Int) (F D : List Int) (m : Nat) (x : Int) :
    ratelimit_filter_step now (F ++ List.replicate m 0 ++ x :: D, F.length) (F.length + m)
      = if ts_within now WINDOW_SECONDS x then
          (F ++ [x] ++ List.replicate m 0 ++ D, F.length + 1)
        else (F ++ List.replicate (m + 1) 0 ++ D, F.length) := by
  unfold ratelimit_filter_step ts_within
  simp only [getD_mid, decide_eq_true_eq]
  by_cases hx : x ≠ 0 ∧ now - x ≤ WINDOW_SECONDS
  · rw [if_pos hx, if_pos hx]
    cases m with
    | zero => simp
    | succ m =>
      have hne : F.length ≠ F.length + (m + 1) := by omega
      rw [if_pos hne]
      have e1 : F ++ List.replicate (m + 1) 0 ++ x :: D
          = F ++ (0 : Int) :: (List.replicate m 0 ++ x :: D) := by
        simp [List.replicate_succ]
      have e2 : F ++ x :: (List.replicate m 0 ++ x :: D)
          = (F ++ [x]) ++ List.replicate m 0 ++ x :: D := by simp
      have e3 : F.length + (m + 1) = (F ++ [x]).length + m := by simp; omega
      rw [e1, set_front, e2, e3, set_mid]
      simp [List.replicate_succ']
  · rw [if_neg hx, if_neg hx, set_mid]
    simp [List.replicate_succ']

theorem ratelimit_filter_upto (now : Int) (ts : List Int) (i : Nat) (hi : i ≤ ts.length) :
    (List.range i).foldl (ratelimit_filter_step now) (ts, 0)
      = ((ts.take i).filter (ts_within now WINDOW_SECONDS)
            ++ List.replicate (i - ((ts.take i).filter (ts_within now WINDOW_SECONDS)).length) 0
            ++ ts.drop i,
          ((ts.take i).filter (ts_within now WINDOW_SECONDS)).length) := by
  induction i with
  | zero => simp
  | succ i ih =>
    have hlt : i < ts.length := by omega
    have hle := List.length_filter_le (ts_within now WINDOW_SECONDS) (ts.take i)
    have htl : (ts.take i).length = i := by simp; omega
    rw [List.range_succ, List.foldl_append, ih (by omega), List.drop_eq_getElem_cons hlt]
    have hstep := ratelimit_filter_step_shape now
      ((ts.take i).filter (ts_within now WINDOW_SECONDS)) (ts.drop (i + 1))
      (i - ((ts.take i).filter (ts_within now WINDOW_SECONDS)).length) ts[i]
    have hidx : ((ts.take i).filter (ts_within now WINDOW_SECONDS)).length
        + (i - ((ts.take i).filter (ts_within now WINDOW_SECONDS)).length) = i := by omega
    rw [hidx] at hstep
    simp only [List.foldl_cons, List.foldl_nil]
    rw [hstep]
    have htk : ts.take (i + 1) = ts.take i ++ [ts[i]] := by
      rw [List.take_succ]; simp [List.getElem?_eq_getElem hlt]
    rw [htk, List.filter_append]
    by_cases hx : ts_within now WINDOW_SECONDS ts[i] = true
    · rw [if_pos hx]
      have : List.filter (ts_within now WINDOW_SECONDS) [ts[i]] = [ts[i]] := by
        simp [List.filter, hx]
      rw [this]
      simp only [List.length_append, List.length_singleton, Prod.mk.injEq, and_true]
      congr 2
      congr 1
      omega
    · rw [if_neg hx]
      have : List.filter (ts_within now WINDOW_SECONDS) [ts[i]] = [] := by
        simp [List.filter, hx]
      rw [this]
      simp only [List.append_nil, Prod.mk.injEq, and_true]
      congr 2
      congr 1
      omega

/-- The window filter on an entry with its `MAX_PER_WINDOW` slots: the kept
timestamps in order at the front, zeros behind, and their number. -/
theorem ratelimit_filter_eq (now : Int) (ts : List Int) (h : ts.length = MAX_PER_WINDOW) :
    ratelimit_filter now ts
      = (ts.filter (ts_within now WINDOW_SECONDS)
            ++ List.replicate (MAX_PER_WINDOW - (ts.filter (ts_within now WINDOW_SECONDS)).length) 0,
          (ts.filter (ts_within now WINDOW_SECONDS)).length) := by
  unfold ratelimit_filter
  rw [ratelimit_filter_upto now ts MAX_PER_WINDOW (by omega)]
  rw [← h, List.take_length, List.drop_length, List.append_nil]

theorem has_recent_activity_eq (now : Int) (ts : List Int) (h : ts.length = MAX_PER_WINDOW) :
    has_recent_activity now ts = ts.any (ts_within now (WINDOW_SECONDS * 2)) := by
  rw [Bool.eq_iff_iff]
  unfold has_recent_activity ts_within
  simp only [List.any_eq_true, List.mem_range, decide_eq_true_eq]
  constructor
  · rintro ⟨i, hi, hp⟩
    have hlt : i < ts.length := by omega
    rw [List.getD_eq_getElem _ _ hlt] at hp
    exact ⟨ts[i], List.getElem_mem hlt, hp⟩
  · rintro ⟨x, hx, hp⟩
    obtain ⟨i, hi, rfl⟩ := List.mem_iff_getElem.mp hx
    refine ⟨i, by omega, ?_⟩
    rw [List.getD_eq_getElem _ _ hi]
    exact hp

theorem ratelimit_expire_loop_fst (now : Int) (l : List rate_entry_t) (cnt : Nat) :
    (ratelimit_expire_loop now l cnt).1
      = l.filter (fun e => has_recent_activity now e.timestamps) := by
  induction l generalizing cnt with
  | nil => rfl
  | cons e rest ih =>
    rw [List.filter_cons]
    by_cases h : has_recent_activity now e.timestamps = true
    · rw [ratelimit_expire_loop, if_pos h, if_pos h]
      simp only [ih]
    · rw [ratelimit_expire_loop, if_neg h, ih, if_neg h]

theorem ratelimit_expire_loop_snd (now : Int) (l : List rate_entry_t) (cnt : Nat)
    (hc : l.length ≤ cnt) (hlt : cnt < SIZE_MOD) :
    (ratelimit_expire_loop now l cnt).2 + l.length
      = cnt + (l.filter (fun e => has_recent_activity now e.timestamps)).length := by
  induction l generalizing cnt with
  | nil => simp [ratelimit_expire_loop]
  | cons e rest ih =>
    simp only [List.length_cons] at hc
    rw [List.filter_cons]
    by_cases h : has_recent_activity now e.timestamps = true
    · have := ih cnt (by omega) hlt
      rw [ratelimit_expire_loop, if_pos h, if_pos h]
      simp only [List.length_cons]
      omega
    · have hm := size_dec_eq cnt (by omega) hlt
      have := ih (cnt - 1) (by omega) (by omega)
      rw [ratelimit_expire_loop, if_neg h, hm, if_neg h, List.length_cons]
      omega

theorem ratelimit_expire_entries (now : Int) (l : rate_limiter_t) :
    (ratelimit_expire_inactive_senders now l).entries
      = l.entries.filter (fun e => has_recent_activity now e.timestamps) :=
  ratelimit_expire_loop_fst now l.entries l.count

theorem ratelimit_expire_wf (now : Int) (l : rate_limiter_t) (h : rate_limiter_wf l) :
    rate_limiter_wf (ratelimit_expire_inactive_senders now l) := by
  obtain ⟨h0, h1, h2⟩ := h
  have hs := ratelimit_expire_loop_snd now l.entries l.count (by omega) (by omega)
  have hle := List.length_filter_le (fun e => has_recent_activity now e.timestamps) l.entries
  have he := ratelimit_expire_entries now l
  unfold rate_limiter_wf
  rw [he]
  simp only [ratelimit_expire_inactive_senders]
  refine ⟨fun e hm => h0 e (List.mem_filter.mp hm).1, ?_, ?_⟩ <;> omega

/-- The work on an entry with its `MAX_PER_WINDOW` slots, in terms of the list
of its timestamps inside the window. -/
theorem ratelimit_window_eq (now : Int) (e : rate_entry_t)
    (h : e.timestamps.length = MAX_PER_WINDOW) :
    ratelimit_window now e
      = if (e.timestamps.filter (ts_within now WINDOW_SECONDS)).length ≥ MAX_PER_WINDOW then
          (0, { e with timestamps := e.timestamps.filter (ts_within now WINDOW_SECONDS) })
        else
          (1, { e with
                timestamps := e.timestamps.filter (ts_within now WINDOW_SECONDS) ++ now ::
                  List.replicate (MAX_PER_WINDOW - 1
                    - (e.timestamps.filter (ts_within now WINDOW_SECONDS)).length) 0,
                count := ((e.timestamps.filter (ts_within now WINDOW_SECONDS)).length : Int) + 1 }) := by
  unfold ratelimit_window
  rw [ratelimit_filter_eq now e.timestamps h]
  have hle := List.length_filter_le (ts_within now WINDOW_SECONDS) e.timestamps
  by_cases hk : (e.timestamps.filter (ts_within now WINDOW_SECONDS)).length ≥ MAX_PER_WINDOW
  · simp only [hk, if_true]
    have : MAX_PER_WINDOW - (e.timestamps.filter (ts_within now WINDOW_SECONDS)).length = 0 := by
      omega
    rw [this]
    simp
  · simp only [hk, if_false]
    have : MAX_PER_WINDOW - (e.timestamps.filter (ts_within now WINDOW_SECONDS)).length
        = (MAX_PER_WINDOW - 1
            - (e.timestamps.filter (ts_within now WINDOW_SECONDS)).length) + 1 := by omega
    rw [this, List.replicate_succ, set_front]

theorem ratelimit_window_length (now : Int) (e : rate_entry_t)
    (h : e.timestamps.length = MAX_PER_WINDOW) :
    (ratelimit_window now e).2.timestamps.length = MAX_PER_WINDOW := by
  have hle := List.length_filter_le (ts_within now WINDOW_SECONDS) e.timestamps
  rw [ratelimit_window_eq now e h]
  split
  · simp only; omega
  · simp only [List.length_append, List.length_cons, List.length_replicate]; omega

theorem ratelimit_window_id (now : Int) (e : rate_entry_t) :
    (ratelimit_window now e).2.id = e.id := by
  unfold ratelimit_window
  simp only
  split <;> rfl

/-- The lookup-and-update of `ratelimit_allow`, in terms of `rate_lookup`. -/
theorem ratelimit_on_entry_none (now : Int) (id : CStr) (l : List rate_entry_t) :
    ratelimit_on_entry now id l = none ↔ rate_lookup id l = none := by
  induction l with
  | nil => simp [ratelimit_on_entry, rate_lookup]
  | cons e rest ih =>
    unfold rate_lookup at ih ⊢
    by_cases h : e.id = id
    · simp [ratelimit_on_entry, h]
    · simp only [ratelimit_on_entry, h, if_false, List.find?_cons, decide_False]
      rw [← ih]
      cases ratelimit_on_entry now id rest <;> simp

theorem ratelimit_on_entry_some (now : Int) (id : CStr) (l : List rate_entry_t)
    (r : Int × List rate_entry_t) (h : ratelimit_on_entry now id l = some r) :
    ∃ e, rate_lookup id l = some e ∧ r.1 = (ratelimit_window now e).1
      ∧ rate_lookup id r.2 = some (ratelimit_window now e).2
      ∧ (∀ s, s ≠ id → rate_lookup s r.2 = rate_lookup s l)
      ∧ r.2.length = l.length
      ∧ ((∀ x ∈ l, x.timestamps.length = MAX_PER_WINDOW) →
          ∀ x ∈ r.2, x.timestamps.length = MAX_PER_WINDOW) := by
  induction l generalizing r with
  | nil => simp [ratelimit_on_entry] at h
  | cons e rest ih =>
    by_cases hid : e.id = id
    · simp only [ratelimit_on_entry, hid, if_true, Option.some.injEq] at h
      subst h
      refine ⟨e, by simp [rate_lookup, hid], rfl, ?_, ?_, by simp, ?_⟩
      · simp [rate_lookup, ratelimit_window_id, hid]
      · intro s hs
        have h1 : ¬ (e.id = s) := by rw [hid]; exact fun hh => hs hh.symm
        simp [rate_lookup, ratelimit_window_id, h1]
      · intro hall x hx
        rcases List.mem_cons.mp hx with rfl | hx'
        · exact ratelimit_window_length now e (hall e (List.mem_cons_self _ _))
        · exact hall x (List.mem_cons_of_mem _ hx')
    · simp only [ratelimit_on_entry, hid, if_false] at h
      cases hrec : ratelimit_on_entry now id rest with
      | none => rw [hrec] at h; simp at h
      | some r' =>
        rw [hrec] at h
        simp only [Option.some.injEq] at h
        subst h
        obtain ⟨e', h1, h2, h3, h4, h5, h6⟩ := ih r' hrec
        refine ⟨e', ?_, h2, ?_, ?_, by simp [h5], ?_⟩
        · simpa [rate_lookup, hid] using h1
        · simpa [rate_lookup, hid] using h3
        · intro s hs
          have := h4 s hs
          unfold rate_lookup at this ⊢
          simp only [List.find?_cons]
          rw [this]
        · intro hall x hx
          rcases List.mem_cons.mp hx with rfl | hx'
          · exact hall x (List.mem_cons_self _ _)
          · exact h6 (fun y hy => hall y (List.mem_cons_of_mem _ hy)) x hx'

theorem ratelimit_window_new (now : Int) (id : CStr) :
    ratelimit_window now (rate_entry_new id)
      = (1, { id := strncpy_str id 63, timestamps := now :: List.replicate 5 0, count := 1 }) := by
  rw [ratelimit_window_eq now (rate_entry_new id) (by simp [rate_entry_new])]
  simp [rate_entry_new, MAX_PER_WINDOW, List.replicate, ts_within]

/-- What a call with a non-NULL id does, in terms of the swept limiter. -/
theorem ratelimit_allow_some (now : Int) (a : Bool) (id : CStr) (l : rate_limiter_t) :
    ratelimit_allow now a (some id) l =
      match ratelimit_on_entry now id (ratelimit_expire_inactive_senders now l).entries with
      | some r => (r.1, { entries := r.2, count := (ratelimit_expire_inactive_senders now l).count })
      | none =>
        if a then
          ((ratelimit_window now (rate_entry_new id)).1,
            { entries := (ratelimit_window now (rate_entry_new id)).2
                :: (ratelimit_expire_inactive_senders now l).entries,
              count := ((ratelimit_expire_inactive_senders now l).count + 1) % SIZE_MOD })
        else (0, ratelimit_expire_inactive_senders now l) := rfl

/-- The sender has an entry after the sweep: the call works on it. -/
theorem ratelimit_allow_found (now : Int) (a : Bool) (id : CStr) (l : rate_limiter_t)
    (e : rate_entry_t)
    (h : rate_lookup id (ratelimit_expire_inactive_senders now l).entries = some e) :
    (ratelimit_allow now a (some id) l).1 = (ratelimit_window now e).1
    ∧ rate_lookup id (ratelimit_allow now a (some id) l).2.entries
        = some (ratelimit_window now e).2
    ∧ (∀ s, s ≠ id → rate_lookup s (ratelimit_allow now a (some id) l).2.entries
        = rate_lookup s (ratelimit_expire_inactive_senders now l).entries)
    ∧ (ratelimit_allow now a (some id) l).2.entries.length
        = (ratelimit_expire_inactive_senders now l).entries.length
    ∧ (ratelimit_allow now a (some id) l).2.count
        = (ratelimit_expire_inactive_senders now l).count
    ∧ ((∀ x ∈ (ratelimit_expire_inactive_senders now l).entries,
          x.timestamps.length = MAX_PER_WINDOW) →
        ∀ x ∈ (ratelimit_allow now a (some id) l).2.entries,
          x.timestamps.length = MAX_PER_WINDOW) := by
  rw [ratelimit_allow_some]
  cases hr : ratelimit_on_entry now id (ratelimit_expire_inactive_senders now l).entries with
  | none =>
    rw [(ratelimit_on_entry_none now id _).mp hr] at h
    exact absurd h (by simp)
  | some r =>
    obtain ⟨e', h1, h2, h3, h4, h5, h6⟩ := ratelimit_on_entry_some now id _ r hr
    rw [h] at h1
    cases h1
    exact ⟨h2, h3, h4, h5, rfl, h6⟩

/-- The sender has no entry after the sweep and the allocation succeeds: a new
entry holding `now` in slot 0 is pushed at the head, and the call returns 1. -/
theorem ratelimit_allow_fresh (now : Int) (id : CStr) (l : rate_limiter_t)
    (h : rate_lookup id (ratelimit_expire_inactive_senders now l).entries = none) :
    ratelimit_allow now true (some id) l
      = (1, { entries := { id := strncpy_str id 63, timestamps := now :: List.replicate 5 0,
                           count := 1 } :: (ratelimit_expire_inactive_senders now l).entries,
              count := ((ratelimit_expire_inactive_senders now l).count + 1) % SIZE_MOD }) := by
  rw [ratelimit_allow_some, (ratelimit_on_entry_none now id _).mpr h]
  simp only [if_true, ratelimit_window_new]

/-- The sender has no entry after the sweep and the allocation fails. -/
theorem ratelimit_allow_nomem (now : Int) (id : CStr) (l : rate_limiter_t)
    (h : rate_lookup id (ratelimit_expire_inactive_senders now l).entries = none) :
    ratelimit_allow now false (some id) l = (0, ratelimit_expire_inactive_senders now l) := by
  rw [ratelimit_allow_some, (ratelimit_on_entry_none now id _).mpr h]
  simp

/-! ## The claims on the rate limiter -/

/-- C10: on a limiter whose entries have their six slots and whose count is its
number of entries, `ratelimit_expire_inactive_senders` at `now` leaves exactly
the entries that have a non-empty timestamp `ts` with `now - ts <= 20`, whole and
in their order, removes every other entry, and count is the number of entries
kept. -/
theorem ratelimit_expire_spec (now : Int) (l : rate_limiter_t) (hwf : rate_limiter_wf l) :
    (ratelimit_expire_inactive_senders now l).entries
        = l.entries.filter (fun e => e.timestamps.any (fun ts => decide (ts ≠ 0 ∧ now - ts ≤ 20)))
    ∧ (ratelimit_expire_inactive_senders now l).count
        = (l.entries.filter
            (fun e => e.timestamps.any (fun ts => decide (ts ≠ 0 ∧ now - ts ≤ 20)))).length := by
  have he := ratelimit_expire_entries now l
  have hS := ratelimit_expire_wf now l hwf
  have hf : l.entries.filter (fun e => has_recent_activity now e.timestamps)
      = l.entries.filter (fun e => e.timestamps.any (fun ts => decide (ts ≠ 0 ∧ now - ts ≤ 20))) := by
    apply List.filter_congr
    intro e hm
    rw [has_recent_activity_eq now e.timestamps (hwf.1 e hm)]
    rfl
  rw [hf] at he
  exact ⟨he, by rw [hS.2.1, he]⟩

theorem ratelimit_expire_spec_witness :
    ratelimit_expire_inactive_senders 1000
        { entries := [{ id := "A".toList, timestamps := [0, 0, 0, 0, 0, 0], count := 0 },
                      { id := "B".toList, timestamps := [979, 980, 0, 0, 0, 0], count := 2 },
                      { id := "C".toList, timestamps := [979, 0, 0, 0, 0, 0], count := 1 }],
          count := 3 }
      = { entries := [{ id := "B".toList, timestamps := [979, 980, 0, 0, 0, 0], count := 2 }],
          count := 1 } := by
  have h := ratelimit_expire_spec 1000
    { entries := [{ id := "A".toList, timestamps := [0, 0, 0, 0, 0, 0], count := 0 },
                  { id := "B".toList, timestamps := [979, 980, 0, 0, 0, 0], count := 2 },
                  { id := "C".toList, timestamps := [979, 0, 0, 0, 0, 0], count := 1 }],
      count := 3 } (by decide)
  cases hr : ratelimit_expire_inactive_senders 1000
    { entries := [{ id := "A".toList, timestamps := [0, 0, 0, 0, 0, 0], count := 0 },
                  { id := "B".toList, timestamps := [979, 980, 0, 0, 0, 0], count := 2 },
                  { id := "C".toList, timestamps := [979, 0, 0, 0, 0, 0], count := 1 }],
      count := 3 } with
  | mk ents cnt =>
    rw [hr] at h
    obtain ⟨h1, h2⟩ := h
    simp only at h1 h2
    rw [h1, h2]
    decide

/-- C4: `ratelimit_allow(id)` at `now`, non-NULL id, allocation succeeding, on a
limiter whose entries have their six slots.  With `K` the sender's stored
non-empty timestamps `ts` with `now - ts <= 10` after the sweep and `k` their
number: if `k >= 6` the call returns 0 and the sender keeps exactly `K` (`now` is
not recorded); if `k < 6` it returns 1, `now` is stored in slot `k` behind `K`,
and the entry's count is `k + 1`; a sender without an entry (`k = 0`) gets a new
entry at the head with `now` in slot 0 and count 1, and the call returns 1. -/
theorem ratelimit_allow_step (now : Int) (id : CStr) (l : rate_limiter_t)
    (hwf : rate_limiter_wf l) :
    (∀ e, rate_lookup id (ratelimit_expire_inactive_senders now l).entries = some e →
      ((e.timestamps.filter (fun ts => decide (ts ≠ 0 ∧ now - ts ≤ 10))).length ≥ 6 →
        (ratelimit_allow now true (some id) l).1 = 0
        ∧ rate_lookup id (ratelimit_allow now true (some id) l).2.entries
            = some { e with
                timestamps := e.timestamps.filter (fun ts => decide (ts ≠ 0 ∧ now - ts ≤ 10)) })
      ∧ ((e.timestamps.filter (fun ts => decide (ts ≠ 0 ∧ now - ts ≤ 10))).length < 6 →
        (ratelimit_allow now true (some id) l).1 = 1
        ∧ rate_lookup id (ratelimit_allow now true (some id) l).2.entries
            = some { e with
                timestamps := e.timestamps.filter (fun ts => decide (ts ≠ 0 ∧ now - ts ≤ 10))
                  ++ now :: List.replicate
                      (5 - (e.timestamps.filter
                              (fun ts => decide (ts ≠ 0 ∧ now - ts ≤ 10))).length) 0,
                count := ((e.timestamps.filter
                              (fun ts => decide (ts ≠ 0 ∧ now - ts ≤ 10))).length : Int) + 1 }))
    ∧ (rate_lookup id (ratelimit_expire_inactive_senders now l).entries = none →
        (ratelimit_allow now true (some id) l).1 = 1
        ∧ (ratelimit_allow now true (some id) l).2.entries.head?
            = some { id := id.take 63, timestamps := now :: List.replicate 5 0, count := 1 }) := by
  have hS := ratelimit_expire_wf now l hwf
  constructor
  · intro e he
    obtain ⟨h1, h2, _⟩ := ratelimit_allow_found now true id l e he
    have hlen : e.timestamps.length = MAX_PER_WINDOW := by
      apply hS.1 e
      exact List.mem_of_find?_eq_some he
    have hw := ratelimit_window_eq now e hlen
    have hK : e.timestamps.filter (ts_within now WINDOW_SECONDS)
        = e.timestamps.filter (fun ts => decide (ts ≠ 0 ∧ now - ts ≤ 10)) := rfl
    rw [hK] at hw
    constructor
    · intro hk
      rw [if_pos (by simpa [MAX_PER_WINDOW] using hk)] at hw
      rw [h1, h2, hw]
      exact ⟨rfl, rfl⟩
    · intro hk
      rw [if_neg (by simp only [MAX_PER_WINDOW]; omega)] at hw
      rw [h1, h2, hw]
      exact ⟨rfl, rfl⟩
  · intro hn
    rw [ratelimit_allow_fresh now id l hn]
    exact ⟨rfl, rfl⟩

theorem ratelimit_allow_step_witness :
    (ratelimit_allow 1000 true (some "B".toList)
        { entries := [{ id := "B".toList, timestamps := [985, 990, 995, 0, 0, 0], count := 3 }],
          count := 1 }).1 = 1
    ∧ rate_lookup "B".toList (ratelimit_allow 1000 true (some "B".toList)
        { entries := [{ id := "B".toList, timestamps := [985, 990, 995, 0, 0, 0], count := 3 }],
          count := 1 }).2.entries
      = some { id := "B".toList, timestamps := [990, 995, 1000, 0, 0, 0], count := 3 } :=
  ((ratelimit_allow_step 1000 "B".toList
      { entries := [{ id := "B".toList, timestamps := [985, 990, 995, 0, 0, 0], count := 3 }],
        count := 1 } (by decide)).1
      { id := "B".toList, timestamps := [985, 990, 995, 0, 0, 0], count := 3 }
      (by decide)).2 (by decide)

/-! ### One sender alone -/

theorem filter_live (now d : Int) (T : List Int) (m : Nat)
    (h : ∀ x ∈ T, x ≠ 0 ∧ now - x ≤ d) :
    (T ++ List.replicate m 0).filter (ts_within now d) = T := by
  rw [List.filter_append]
  have h1 : T.filter (ts_within now d) = T := by
    rw [List.filter_eq_self]
    intro x hx
    simpa [ts_within] using h x hx
  have h2 : (List.replicate m (0 : Int)).filter (ts_within now d) = [] := by
    rw [List.filter_eq_nil_iff]
    intro x hx
    rw [List.eq_of_mem_replicate hx]
    simp [ts_within]
  rw [h1, h2, List.append_nil]

theorem ratelimit_sweep_single (now : Int) (e : rate_entry_t) (n : Nat)
    (hact : has_recent_activity now e.timestamps = true) :
    ratelimit_expire_inactive_senders now { entries := [e], count := n }
      = { entries := [e], count := n } := by
  simp [ratelimit_expire_inactive_senders, ratelimit_expire_loop, hact]

theorem ratelimit_allow_single (now : Int) (a : Bool) (e : rate_entry_t) (n : Nat)
    (hact : has_recent_activity now e.timestamps = true) :
    ratelimit_allow now a (some e.id) { entries := [e], count := n }
      = ((ratelimit_window now e).1, { entries := [(ratelimit_window now e).2], count := n }) := by
  rw [ratelimit_allow_some, ratelimit_sweep_single now e n hact]
  simp [ratelimit_on_entry]

theorem rate_single_active (now : Int) (T : List Int) (hT : T.length ≤ MAX_PER_WINDOW)
    (h : ∃ x ∈ T, x ≠ 0 ∧ now - x ≤ 20) :
    has_recent_activity now (T ++ List.replicate (MAX_PER_WINDOW - T.length) 0) = true := by
  rw [has_recent_activity_eq _ _ (by simp; omega)]
  obtain ⟨x, hx, hp⟩ := h
  rw [List.any_eq_true]
  exact ⟨x, List.mem_append_left _ hx, by simpa [ts_within, WINDOW_SECONDS] using hp⟩

/-- The first call of a sender with a short id on the empty limiter. -/
theorem ratelimit_allow_first (now : Int) (B : CStr) (hB : B.length < 64) :
    ratelimit_allow now true (some B) ratelimit_init = (1, rate_single B [now]) := by
  rw [ratelimit_allow_fresh now B ratelimit_init rfl, strncpy_str_short B 63 (by omega)]
  rfl

/-- A call of the only sender while fewer than six timestamps are stored, all of
them inside the window: admitted, and `now` is appended. -/
theorem ratelimit_allow_live (now : Int) (B : CStr) (T : List Int)
    (hne : T ≠ []) (hT : T.length < MAX_PER_WINDOW)
    (h : ∀ x ∈ T, x ≠ 0 ∧ now - x ≤ 10) :
    ratelimit_allow now true (some B) (rate_single B T) = (1, rate_single B (T ++ [now])) := by
  have hact := rate_single_active now T (by omega) (by
    obtain ⟨x, hx⟩ := List.exists_mem_of_ne_nil T hne
    exact ⟨x, hx, (h x hx).1, by have := (h x hx).2; omega⟩)
  unfold rate_single
  have := ratelimit_allow_single now true
    { id := B, timestamps := T ++ List.replicate (MAX_PER_WINDOW - T.length) 0,
      count := (T.length : Int) } 1 hact
  simp only at this
  rw [this, ratelimit_window_eq _ _ (by simp; omega)]
  simp only [filter_live now WINDOW_SECONDS T _ h]
  rw [if_neg (by omega)]
  simp only [List.length_append, List.length_singleton, Prod.mk.injEq, true_and,
    rate_limiter_t.mk.injEq, and_true, List.cons.injEq, rate_entry_t.mk.injEq, Nat.cast_add,
    Nat.cast_one]
  rw [List.append_assoc]
  congr 2
  show _ = List.replicate (MAX_PER_WINDOW - (T.length + 1)) 0
  congr 1
  omega

/-- A call of the only sender while six timestamps are stored, all of them
inside the window: denied, and nothing changes. -/
theorem ratelimit_allow_full (now : Int) (a : Bool) (B : CStr) (T : List Int)
    (hT : T.length = MAX_PER_WINDOW) (h : ∀ x ∈ T, x ≠ 0 ∧ now - x ≤ 10) :
    ratelimit_allow now a (some B) (rate_single B T) = (0, rate_single B T) := by
  have hne : T ≠ [] := by
    intro h0; rw [h0] at hT; simp [MAX_PER_WINDOW] at hT
  have hact := rate_single_active now T (by omega) (by
    obtain ⟨x, hx⟩ := List.exists_mem_of_ne_nil T hne
    exact ⟨x, hx, (h x hx).1, by have := (h x hx).2; omega⟩)
  unfold rate_single
  have := ratelimit_allow_single now a
    { id := B, timestamps := T ++ List.replicate (MAX_PER_WINDOW - T.length) 0,
      count := (T.length : Int) } 1 hact
  simp only at this
  rw [this, ratelimit_window_eq _ _ (by simp; omega)]
  simp only [filter_live now WINDOW_SECONDS T _ h]
  rw [if_pos (by omega)]
  simp [hT]

/-- The value returned to the only sender, by the number of its stored
timestamps inside the window. -/
theorem ratelimit_allow_single_result (now : Int) (a : Bool) (B : CStr) (T : List Int)
    (hT : T.length = MAX_PER_WINDOW) (h : ∃ x ∈ T, x ≠ 0 ∧ now - x ≤ 20) :
    (ratelimit_allow now a (some B) (rate_single B T)).1
      = if (T.filter (ts_within now WINDOW_SECONDS)).length ≥ MAX_PER_WINDOW then 0 else 1 := by
  have hact := rate_single_active now T (by omega) h
  unfold rate_single
  have := ratelimit_allow_single now a
    { id := B, timestamps := T ++ List.replicate (MAX_PER_WINDOW - T.length) 0,
      count := (T.length : Int) } 1 hact
  simp only at this
  rw [this, ratelimit_window_eq _ _ (by simp; omega)]
  simp only [hT, Nat.sub_self, List.replicate_zero, List.append_nil]
  split <;> rfl

/-- C7 (as the code has it): for a sender `B` of fewer than 64 characters on the
empty limiter and seven calls at non-zero clock readings `t1 <= ... <= t7` with
`t7 - t1 <= 10`, the first six return 1 and the seventh returns 0; a further
call at `t7 + 10` returns 1 when `t1 < t7`, and 0 when the seven readings are
all equal (a timestamp aged exactly 10 is still inside the window). -/
theorem ratelimit_recovery (B : CStr) (t1 t2 t3 t4 t5 t6 t7 : Int) (hB : B.length < 64)
    (hz : t1 ≠ 0 ∧ t2 ≠ 0 ∧ t3 ≠ 0 ∧ t4 ≠ 0 ∧ t5 ≠ 0 ∧ t6 ≠ 0 ∧ t7 ≠ 0)
    (hs : t1 ≤ t2 ∧ t2 ≤ t3 ∧ t3 ≤ t4 ∧ t4 ≤ t5 ∧ t5 ≤ t6 ∧ t6 ≤ t7)
    (hw : t7 - t1 ≤ 10) :
    (ratelimit_run [⟨t1, true, some B⟩, ⟨t2, true, some B⟩, ⟨t3, true, some B⟩,
        ⟨t4, true, some B⟩, ⟨t5, true, some B⟩, ⟨t6, true, some B⟩, ⟨t7, true, some B⟩,
        ⟨t7 + 10, true, some B⟩] ratelimit_init).1.map Prod.snd
      = [1, 1, 1, 1, 1, 1, 0, if t1 < t7 then 1 else 0] := by
  have e1 := ratelimit_allow_first t1 B hB
  have e2 := ratelimit_allow_live t2 B [t1] (by simp) (by simp [MAX_PER_WINDOW])
    (by intro x hx; simp at hx; omega)
  have e3 := ratelimit_allow_live t3 B ([t1] ++ [t2]) (by simp) (by simp [MAX_PER_WINDOW])
    (by intro x hx; simp at hx; omega)
  have e4 := ratelimit_allow_live t4 B ([t1] ++ [t2] ++ [t3]) (by simp)
    (by simp [MAX_PER_WINDOW]) (by intro x hx; simp at hx; omega)
  have e5 := ratelimit_allow_live t5 B ([t1] ++ [t2] ++ [t3] ++ [t4]) (by simp)
    (by simp [MAX_PER_WINDOW]) (by intro x hx; simp at hx; omega)
  have e6 := ratelimit_allow_live t6 B ([t1] ++ [t2] ++ [t3] ++ [t4] ++ [t5]) (by simp)
    (by simp [MAX_PER_WINDOW]) (by intro x hx; simp at hx; omega)
  have e7 := ratelimit_allow_full t7 true B ([t1] ++ [t2] ++ [t3] ++ [t4] ++ [t5] ++ [t6])
    (by simp [MAX_PER_WINDOW]) (by intro x hx; simp at hx; omega)
  have e8 := ratelimit_allow_single_result (t7 + 10) true B
    ([t1] ++ [t2] ++ [t3] ++ [t4] ++ [t5] ++ [t6]) (by simp [MAX_PER_WINDOW])
    ⟨t6, by simp, by omega, by omega⟩
  have hk : ((([t1] ++ [t2] ++ [t3] ++ [t4] ++ [t5] ++ [t6]).filter
      (ts_within (t7 + 10) WINDOW_SECONDS)).length ≥ MAX_PER_WINDOW) ↔ ¬ (t1 < t7) := by
    constructor
    · intro hlen hlt
      have hf : ¬ (ts_within (t7 + 10) WINDOW_SECONDS t1 = true) := by
        simp only [ts_within, WINDOW_SECONDS, decide_eq_true_eq]; omega
      have hle := List.length_filter_le (ts_within (t7 + 10) WINDOW_SECONDS)
        [t2, t3, t4, t5, t6]
      have hl : [t1] ++ [t2] ++ [t3] ++ [t4] ++ [t5] ++ [t6] = t1 :: [t2, t3, t4, t5, t6] := rfl
      rw [hl, List.filter_cons, if_neg hf] at hlen
      simp only [List.length_cons, List.length_nil, MAX_PER_WINDOW] at hle hlen
      omega
    · intro hge
      have hfl := filter_live (t7 + 10) WINDOW_SECONDS
        ([t1] ++ [t2] ++ [t3] ++ [t4] ++ [t5] ++ [t6]) 0
        (by intro x hx; simp at hx; simp only [WINDOW_SECONDS]; omega)
      rw [List.replicate_zero, List.append_nil] at hfl
      rw [hfl]
      simp [MAX_PER_WINDOW]
  simp only [ratelimit_run, e1, e2, e3, e4, e5, e6, e7, e8, List.map, hk]
  by_cases hlt : t1 < t7 <;> simp [hlt]

theorem ratelimit_recovery_witness :
    (ratelimit_run [⟨100, true, some "B".toList⟩, ⟨101, true, some "B".toList⟩,
        ⟨102, true, some "B".toList⟩, ⟨103, true, some "B".toList⟩,
        ⟨104, true, some "B".toList⟩, ⟨105, true, some "B".toList⟩,
        ⟨106, true, some "B".toList⟩, ⟨106 + 10, true, some "B".toList⟩]
        ratelimit_init).1.map Prod.snd
      = [1, 1, 1, 1, 1, 1, 0, 1] :=
  (ratelimit_recovery "B".toList 100 101 102 103 104 105 106 (by decide) (by decide)
    (by decide) (by decide)).trans (by decide)

/-- C7 as stated fails in three ways: when the seven calls fall in the same
second the call 10 seconds later is still denied; at clock reading 0 a stored
timestamp looks like an empty slot, so the seventh call is admitted; and with a
64-character id no entry is ever found again, so the seventh call is admitted. -/
theorem ratelimit_recovery_counterexample :
    (ratelimit_run [⟨100, true, some "B".toList⟩, ⟨100, true, some "B".toList⟩,
        ⟨100, true, some "B".toList⟩, ⟨100, true, some "B".toList⟩,
        ⟨100, true, some "B".toList⟩, ⟨100, true, some "B".toList⟩,
        ⟨100, true, some "B".toList⟩, ⟨100 + 10, true, some "B".toList⟩]
        ratelimit_init).1.map Prod.snd
      = [1, 1, 1, 1, 1, 1, 0, 0]
    ∧ (ratelimit_run [⟨0, true, some "B".toList⟩, ⟨0, true, some "B".toList⟩,
        ⟨0, true, some "B".toList⟩, ⟨0, true, some "B".toList⟩,
        ⟨0, true, some "B".toList⟩, ⟨0, true, some "B".toList⟩,
        ⟨0, true, some "B".toList⟩] ratelimit_init).1.map Prod.snd
      = [1, 1, 1, 1, 1, 1, 1]
    ∧ (ratelimit_run [⟨100, true, some (List.replicate 64 'B')⟩,
        ⟨101, true, some (List.replicate 64 'B')⟩, ⟨102, true, some (List.replicate 64 'B')⟩,
        ⟨103, true, some (List.replicate 64 'B')⟩, ⟨104, true, some (List.replicate 64 'B')⟩,
        ⟨105, true, some (List.replicate 64 'B')⟩, ⟨106, true, some (List.replicate 64 'B')⟩]
        ratelimit_init).1.map Prod.snd
      = [1, 1, 1, 1, 1, 1, 1] := by
  refine ⟨?_, ?_, ?_⟩ <;> decide

/-! ### The rate bound -/

theorem find_filter_of_pos {α : Type} (p q : α → Bool) (l : List α) (e : α)
    (h : l.find? q = some e) (hp : p e = true) : (l.filter p).find? q = some e := by
  induction l with
  | nil => simp at h
  | cons x rest ih =>
    rw [List.find?_cons] at h
    by_cases hq : q x = true
    · rw [hq] at h
      simp only [Option.some.injEq] at h
      subst h
      rw [List.filter_cons, if_pos hp, List.find?_cons, hq]
    · have hq' : q x = false := by simpa using hq
      rw [hq'] at h
      rw [List.filter_cons]
      split
      · rw [List.find?_cons, hq']
        exact ih h
      · exact ih h

theorem stored_since_inactive (now th : Int) (e : rate_entry_t)
    (hlen : e.timestamps.length = MAX_PER_WINDOW)
    (hact : ¬ (has_recent_activity now e.timestamps = true)) (hth : now - 10 ≤ th) :
    stored_since th (some e) = 0 := by
  rw [has_recent_activity_eq now e.timestamps hlen, List.any_eq_true] at hact
  unfold stored_since
  rw [List.length_eq_zero, List.filter_eq_nil_iff]
  intro x hx hq
  apply hact
  refine ⟨x, hx, ?_⟩
  simp only [ts_within, WINDOW_SECONDS, decide_eq_true_eq] at hq ⊢
  omega

/-- The sweep at `now` keeps the invariant, for the clock reading `now`. -/
theorem rate_inv_sweep (l : rate_limiter_t) (H : List (rate_call × Int)) (T now : Int)
    (hinv : rate_inv l H T) (hT : T ≤ now) :
    rate_inv (ratelimit_expire_inactive_senders now l) H now := by
  obtain ⟨hlen, hc⟩ := hinv
  rw [rate_inv, ratelimit_expire_entries]
  refine ⟨fun e hm => hlen e (List.mem_filter.mp hm).1, ?_⟩
  intro s th hth
  have h0 := hc s th (by omega)
  cases hl : rate_lookup s l.entries with
  | none =>
    rw [hl] at h0
    simp only [stored_since] at h0
    omega
  | some e =>
    rw [hl] at h0
    have hmem : e ∈ l.entries := List.mem_of_find?_eq_some hl
    by_cases hact : has_recent_activity now e.timestamps = true
    · have := find_filter_of_pos (fun x : rate_entry_t => has_recent_activity now x.timestamps)
        (fun x => decide (x.id = s)) l.entries e hl hact
      unfold rate_lookup
      rw [this]
      exact h0
    · rw [stored_since_inactive now th e (hlen e hmem) hact hth] at h0
      omega

theorem stored_since_filter (now th : Int) (ts : List Int) (hth : now - 10 ≤ th) :
    ((ts.filter (ts_within now WINDOW_SECONDS)).filter
        (fun x => decide (x ≠ 0 ∧ th ≤ x))).length
      = (ts.filter (fun x => decide (x ≠ 0 ∧ th ≤ x))).length := by
  rw [List.filter_filter]
  congr 1
  apply List.filter_congr
  intro x _
  simp only [ts_within, WINDOW_SECONDS, Bool.and_eq_true, decide_eq_true_eq, Bool.decide_and,
    Bool.decide_eq_true]
  by_cases h1 : x ≠ 0 <;> by_cases h2 : th ≤ x <;> simp [h1, h2]
  omega

theorem stored_since_window_count (now : Int) (ts : List Int) :
    (ts.filter (ts_within now WINDOW_SECONDS)).length
      = (ts.filter (fun x => decide (x ≠ 0 ∧ now - 10 ≤ x))).length := by
  congr 1
  apply List.filter_congr
  intro x _
  simp only [ts_within, WINDOW_SECONDS]
  by_cases h1 : x ≠ 0 <;> simp [h1]
  constructor <;> intro h <;> omega

/-- The timestamps of `th` or later that an entry stores after the work of a
call on it, when `th` is inside the window of the call. -/
theorem stored_since_window (now th : Int) (e : rate_entry_t)
    (hlen : e.timestamps.length = MAX_PER_WINDOW) (hth : now - 10 ≤ th) (hnz : now ≠ 0) :
    stored_since th (some (ratelimit_window now e).2)
      = stored_since th (some e)
        + (if (ratelimit_window now e).1 = 1 ∧ th ≤ now then 1 else 0) := by
  rw [ratelimit_window_eq now e hlen]
  by_cases hk : (e.timestamps.filter (ts_within now WINDOW_SECONDS)).length ≥ MAX_PER_WINDOW
  · rw [if_pos hk]
    simp only [stored_since, stored_since_filter now th e.timestamps hth]
    simp
  · rw [if_neg hk]
    simp only [stored_since, List.filter_append, List.length_append,
      stored_since_filter now th e.timestamps hth, List.filter_cons]
    have hz : (List.replicate (MAX_PER_WINDOW - 1
        - (e.timestamps.filter (ts_within now WINDOW_SECONDS)).length) (0 : Int)).filter
          (fun x => decide (x ≠ 0 ∧ th ≤ x)) = [] := by
      rw [List.filter_eq_nil_iff]
      intro x hx
      rw [List.eq_of_mem_replicate hx]
      simp
    rw [hz]
    by_cases h : th ≤ now <;> simp [h, hnz]

theorem admitted_since_cons (s : CStr) (th : Int) (k : rate_call) (r : Int)
    (H : List (rate_call × Int)) :
    admitted_since s th ((k, r) :: H)
      = (if k.ephemeral_id = some s ∧ r = 1 ∧ th ≤ k.now then 1 else 0)
        + admitted_since s th H := by
  unfold admitted_since
  rw [List.filter_cons]
  by_cases h : k.ephemeral_id = some s ∧ r = 1 ∧ th ≤ k.now
  · rw [if_pos (by simpa using h), if_pos h, List.length_cons]; omega
  · rw [if_neg (by simpa using h), if_neg h]; omega

theorem admitted_in_window_cons (s : CStr) (t : Int) (k : rate_call) (r : Int)
    (H : List (rate_call × Int)) :
    admitted_in_window s t ((k, r) :: H)
      = (if k.ephemeral_id = some s ∧ r = 1 ∧ t ≤ k.now ∧ k.now ≤ t + 10 then 1 else 0)
        + admitted_in_window s t H := by
  unfold admitted_in_window
  rw [List.filter_cons]
  by_cases h : k.ephemeral_id = some s ∧ r = 1 ∧ t ≤ k.now ∧ k.now ≤ t + 10
  · rw [if_pos (by simpa using h), if_pos h, List.length_cons]; omega
  · rw [if_neg (by simpa using h), if_neg h]; omega

theorem admitted_in_window_le_since (s : CStr) (t th : Int) (H : List (rate_call × Int))
    (h : th ≤ t) : admitted_in_window s t H ≤ admitted_since s th H := by
  unfold admitted_in_window admitted_since
  apply List.Sublist.length_le
  apply List.monotone_filter_right
  intro kr hkr
  simp only [decide_eq_true_eq] at hkr ⊢
  exact ⟨hkr.1, hkr.2.1, by omega⟩

/-- One call keeps the invariant; and when it admits sender `s`, at most five
earlier admissions of `s` lie in the ten seconds before it. -/
theorem rate_inv_step (l : rate_limiter_t) (H : List (rate_call × Int)) (T now : Int)
    (a : Bool) (oid : Option CStr) (hinv : rate_inv l H T) (hT : T ≤ now) (hnz : now ≠ 0)
    (hshort : ∀ id, oid = some id → id.length < 64) :
    rate_inv (ratelimit_allow now a oid l).2
        (({ now := now, alloc_ok := a, ephemeral_id := oid }, (ratelimit_allow now a oid l).1) :: H)
        now
    ∧ (∀ s, oid = some s → (ratelimit_allow now a oid l).1 = 1 →
        admitted_since s (now - 10) H + 1 ≤ 6) := by
  cases oid with
  | none =>
    refine ⟨⟨hinv.1, ?_⟩, fun s hs => by simp at hs⟩
    intro s th hth
    rw [admitted_since_cons, if_neg (by simp)]
    have := hinv.2 s th (by omega)
    simpa [ratelimit_allow] using this
  | some id =>
    obtain ⟨hlenS, hcS⟩ := rate_inv_sweep l H T now hinv hT
    have hid := strncpy_str_short id 63 (by have := hshort id rfl; omega)
    cases hl : rate_lookup id (ratelimit_expire_inactive_senders now l).entries with
    | none =>
      have hzero : ∀ th, now - 10 ≤ th → admitted_since id th H = 0 := by
        intro th hth
        have := hcS id th hth
        rw [hl] at this
        simp only [stored_since] at this
        omega
      cases a with
      | false =>
        rw [ratelimit_allow_nomem now id l hl]
        refine ⟨⟨hlenS, ?_⟩, fun s _ h1 => by simp at h1⟩
        intro s th hth
        rw [admitted_since_cons, if_neg (by simp)]
        have := hcS s th hth
        simp only [Nat.zero_add]
        exact this
      | true =>
        rw [ratelimit_allow_fresh now id l hl, hid]
        refine ⟨⟨?_, ?_⟩, ?_⟩
        · intro e he
          rcases List.mem_cons.mp he with rfl | he'
          · simp [MAX_PER_WINDOW]
          · exact hlenS e he'
        · intro s th hth
          rw [admitted_since_cons]
          by_cases hs : s = id
          · subst hs
            rw [hzero th hth]
            simp only [rate_lookup, List.find?_cons, decide_True, stored_since, List.filter_cons]
            by_cases h : th ≤ now <;> simp [h, hnz]
          · have hne : ¬ (some id = some s) := by
              intro hh; exact hs (Option.some.inj hh).symm
            rw [if_neg (fun hh => hne hh.1)]
            have := hcS s th hth
            have hlk : rate_lookup s
                (({ id := id, timestamps := now :: List.replicate 5 0, count := 1 } : rate_entry_t)
                  :: (ratelimit_expire_inactive_senders now l).entries)
                = rate_lookup s (ratelimit_expire_inactive_senders now l).entries := by
              have hne2 : ¬ (id = s) := fun hh => hs hh.symm
              simp [rate_lookup, List.find?_cons, hne2]
            rw [hlk]
            omega
        · intro s hs _
          have : s = id := (Option.some.inj hs).symm
          subst this
          rw [hzero (now - 10) (by omega)]
          omega
    | some e =>
      obtain ⟨h1, h2, h3, _, _, h6⟩ := ratelimit_allow_found now a id l e hl
      have hlen : e.timestamps.length = MAX_PER_WINDOW :=
        hlenS e (List.mem_of_find?_eq_some hl)
      refine ⟨⟨h6 hlenS, ?_⟩, ?_⟩
      · intro s th hth
        rw [admitted_since_cons]
        have hb := hcS s th hth
        by_cases hs : s = id
        · subst hs
          rw [h2, stored_since_window now th e hlen hth hnz, h1]
          rw [hl] at hb
          by_cases hc : (ratelimit_window now e).1 = 1 ∧ th ≤ now
          · rw [if_pos hc]
            split <;> omega
          · rw [if_neg hc, if_neg (fun hh => hc ⟨hh.2.1, hh.2.2⟩)]
            omega
        · have hne : ¬ (some id = some s) := by
            intro hh; exact hs (Option.some.inj hh).symm
          rw [if_neg (fun hh => hne hh.1), h3 s hs]
          omega
      · intro s hs hr
        have : s = id := (Option.some.inj hs).symm
        subst this
        have hb := hcS s (now - 10) (by omega)
        rw [hl] at hb
        simp only [stored_since] at hb
        rw [← stored_since_window_count now e.timestamps] at hb
        rw [h1, ratelimit_window_eq now e hlen] at hr
        by_cases hk : (e.timestamps.filter (ts_within now WINDOW_SECONDS)).length ≥ MAX_PER_WINDOW
        · rw [if_pos hk] at hr
          simp at hr
        · simp only [MAX_PER_WINDOW] at hk
          omega

/-- Along any run at non-decreasing, non-zero clock readings with short ids, no
sender has more than six admissions in any closed interval of ten seconds. -/
theorem rate_run_bound (calls : List rate_call) (l : rate_limiter_t)
    (H : List (rate_call × Int)) (T : Int)
    (hinv : rate_inv l H T) (hG : ∀ s t, admitted_in_window s t H ≤ 6)
    (hsorted : List.Pairwise (fun a b : rate_call => a.now ≤ b.now) calls)
    (hT : ∀ k ∈ calls, T ≤ k.now) (hnz : ∀ k ∈ calls, k.now ≠ 0)
    (hshort : ∀ k ∈ calls, ∀ id, k.ephemeral_id = some id → id.length < 64) :
    ∀ s t, admitted_in_window s t ((ratelimit_run calls l).1.reverse ++ H) ≤ 6 := by
  induction calls generalizing l H T with
  | nil => simpa [ratelimit_run] using hG
  | cons k ks ih =>
    obtain ⟨hk, hks⟩ := List.pairwise_cons.mp hsorted
    obtain ⟨hstep, hbound⟩ := rate_inv_step l H T k.now k.alloc_ok k.ephemeral_id hinv
      (hT k (List.mem_cons_self _ _)) (hnz k (List.mem_cons_self _ _))
      (hshort k (List.mem_cons_self _ _))
    intro s t
    simp only [ratelimit_run, List.reverse_cons, List.append_assoc, List.singleton_append]
    refine ih (ratelimit_allow k.now k.alloc_ok k.ephemeral_id l).2
      ((k, (ratelimit_allow k.now k.alloc_ok k.ephemeral_id l).1) :: H) k.now hstep ?_ hks hk
      (fun k' hk' => hnz k' (List.mem_cons_of_mem _ hk'))
      (fun k' hk' => hshort k' (List.mem_cons_of_mem _ hk')) s t
    intro s' t'
    rw [admitted_in_window_cons]
    by_cases hc : k.ephemeral_id = some s'
        ∧ (ratelimit_allow k.now k.alloc_ok k.ephemeral_id l).1 = 1
        ∧ t' ≤ k.now ∧ k.now ≤ t' + 10
    · rw [if_pos hc]
      have h1 := hbound s' hc.1 hc.2.1
      have h2 := admitted_in_window_le_since s' t' (k.now - 10) H (by omega)
      omega
    · rw [if_neg hc]
      have := hG s' t'
      omega

/-- C2 (as the code has it): for every sequence of `ratelimit_allow` calls from
the empty limiter, for any mix of sender ids shorter than 64 characters, at
non-decreasing and non-zero clock readings (allocations succeeding or not), and
for every sender `s` and time `t`, at most 6 of the calls for `s` with clock
reading in `[t, t + 10]` returned 1. -/
theorem ratelimit_rate_bound (calls : List rate_call)
    (hsorted : List.Pairwise (fun a b : rate_call => a.now ≤ b.now) calls)
    (hnz : ∀ k ∈ calls, k.now ≠ 0)
    (hshort : ∀ k ∈ calls, ∀ id, k.ephemeral_id = some id → id.length < 64)
    (s : CStr) (t : Int) :
    ((ratelimit_run calls ratelimit_init).1.filter (fun kr =>
      decide (kr.1.ephemeral_id = some s ∧ kr.2 = 1 ∧ t ≤ kr.1.now ∧ kr.1.now ≤ t + 10))).length
      ≤ 6 := by
  cases calls with
  | nil => simp [ratelimit_run]
  | cons k ks =>
    have hinv : rate_inv ratelimit_init [] k.now := by
      refine ⟨by simp [ratelimit_init], ?_⟩
      intro s th _
      simp [admitted_since]
    have hb := rate_run_bound (k :: ks) ratelimit_init [] k.now hinv
      (by intro s t; simp [admitted_in_window]) hsorted
      (by
        intro k' hk'
        rcases List.mem_cons.mp hk' with rfl | h
        · exact le_refl _
        · exact (List.pairwise_cons.mp hsorted).1 k' h)
      hnz hshort s t
    rw [List.append_nil] at hb
    unfold admitted_in_window at hb
    rw [List.filter_reverse, List.length_reverse] at hb
    exact hb

theorem ratelimit_rate_bound_witness :
    ((ratelimit_run [⟨100, true, some "B".toList⟩, ⟨100, true, some "B".toList⟩,
        ⟨100, true, some "B".toList⟩, ⟨101, true, some "B".toList⟩,
        ⟨102, true, some "B".toList⟩, ⟨103, true, some "B".toList⟩,
        ⟨104, true, some "B".toList⟩, ⟨110, true, some "B".toList⟩] ratelimit_init).1.filter
      (fun kr => decide (kr.1.ephemeral_id = some "B".toList ∧ kr.2 = 1
        ∧ 100 ≤ kr.1.now ∧ kr.1.now ≤ 100 + 10))).length ≤ 6 :=
  ratelimit_rate_bound [⟨100, true, some "B".toList⟩, ⟨100, true, some "B".toList⟩,
        ⟨100, true, some "B".toList⟩, ⟨101, true, some "B".toList⟩,
        ⟨102, true, some "B".toList⟩, ⟨103, true, some "B".toList⟩,
        ⟨104, true, some "B".toList⟩, ⟨110, true, some "B".toList⟩]
    (by decide) (by decide) (by decide) "B".toList 100

/-- C2 as stated fails in two ways: at clock reading 0 a stored timestamp looks
like an empty slot, so seven calls at reading 0 are all admitted; and a sender
whose id has 64 characters gets a new entry at every call, so seven calls within
ten seconds are all admitted. -/
theorem ratelimit_rate_bound_counterexample :
    ((ratelimit_run [⟨0, true, some "B".toList⟩, ⟨0, true, some "B".toList⟩,
        ⟨0, true, some "B".toList⟩, ⟨0, true, some "B".toList⟩,
        ⟨0, true, some "B".toList⟩, ⟨0, true, some "B".toList⟩,
        ⟨0, true, some "B".toList⟩] ratelimit_init).1.filter
      (fun kr => decide (kr.1.ephemeral_id = some "B".toList ∧ kr.2 = 1
        ∧ 0 ≤ kr.1.now ∧ kr.1.now ≤ 0 + 10))).length = 7
    ∧ ((ratelimit_run [⟨100, true, some (List.replicate 64 'B')⟩,
        ⟨101, true, some (List.replicate 64 'B')⟩, ⟨102, true, some (List.replicate 64 'B')⟩,
        ⟨103, true, some (List.replicate 64 'B')⟩, ⟨104, true, some (List.replicate 64 'B')⟩,
        ⟨105, true, some (List.replicate 64 'B')⟩, ⟨106, true, some (List.replicate 64 'B')⟩]
        ratelimit_init).1.filter
      (fun kr => decide (kr.1.ephemeral_id = some (List.replicate 64 'B') ∧ kr.2 = 1
        ∧ 100 ≤ kr.1.now ∧ kr.1.now ≤ 100 + 10))).length = 7 := by
  refine ⟨?_, ?_⟩ <;> decide

/-! ## The claim on field extraction -/

theorem starts_with_append (s n : CStr) (h : starts_with s n = true) :
    ∃ r, s = n ++ r := by
  induction n generalizing s with
  | nil => exact ⟨s, rfl⟩
  | cons x xs ih =>
    cases s with
    | nil => simp [starts_with] at h
    | cons c cs =>
      by_cases hc : c = x
      · simp only [starts_with, hc, if_true] at h
        obtain ⟨r, hr⟩ := ih cs h
        exact ⟨r, by rw [hc, hr]; rfl⟩
      · simp [starts_with, hc] at h

theorem strstr_starts (h n f : CStr) (hf : strstr h n = some f) : starts_with f n = true := by
  induction h with
  | nil =>
    simp only [strstr] at hf
    split at hf
    · rename_i hs
      simp only [Option.some.injEq] at hf
      rw [← hf]; exact hs
    · simp at hf
  | cons c cs ih =>
    simp only [strstr] at hf
    split at hf
    · rename_i hs
      simp only [Option.some.injEq] at hf
      rw [← hf]; exact hs
    · exact ih hf

/-- Whatever the text, the id that `parse_json_fields` extracts when it returns
1 is the empty string: after `id_start += 15` the pointer stands on the opening
quote of the value, which is where `strchr` finds the closing quote. -/
theorem parse_json_fields_id_empty (json : Option CStr) (id0 : CStr) (seq0 : Nat)
    (h : (parse_json_fields json id0 seq0).1 = 1) :
    (parse_json_fields json id0 seq0).2.1 = [] := by
  cases json with
  | none => simp [parse_json_fields] at h
  | some j =>
    simp only [parse_json_fields] at h ⊢
    cases hf : strstr j "\"ephemeral_id\":\"".toList with
    | none => rw [hf] at h; simp at h
    | some found =>
      obtain ⟨r, hr⟩ := starts_with_append _ _ (strstr_starts _ _ _ hf)
      have hd : found.drop 15 = '"' :: r := by rw [hr]; rfl
      rw [hf] at h
      simp only [hd, strchr, if_true, List.length_cons, Nat.sub_self, Nat.zero_lt_succ,
        List.take_zero] at h ⊢
      cases strstr j "\"seq\":".toList with
      | none => rfl
      | some sf => rfl

set_option maxRecDepth 100000 in
/-- C5 at the sender thread's first message (ephemeral_id "node_002", seq 1):
`parse_json_fields` returns 1 and reads seq 1, but the id it extracts is empty,
not "node_002": the pointer is advanced by 15 over the 16 characters of the field
marker, so the closing quote is looked up from the opening quote of the value. -/
theorem parse_json_fields_send_thread :
    (send_thread_message 1 1700000000).map (fun m => parse_json_fields (some m) [] 0)
      = some (1, [], 1)
    ∧ "\"ephemeral_id\":\"".toList.length = 16 := by
  decide

/-! ## The window filter layout -/

/-- C11: after `ratelimit_allow(id)` at `now` on a limiter whose entries have
their six slots, the sender's six-slot array holds the previously stored
non-empty timestamps `ts` with `now - ts <= 10`, in their order, in slots
`0..k-1`, then `now` in slot `k` if the call returned 1, and 0 in every slot that
remains; a sender without an entry gets `now` in slot 0 and zeros behind. -/
theorem ratelimit_allow_layout (now : Int) (a : Bool) (id : CStr) (l : rate_limiter_t)
    (hwf : rate_limiter_wf l) :
    (∀ e, rate_lookup id (ratelimit_expire_inactive_senders now l).entries = some e →
      ∃ e', rate_lookup id (ratelimit_allow now a (some id) l).2.entries = some e'
        ∧ e'.timestamps
            = e.timestamps.filter (fun ts => decide (ts ≠ 0 ∧ now - ts ≤ 10))
              ++ (if (ratelimit_allow now a (some id) l).1 = 1 then [now] else [])
              ++ List.replicate
                  (6 - (e.timestamps.filter (fun ts => decide (ts ≠ 0 ∧ now - ts ≤ 10))).length
                    - (if (ratelimit_allow now a (some id) l).1 = 1 then 1 else 0)) 0
        ∧ e'.timestamps.length = 6)
    ∧ (rate_lookup id (ratelimit_expire_inactive_senders now l).entries = none → a = true →
        (ratelimit_allow now a (some id) l).1 = 1
        ∧ ∃ e', (ratelimit_allow now a (some id) l).2.entries.head? = some e'
          ∧ e'.timestamps = now :: List.replicate 5 0) := by
  have hS := ratelimit_expire_wf now l hwf
  constructor
  · intro e he
    obtain ⟨h1, h2, _⟩ := ratelimit_allow_found now a id l e he
    have hlen : e.timestamps.length = MAX_PER_WINDOW :=
      hS.1 e (List.mem_of_find?_eq_some he)
    have hw := ratelimit_window_eq now e hlen
    have hK : e.timestamps.filter (ts_within now WINDOW_SECONDS)
        = e.timestamps.filter (fun ts => decide (ts ≠ 0 ∧ now - ts ≤ 10)) := rfl
    have hle := List.length_filter_le (fun ts => decide (ts ≠ 0 ∧ now - ts ≤ 10)) e.timestamps
    rw [hK] at hw
    refine ⟨(ratelimit_window now e).2, h2, ?_, ratelimit_window_length now e hlen⟩
    rw [h1, hw]
    simp only [MAX_PER_WINDOW] at hlen
    rw [hlen] at hle
    generalize e.timestamps.filter (fun ts => decide (ts ≠ 0 ∧ now - ts ≤ 10)) = K at hle ⊢
    by_cases hk : K.length ≥ MAX_PER_WINDOW
    · rw [if_pos hk]
      simp only [MAX_PER_WINDOW] at hk
      have h0 : 6 - K.length - 0 = 0 := by omega
      simp [h0]
    · rw [if_neg hk]
      simp only [MAX_PER_WINDOW] at hk ⊢
      have h5 : 6 - K.length - 1 = 6 - 1 - K.length := by omega
      simp [h5]
  · intro hn ha
    subst ha
    rw [ratelimit_allow_fresh now id l hn]
    exact ⟨rfl, _, rfl, rfl⟩

theorem ratelimit_allow_layout_witness :
    ∃ e', rate_lookup "B".toList (ratelimit_allow 1000 true (some "B".toList)
        { entries := [{ id := "B".toList, timestamps := [985, 990, 0, 995, 0, 0], count := 3 }],
          count := 1 }).2.entries = some e'
      ∧ e'.timestamps = [990, 995] ++ [1000] ++ List.replicate 3 0
      ∧ e'.timestamps.length = 6 :=
  (ratelimit_allow_layout 1000 true "B".toList
      { entries := [{ id := "B".toList, timestamps := [985, 990, 0, 995, 0, 0], count := 3 }],
        count := 1 } (by decide)).1
      { id := "B".toList, timestamps := [985, 990, 0, 995, 0, 0], count := 3 } (by decide)

/-! ## The receive step -/

theorem starts_with_iff (s n : CStr) : starts_with s n = true ↔ n <+: s := by
  induction n generalizing s with
  | nil => simp [starts_with]
  | cons x xs ih =>
    cases s with
    | nil => simp [starts_with]
    | cons c cs =>
      by_cases hc : c = x
      · subst hc
        simp only [starts_with, if_true, ih, List.prefix_cons_inj]
      · have hne : ¬ (x = c) := fun h => hc h.symm
        simp only [starts_with, hc, if_false, Bool.false_eq_true, false_iff]
        intro hp
        obtain ⟨t, ht⟩ := hp
        simp only [List.cons_append, List.cons.injEq] at ht
        exact hne ht.1

theorem strstr_none_iff (h n : CStr) : strstr h n = none ↔ ¬ (n <:+: h) := by
  induction h with
  | nil =>
    simp only [strstr]
    by_cases hs : starts_with [] n = true
    · rw [if_pos hs]
      have := (starts_with_iff [] n).mp hs
      simp only [false_iff, not_not, reduceCtorEq]
      exact this.isInfix
    · rw [if_neg hs]
      simp only [true_iff]
      intro hi
      apply hs
      rw [starts_with_iff]
      have : n = [] := List.infix_nil.mp hi
      rw [this]
  | cons c cs ih =>
    simp only [strstr]
    by_cases hs : starts_with (c :: cs) n = true
    · rw [if_pos hs]
      have := (starts_with_iff (c :: cs) n).mp hs
      simp only [false_iff, not_not, reduceCtorEq]
      exact this.isInfix
    · rw [if_neg hs, ih, List.infix_cons_iff]
      rw [starts_with_iff] at hs
      simp only [not_or, hs, not_false_eq_true, true_and]

/-- The result of `parse_json_fields` by the two marker lookups: the id is
always read as empty (the pointer stands on the value's opening quote), and the
seq marker alone decides between 0 and 1. -/
theorem parse_json_fields_eq (buf id0 : CStr) (seq0 : Nat) :
    parse_json_fields (some buf) id0 seq0 =
      match strstr buf "\"ephemeral_id\":\"".toList with
      | none => (0, id0, seq0)
      | some _ =>
        match strstr buf "\"seq\":".toList with
        | none => (0, [], seq0)
        | some seq_found => (1, [], strtoull10 (seq_found.drop 6)) := by
  simp only [parse_json_fields]
  cases hf : strstr buf "\"ephemeral_id\":\"".toList with
  | none => rfl
  | some found =>
    obtain ⟨r, hr⟩ := starts_with_append _ _ (strstr_starts _ _ _ hf)
    have hd : found.drop 15 = '"' :: r := by rw [hr]; rfl
    simp only [hd, strchr, if_true, List.length_cons, Nat.sub_self, Nat.zero_lt_succ,
      List.take_zero]

theorem replay_ret_01 (now : Int) (a : Bool) (oid : Option CStr) (seq : Nat)
    (c : replay_cache_t) :
    (replay_cache_check_and_add now a oid seq c).1 = 0
      ∨ (replay_cache_check_and_add now a oid seq c).1 = 1 := by
  cases oid with
  | none => exact Or.inl rfl
  | some id =>
    rw [replay_check_some]
    split
    · exact Or.inl rfl
    · split
      · exact Or.inr rfl
      · exact Or.inl rfl

theorem ratelimit_window_ret_01 (now : Int) (e : rate_entry_t) :
    (ratelimit_window now e).1 = 0 ∨ (ratelimit_window now e).1 = 1 := by
  unfold ratelimit_window
  simp only
  split
  · exact Or.inl rfl
  · exact Or.inr rfl

theorem ratelimit_on_entry_ret_01 (now : Int) (id : CStr) (l : List rate_entry_t)
    (r : Int × List rate_entry_t) (h : ratelimit_on_entry now id l = some r) :
    r.1 = 0 ∨ r.1 = 1 := by
  induction l generalizing r with
  | nil => simp [ratelimit_on_entry] at h
  | cons e rest ih =>
    by_cases hid : e.id = id
    · simp only [ratelimit_on_entry, hid, if_true, Option.some.injEq] at h
      subst h
      exact ratelimit_window_ret_01 now e
    · simp only [ratelimit_on_entry, hid, if_false] at h
      cases hrec : ratelimit_on_entry now id rest with
      | none => rw [hrec] at h; simp at h
      | some r' =>
        rw [hrec] at h
        simp only [Option.some.injEq] at h
        subst h
        exact ih r' hrec

theorem ratelimit_ret_01 (now : Int) (a : Bool) (oid : Option CStr) (l : rate_limiter_t) :
    (ratelimit_allow now a oid l).1 = 0 ∨ (ratelimit_allow now a oid l).1 = 1 := by
  cases oid with
  | none => exact Or.inl rfl
  | some id =>
    rw [ratelimit_allow_some]
    cases hr : ratelimit_on_entry now id (ratelimit_expire_inactive_senders now l).entries with
    | some r => exact ratelimit_on_entry_ret_01 now id _ r hr
    | none =>
      cases a with
      | true => simp only [if_true]; exact ratelimit_window_ret_01 now _
      | false => exact Or.inl rfl

theorem recv_step_eq (nr nl : Int) (ar al : Bool) (buf : CStr) (st : node_state) :
    recv_step nr nl ar al buf st =
      if (parse_json_fields (some buf) [] 0).1 = 0 then (st, [])
      else if (replay_cache_check_and_add nr ar (some (parse_json_fields (some buf) [] 0).2.1)
          (parse_json_fields (some buf) [] 0).2.2 st.replay).1 = 0 then
        ({ replay := (replay_cache_check_and_add nr ar
              (some (parse_json_fields (some buf) [] 0).2.1)
              (parse_json_fields (some buf) [] 0).2.2 st.replay).2,
           limiter := st.limiter },
          [recv_event.replay_checked (replay_cache_check_and_add nr ar
              (some (parse_json_fields (some buf) [] 0).2.1)
              (parse_json_fields (some buf) [] 0).2.2 st.replay).1])
      else if (ratelimit_allow nl al (some (parse_json_fields (some buf) [] 0).2.1)
          st.limiter).1 = 0 then
        ({ replay := (replay_cache_check_and_add nr ar
              (some (parse_json_fields (some buf) [] 0).2.1)
              (parse_json_fields (some buf) [] 0).2.2 st.replay).2,
           limiter := (ratelimit_allow nl al (some (parse_json_fields (some buf) [] 0).2.1)
              st.limiter).2 },
          [recv_event.replay_checked (replay_cache_check_and_add nr ar
              (some (parse_json_fields (some buf) [] 0).2.1)
              (parse_json_fields (some buf) [] 0).2.2 st.replay).1,
           recv_event.rate_checked (ratelimit_allow nl al
              (some (parse_json_fields (some buf) [] 0).2.1) st.limiter).1])
      else
        ({ replay := (replay_cache_check_and_add nr ar
              (some (parse_json_fields (some buf) [] 0).2.1)
              (parse_json_fields (some buf) [] 0).2.2 st.replay).2,
           limiter := (ratelimit_allow nl al (some (parse_json_fields (some buf) [] 0).2.1)
              st.limiter).2 },
          [recv_event.replay_checked (replay_cache_check_and_add nr ar
              (some (parse_json_fields (some buf) [] 0).2.1)
              (parse_json_fields (some buf) [] 0).2.2 st.replay).1,
           recv_event.rate_checked (ratelimit_allow nl al
              (some (parse_json_fields (some buf) [] 0).2.1) st.limiter).1,
           recv_event.verified]) := rfl

/-- C12: in the receive step for one datagram the replay check is the first
call; when `replay_cache_check_and_add` returns 0 the step ends there, the rate
limiter is unchanged and `verify_message` is not called; when `ratelimit_allow`
returns 0 the step ends without `verify_message`; and `verify_message` is called
only as the third call, after both checks returned 1. -/
theorem recv_step_order (nr nl : Int) (ar al : Bool) (buf : CStr) (st : node_state) :
    ((recv_step nr nl ar al buf st).2 = []
      ∨ (recv_step nr nl ar al buf st).2 = [recv_event.replay_checked 0]
      ∨ (recv_step nr nl ar al buf st).2
          = [recv_event.replay_checked 1, recv_event.rate_checked 0]
      ∨ (recv_step nr nl ar al buf st).2
          = [recv_event.replay_checked 1, recv_event.rate_checked 1, recv_event.verified])
    ∧ (recv_event.replay_checked 0 ∈ (recv_step nr nl ar al buf st).2 →
        (recv_step nr nl ar al buf st).1.limiter = st.limiter
        ∧ (recv_step nr nl ar al buf st).2 = [recv_event.replay_checked 0])
    ∧ (recv_event.rate_checked 0 ∈ (recv_step nr nl ar al buf st).2 →
        recv_event.verified ∉ (recv_step nr nl ar al buf st).2)
    ∧ (∀ r, recv_event.replay_checked r ∈ (recv_step nr nl ar al buf st).2 →
        r = (replay_cache_check_and_add nr ar (some (parse_json_fields (some buf) [] 0).2.1)
              (parse_json_fields (some buf) [] 0).2.2 st.replay).1)
    ∧ (∀ r, recv_event.rate_checked r ∈ (recv_step nr nl ar al buf st).2 →
        r = (ratelimit_allow nl al (some (parse_json_fields (some buf) [] 0).2.1)
              st.limiter).1) := by
  rw [recv_step_eq]
  have h1 := replay_ret_01 nr ar (some (parse_json_fields (some buf) [] 0).2.1)
    (parse_json_fields (some buf) [] 0).2.2 st.replay
  have h2 := ratelimit_ret_01 nl al (some (parse_json_fields (some buf) [] 0).2.1) st.limiter
  generalize (replay_cache_check_and_add nr ar (some (parse_json_fields (some buf) [] 0).2.1)
    (parse_json_fields (some buf) [] 0).2.2 st.replay) = r at h1 ⊢
  generalize (ratelimit_allow nl al (some (parse_json_fields (some buf) [] 0).2.1)
    st.limiter) = q at h2 ⊢
  by_cases hp : (parse_json_fields (some buf) [] 0).1 = 0
  · rw [if_pos hp]
    simp
  · rw [if_neg hp]
    rcases h1 with hr | hr
    · rw [if_pos hr, hr]
      simp
    · rw [if_neg (by rw [hr]; decide), hr]
      rcases h2 with hq | hq
      · rw [if_pos hq, hq]
        simp
      · rw [if_neg (by rw [hq]; decide), hq]
        simp

theorem recv_step_order_witness :
    (recv_step 1000 1000 true true "\"ephemeral_id\":\"n\",\"seq\":7".toList
        { replay := { entries := [{ ephemeral_id := [], seq := 7, timestamp := 999 }],
                      count := 1 },
          limiter := ratelimit_init }).1.limiter = ratelimit_init
    ∧ (recv_step 1000 1000 true true "\"ephemeral_id\":\"n\",\"seq\":7".toList
        { replay := { entries := [{ ephemeral_id := [], seq := 7, timestamp := 999 }],
                      count := 1 },
          limiter := ratelimit_init }).2 = [recv_event.replay_checked 0] :=
  (recv_step_order 1000 1000 true true "\"ephemeral_id\":\"n\",\"seq\":7".toList
      { replay := { entries := [{ ephemeral_id := [], seq := 7, timestamp := 999 }],
                    count := 1 },
        limiter := ratelimit_init }).2.1 (by decide)

/-- C13: for every received text that lacks the field marker `"ephemeral_id":"`
or lacks the field marker `"seq":`, `parse_json_fields` returns 0 and the receive
step calls neither `replay_cache_check_and_add` nor `ratelimit_allow`: no call is
made and both stores are unchanged. -/
theorem recv_step_malformed (nr nl : Int) (ar al : Bool) (buf id0 : CStr) (seq0 : Nat)
    (st : node_state)
    (h : ¬ ("\"ephemeral_id\":\"".toList <:+: buf) ∨ ¬ ("\"seq\":".toList <:+: buf)) :
    (parse_json_fields (some buf) id0 seq0).1 = 0
    ∧ recv_step nr nl ar al buf st = (st, []) := by
  have hp : ∀ i0 s0, (parse_json_fields (some buf) i0 s0).1 = 0 := by
    intro i0 s0
    rw [parse_json_fields_eq]
    cases hf : strstr buf "\"ephemeral_id\":\"".toList with
    | none => rfl
    | some found =>
      cases hs : strstr buf "\"seq\":".toList with
      | none => rfl
      | some sf =>
        exfalso
        rcases h with h | h
        · rw [← strstr_none_iff, hf] at h
          simp at h
        · rw [← strstr_none_iff, hs] at h
          simp at h
  refine ⟨hp id0 seq0, ?_⟩
  rw [recv_step_eq, if_pos (hp [] 0)]

theorem recv_step_malformed_witness :
    (parse_json_fields (some "\x7b\"ephemeral_id\":\"node_002\",\"sequence\":5\x7d".toList)
        [] 0).1 = 0
    ∧ recv_step 1000 1000 true true
        "\x7b\"ephemeral_id\":\"node_002\",\"sequence\":5\x7d".toList
        { replay := replay_cache_init, limiter := ratelimit_init }
      = ({ replay := replay_cache_init, limiter := ratelimit_init }, []) :=
  recv_step_malformed 1000 1000 true true
    "\x7b\"ephemeral_id\":\"node_002\",\"sequence\":5\x7d".toList [] 0
    { replay := replay_cache_init, limiter := ratelimit_init }
    (Or.inr (by
      rw [← strstr_none_iff]
      decide))

theorem strtoull10_no_digits (rest : CStr)
    (h : rest = [] ∨ ∃ c cs, rest = c :: cs ∧ c_isspace c = false ∧ c ≠ '-' ∧ c ≠ '+'
      ∧ c_isdigit c = false) :
    strtoull10 rest = 0 := by
  rcases h with rfl | ⟨c, cs, rfl, hsp, hm, hpl, hd⟩
  · decide
  · have h1 : List.dropWhile c_isspace (c :: cs) = c :: cs := by
      rw [List.dropWhile_cons, hsp]; rfl
    have h2 : List.takeWhile c_isdigit (c :: cs) = [] := by
      rw [List.takeWhile_cons, hd]; rfl
    unfold strtoull10
    simp only [h1]
    have h3 : (match c :: cs with
        | '-' :: r => r
        | '+' :: r => r
        | _ => c :: cs) = c :: cs := by
      split
      · rename_i heq
        simp only [List.cons.injEq] at heq
        exact absurd heq.1 hm
      · rename_i heq
        simp only [List.cons.injEq] at heq
        exact absurd heq.1 hpl
      · rfl
    have h4 : (match c :: cs with
        | '-' :: _ => true
        | _ => false) = false := by
      split
      · rename_i heq
        simp only [List.cons.injEq] at heq
        exact absurd heq.1 hm
      · rfl
    rw [h3, h4, h2]
    decide

theorem parse_json_fields_skip_code (json : Option CStr) (id0 : CStr) (seq0 : Nat) :
    parse_json_fields json id0 seq0 = parse_json_fields_skip 15 json id0 seq0 := rfl

theorem strchr_append_not_mem (id post : CStr) (ch : Char) (h : ch ∉ id) :
    strchr (id ++ ch :: post) ch = some (ch :: post) := by
  induction id with
  | nil => simp [strchr]
  | cons c cs ih =>
    have hc : ¬ (c = ch) := fun e => h (by rw [e]; exact List.mem_cons_self _ _)
    have hcs : ch ∉ cs := fun e => h (List.mem_cons_of_mem _ e)
    simp only [List.cons_append, strchr, hc, if_false]
    exact ih hcs

/-- The seq value never decides the result of the field extraction, whether the
advance past the id marker is the 15 of the code or the 16 chars of the marker:
when the first id marker is followed by an id of fewer than 64 chars and its
closing quote, and the seq marker occurs, the result is 1 and the number is what
`strtoull` reads after the first seq marker. -/
theorem parse_json_fields_skip_seq (skip : Nat) (hskip : skip = 15 ∨ skip = 16)
    (buf id post rest id0 : CStr) (seq0 : Nat)
    (hid : strstr buf "\"ephemeral_id\":\"".toList
      = some ("\"ephemeral_id\":\"".toList ++ id ++ '"' :: post))
    (hq : '"' ∉ id) (hlen : id.length < 64)
    (hseq : strstr buf "\"seq\":".toList = some ("\"seq\":".toList ++ rest)) :
    (parse_json_fields_skip skip (some buf) id0 seq0).1 = 1
    ∧ (parse_json_fields_skip skip (some buf) id0 seq0).2.2 = strtoull10 rest := by
  have hd6 : ("\"seq\":".toList ++ rest).drop 6 = rest := rfl
  rcases hskip with rfl | rfl
  · have hd : ("\"ephemeral_id\":\"".toList ++ id ++ '"' :: post).drop 15
        = '"' :: (id ++ '"' :: post) := rfl
    have hc : strchr ('"' :: (id ++ '"' :: post)) '"' = some ('"' :: (id ++ '"' :: post)) := by
      simp [strchr]
    have hl : ('"' :: (id ++ '"' :: post)).length - ('"' :: (id ++ '"' :: post)).length = 0 :=
      Nat.sub_self _
    have h0 : (0 : Nat) < 64 := by decide
    simp only [parse_json_fields_skip, hid, hseq, hd, hd6, hc, hl, if_pos h0, and_self]
  · have hd : ("\"ephemeral_id\":\"".toList ++ id ++ '"' :: post).drop 16
        = id ++ '"' :: post := rfl
    have hl : (id ++ '"' :: post).length - ('"' :: post).length = id.length := by
      simp
    simp only [parse_json_fields_skip, hid, hseq, hd, hd6, strchr_append_not_mem id post '"' hq,
      hl, if_pos hlen, and_self]

/-- C14 (as the code has it): no sequence number is dropped for being
unparseable.  For every received text whose first id marker `"ephemeral_id":"`
is followed by an id of fewer than 64 chars and its closing quote, and which
holds the marker `"seq":`, `parse_json_fields` returns 1 whatever follows the
first `"seq":`; the sequence number is what `strtoull` reads there, which is 0
when the characters that follow are empty or begin with a char that is neither
white space, a sign nor a digit (`"seq":abc`, an empty value); and the receive
step calls `replay_cache_check_and_add` with the extracted id and that sequence
number, and, when that call returns 1, `ratelimit_allow` with the extracted id. -/
theorem parse_json_fields_seq_unchecked (buf id post rest id0 : CStr) (seq0 : Nat)
    (hid : strstr buf "\"ephemeral_id\":\"".toList
      = some ("\"ephemeral_id\":\"".toList ++ id ++ '"' :: post))
    (hq : '"' ∉ id) (hlen : id.length < 64)
    (hseq : strstr buf "\"seq\":".toList = some ("\"seq\":".toList ++ rest)) :
    (parse_json_fields (some buf) id0 seq0).1 = 1
    ∧ (parse_json_fields (some buf) id0 seq0).2.2 = strtoull10 rest
    ∧ ((rest = [] ∨ ∃ c cs, rest = c :: cs ∧ c_isspace c = false ∧ c ≠ '-' ∧ c ≠ '+'
          ∧ c_isdigit c = false) →
        (parse_json_fields (some buf) id0 seq0).2.2 = 0)
    ∧ ∀ (nr nl : Int) (ar al : Bool) (st : node_state),
        (recv_step nr nl ar al buf st).1.replay
          = (replay_cache_check_and_add nr ar (some (parse_json_fields (some buf) [] 0).2.1)
              (strtoull10 rest) st.replay).2
        ∧ ∃ evs, (recv_step nr nl ar al buf st).2
            = recv_event.replay_checked
                (replay_cache_check_and_add nr ar
                  (some (parse_json_fields (some buf) [] 0).2.1)
                  (strtoull10 rest) st.replay).1 :: evs
          ∧ ((replay_cache_check_and_add nr ar (some (parse_json_fields (some buf) [] 0).2.1)
                (strtoull10 rest) st.replay).1 = 1 →
              (recv_step nr nl ar al buf st).1.limiter
                = (ratelimit_allow nl al (some (parse_json_fields (some buf) [] 0).2.1)
                    st.limiter).2
              ∧ ∃ evs2, evs = recv_event.rate_checked
                  (ratelimit_allow nl al (some (parse_json_fields (some buf) [] 0).2.1)
                    st.limiter).1 :: evs2) := by
  have hp : ∀ i0 s0, (parse_json_fields (some buf) i0 s0).1 = 1
      ∧ (parse_json_fields (some buf) i0 s0).2.2 = strtoull10 rest := by
    intro i0 s0
    rw [parse_json_fields_skip_code]
    exact parse_json_fields_skip_seq 15 (Or.inl rfl) buf id post rest i0 s0 hid hq hlen hseq
  refine ⟨(hp id0 seq0).1, (hp id0 seq0).2, ?_, ?_⟩
  · intro hno
    rw [(hp id0 seq0).2]
    exact strtoull10_no_digits rest hno
  · intro nr nl ar al st
    have h1 : ¬ ((parse_json_fields (some buf) [] 0).1 = 0) := by
      rw [(hp [] 0).1]; exact one_ne_zero
    rw [recv_step_eq, if_neg h1, (hp [] 0).2]
    have hr := replay_ret_01 nr ar (some (parse_json_fields (some buf) [] 0).2.1)
      (strtoull10 rest) st.replay
    generalize (replay_cache_check_and_add nr ar (some (parse_json_fields (some buf) [] 0).2.1)
      (strtoull10 rest) st.replay) = r at hr ⊢
    rcases hr with hr | hr
    · rw [if_pos hr]
      refine ⟨rfl, [], rfl, ?_⟩
      intro h
      rw [hr] at h
      exact absurd h (by decide)
    · have hr0 : ¬ (r.1 = 0) := by rw [hr]; exact one_ne_zero
      rw [if_neg hr0]
      split
      · exact ⟨rfl, _, rfl, fun _ => ⟨rfl, _, rfl⟩⟩
      · exact ⟨rfl, _, rfl, fun _ => ⟨rfl, _, rfl⟩⟩

theorem parse_json_fields_seq_unchecked_witness :
    (parse_json_fields (some "\x7b\"ephemeral_id\":\"node_002\",\"seq\":abc\x7d".toList)
        [] 5).1 = 1
    ∧ (parse_json_fields (some "\x7b\"ephemeral_id\":\"node_002\",\"seq\":abc\x7d".toList)
        [] 5).2.2 = 0 :=
  ⟨(parse_json_fields_seq_unchecked
      "\x7b\"ephemeral_id\":\"node_002\",\"seq\":abc\x7d".toList
      "node_002".toList ",\"seq\":abc\x7d".toList "abc\x7d".toList [] 5
      (by decide) (by decide) (by decide) (by decide)).1,
   (parse_json_fields_seq_unchecked
      "\x7b\"ephemeral_id\":\"node_002\",\"seq\":abc\x7d".toList
      "node_002".toList ",\"seq\":abc\x7d".toList "abc\x7d".toList [] 5
      (by decide) (by decide) (by decide) (by decide)).2.2.1
      (Or.inr ⟨'a', "bc\x7d".toList, rfl, by decide, by decide, by decide, by decide⟩)⟩

/-- C14 as stated fails: on a text whose seq value is `abc`, and on one whose
seq value is empty, `parse_json_fields` returns 1 (with seq 0), and the receive
step calls `replay_cache_check_and_add` and `ratelimit_allow` and changes both
stores. -/
theorem parse_json_fields_seq_counterexample :
    parse_json_fields (some "\x7b\"ephemeral_id\":\"node_002\",\"seq\":abc\x7d".toList) [] 5
      = (1, [], 0)
    ∧ parse_json_fields (some "\x7b\"ephemeral_id\":\"node_002\",\"seq\":".toList) [] 5
      = (1, [], 0)
    ∧ recv_step 1000 1000 true true
        "\x7b\"ephemeral_id\":\"node_002\",\"seq\":abc\x7d".toList
        { replay := replay_cache_init, limiter := ratelimit_init }
      = ({ replay := { entries := [{ ephemeral_id := [], seq := 0, timestamp := 1000 }],
                       count := 1 },
           limiter := { entries := [{ id := [], timestamps := [1000, 0, 0, 0, 0, 0],
                                      count := 1 }], count := 1 } },
         [recv_event.replay_checked 1, recv_event.rate_checked 1, recv_event.verified]) := by
  decide

/-! ## Failing allocations -/

/-- C15: when the allocation of the new entry fails in
`replay_cache_check_and_add(id, seq)` (no duplicate was found after the sweep),
the call returns 0, the cache is its state after the expiry sweep, so it holds
no entry for `(id, seq)` and its count is still its number of entries, and a
later call for the pair whose allocation succeeds is admitted as usual. -/
theorem replay_alloc_failure (now : Int) (id : CStr) (seq : Nat) (c : replay_cache_t)
    (hwf : replay_cache_wf c)
    (hreach : ¬ ∃ e ∈ (replay_cache_expire_old_entries now c).entries,
      e.ephemeral_id = id ∧ e.seq = seq) :
    replay_cache_check_and_add now false (some id) seq c
        = (0, replay_cache_expire_old_entries now c)
    ∧ (¬ ∃ e ∈ (replay_cache_check_and_add now false (some id) seq c).2.entries,
          e.ephemeral_id = id ∧ e.seq = seq)
    ∧ replay_cache_wf (replay_cache_check_and_add now false (some id) seq c).2
    ∧ ∀ later : Int,
        (replay_cache_check_and_add later true (some id) seq
            (replay_cache_check_and_add now false (some id) seq c).2).1 = 1
        ∧ (replay_cache_check_and_add later true (some id) seq
            (replay_cache_check_and_add now false (some id) seq c).2).2.entries.head?
          = some { ephemeral_id := strncpy_str id 63, seq := seq, timestamp := later } := by
  have hs : ¬ (replay_scan id seq (replay_cache_expire_old_entries now c).entries = true) :=
    fun hh => hreach ((replay_scan_iff id seq _).mp hh)
  have heq : replay_cache_check_and_add now false (some id) seq c
      = (0, replay_cache_expire_old_entries now c) := by
    rw [replay_check_some, if_neg hs]
    rfl
  rw [heq]
  refine ⟨rfl, hreach, replay_expire_wf now c hwf, ?_⟩
  intro later
  have hs2 : ¬ (replay_scan id seq (replay_cache_expire_old_entries later
      (replay_cache_expire_old_entries now c)).entries = true) := by
    intro hh
    obtain ⟨e, he, hk⟩ := (replay_scan_iff id seq _).mp hh
    rw [replay_expire_entries] at he
    exact hreach ⟨e, (List.mem_filter.mp he).1, hk⟩
  rw [replay_check_some, if_neg hs2, if_pos rfl]
  exact ⟨rfl, rfl⟩

theorem replay_alloc_failure_witness :
    replay_cache_check_and_add 1000 false (some "A".toList) 5
        { entries := [{ ephemeral_id := "A".toList, seq := 4, timestamp := 900 },
                      { ephemeral_id := "A".toList, seq := 5, timestamp := 100 }], count := 2 }
      = (0, replay_cache_expire_old_entries 1000
        { entries := [{ ephemeral_id := "A".toList, seq := 4, timestamp := 900 },
                      { ephemeral_id := "A".toList, seq := 5, timestamp := 100 }],
          count := 2 }) :=
  (replay_alloc_failure 1000 "A".toList 5
    { entries := [{ ephemeral_id := "A".toList, seq := 4, timestamp := 900 },
                  { ephemeral_id := "A".toList, seq := 5, timestamp := 100 }], count := 2 }
    (by decide) (by decide)).1

/-- C16: when the allocation of a new sender entry fails in `ratelimit_allow(id)`
(the sender has no entry after the sweep), the call returns 0, the limiter is
its state after the inactive-sender sweep, so there is no entry for `id`, no
timestamp is recorded, and the count is that of the swept limiter. -/
theorem ratelimit_alloc_failure (now : Int) (id : CStr) (l : rate_limiter_t)
    (hreach : rate_lookup id (ratelimit_expire_inactive_senders now l).entries = none) :
    ratelimit_allow now false (some id) l = (0, ratelimit_expire_inactive_senders now l)
    ∧ rate_lookup id (ratelimit_allow now false (some id) l).2.entries = none
    ∧ (ratelimit_allow now false (some id) l).2.entries
        = l.entries.filter (fun e => has_recent_activity now e.timestamps)
    ∧ (ratelimit_allow now false (some id) l).2.count
        = (ratelimit_expire_inactive_senders now l).count := by
  rw [ratelimit_allow_nomem now id l hreach]
  exact ⟨rfl, hreach, ratelimit_expire_entries now l, rfl⟩

theorem ratelimit_alloc_failure_witness :
    ratelimit_allow 1000 false (some "B".toList)
        { entries := [{ id := "C".toList, timestamps := [995, 0, 0, 0, 0, 0], count := 1 }],
          count := 1 }
      = (0, ratelimit_expire_inactive_senders 1000
        { entries := [{ id := "C".toList, timestamps := [995, 0, 0, 0, 0, 0], count := 1 }],
          count := 1 }) :=
  (ratelimit_alloc_failure 1000 "B".toList
    { entries := [{ id := "C".toList, timestamps := [995, 0, 0, 0, 0, 0], count := 1 }],
      count := 1 } (by decide)).1

/-! ## Lock discipline -/

theorem promote_alert_key (a : Alert) :
    (promote_alert_if_threshold a).alert_key = a.alert_key := by
  unfold promote_alert_if_threshold
  split <;> rfl

theorem promote_alert_confirmations (a : Alert) :
    (promote_alert_if_threshold a).confirmations = a.confirmations := by
  unfold promote_alert_if_threshold
  split <;> rfl

theorem promote_alert_confirmers (a : Alert) :
    (promote_alert_if_threshold a).confirmers = a.confirmers := by
  unfold promote_alert_if_threshold
  split <;> rfl

theorem promote_alert_status (a : Alert) :
    (promote_alert_if_threshold a).status
      = if a.confirmations ≥ ALERT_VERIFICATION_THRESHOLD then alert_status.VERIFIED
        else a.status := by
  unfold promote_alert_if_threshold
  by_cases h1 : a.confirmations ≥ ALERT_VERIFICATION_THRESHOLD
  · by_cases h2 : a.status = alert_status.TENTATIVE
    · rw [if_pos ⟨h1, h2⟩, if_pos h1]
    · rw [if_neg (fun hh => h2 hh.2), if_pos h1]
      cases hst : a.status with
      | TENTATIVE => exact absurd hst h2
      | VERIFIED => rfl
  · rw [if_neg (fun hh => h1 hh.1), if_neg h1]

theorem alert_update_key (now : Int) (id : CStr) (conf : ℚ) (a : Alert) :
    (alert_update now id conf a).alert_key = a.alert_key := by
  unfold alert_update
  split
  · rfl
  · rw [promote_alert_key]

/-- An update by a sender that the alert records leaves the count and the
recorded senders as they are. -/
theorem alert_update_known (now : Int) (id : CStr) (conf : ℚ) (a : Alert)
    (h : id ∈ a.confirmers) :
    (alert_update now id conf a).confirmations = a.confirmations
    ∧ (alert_update now id conf a).confirmers = a.confirmers
    ∧ (alert_update now id conf a).status = a.status := by
  unfold alert_update
  rw [if_pos h]
  exact ⟨rfl, rfl, rfl⟩

/-- An update by a sender that the alert does not record counts one more
confirmation, and records the sender when there is room. -/
theorem alert_update_fresh (now : Int) (id : CStr) (conf : ℚ) (a : Alert)
    (h : id ∉ a.confirmers) :
    (alert_update now id conf a).confirmations = a.confirmations + 1
    ∧ (alert_update now id conf a).confirmers
        = (if a.confirmers.length < CONFIRMERS_MAX then a.confirmers ++ [id]
           else a.confirmers)
    ∧ (alert_update now id conf a).status
        = (if a.confirmations + 1 ≥ ALERT_VERIFICATION_THRESHOLD then alert_status.VERIFIED
           else a.status) := by
  unfold alert_update
  rw [if_neg h, promote_alert_confirmations, promote_alert_confirmers, promote_alert_status]
  exact ⟨rfl, rfl, rfl⟩

theorem alert_find_add_same (now : Int) (id ht : CStr) (lat lon conf : ℚ) (m : List Alert) :
    alert_find (make_alert_key ht lat lon) (add_or_update_alert now id ht lat lon conf m)
      = some (match alert_find (make_alert_key ht lat lon) m with
          | some a => alert_update now id conf a
          | none => alert_new now id ht lat lon conf) := by
  induction m with
  | nil => simp [add_or_update_alert, alert_find, alert_new]
  | cons a rest ih =>
    unfold alert_find at ih ⊢
    by_cases hk : a.alert_key = make_alert_key ht lat lon
    · simp [add_or_update_alert, hk, alert_update_key]
    · simp only [add_or_update_alert, hk, if_false, List.find?_cons, decide_False]
      exact ih

theorem alert_find_add_other (now : Int) (id ht : CStr) (lat lon conf : ℚ) (m : List Alert)
    (k : alert_key_t) (hk : k ≠ make_alert_key ht lat lon) :
    alert_find k (add_or_update_alert now id ht lat lon conf m) = alert_find k m := by
  induction m with
  | nil =>
    have : ¬ (make_alert_key ht lat lon = k) := fun h => hk h.symm
    simp [add_or_update_alert, alert_find, alert_new, this]
  | cons a rest ih =>
    unfold alert_find at ih ⊢
    by_cases ha : a.alert_key = make_alert_key ht lat lon
    · have h1 : ¬ (a.alert_key = k) := by rw [ha]; exact fun h => hk h.symm
      have h2 : ¬ ((alert_update now id conf a).alert_key = k) := by
        rw [alert_update_key]; exact h1
      rw [add_or_update_alert, if_pos ha]
      simp only [List.find?_cons, h1, h2, decide_False]
    · simp only [add_or_update_alert, ha, if_false, List.find?_cons]
      rw [ih]

/-- After the further reports of a sender that the alert of the key records,
the alert is still there, with the same count and the same recorded senders. -/
theorem alerts_resend_known (id ht : CStr) (lat lon : ℚ) (rs : List alert_resend)
    (m : List Alert) (a : Alert)
    (hsame : ∀ r ∈ rs, make_alert_key ht r.lat r.lon = make_alert_key ht lat lon)
    (hfind : alert_find (make_alert_key ht lat lon) m = some a) (hid : id ∈ a.confirmers) :
    ∃ a', alert_find (make_alert_key ht lat lon) (alerts_resend id ht rs m) = some a'
      ∧ a'.confirmations = a.confirmations ∧ a'.confirmers = a.confirmers := by
  induction rs generalizing m a with
  | nil => exact ⟨a, hfind, rfl, rfl⟩
  | cons r rest ih =>
    have hr := hsame r (List.mem_cons_self _ _)
    have hstep := alert_find_add_same r.now id ht r.lat r.lon r.confidence m
    rw [hr, hfind] at hstep
    simp only at hstep
    obtain ⟨h1, h2, _⟩ := alert_update_known r.now id r.confidence a hid
    obtain ⟨a', hf, hc, hcs⟩ := ih (add_or_update_alert r.now id ht r.lat r.lon r.confidence m)
      (alert_update r.now id r.confidence a)
      (fun r' hr' => hsame r' (List.mem_cons_of_mem _ hr')) hstep (by rw [h2]; exact hid)
    exact ⟨a', hf, by rw [hc, h1], by rw [hcs, h2]⟩

/-- C18 (against the consensus map as the specification gives it): for every
map state, sender and report, when the alert of the report's key is new,
already records the sender, or records fewer than 10 confirmers at the sender's
first call of `add_or_update_alert`, any number of further calls by that sender
for the same key leave the alert's confirmations count as it was after the
first call. -/
theorem alert_resubmit (m : List Alert) (now : Int) (id ht : CStr) (lat lon conf : ℚ)
    (rs : List alert_resend)
    (hsame : ∀ r ∈ rs, make_alert_key ht r.lat r.lon = make_alert_key ht lat lon)
    (hroom : ∀ a, alert_find (make_alert_key ht lat lon) m = some a →
      id ∈ a.confirmers ∨ a.confirmers.length < 10) :
    ∃ a1 a2,
      alert_find (make_alert_key ht lat lon) (add_or_update_alert now id ht lat lon conf m)
        = some a1
      ∧ alert_find (make_alert_key ht lat lon)
          (alerts_resend id ht rs (add_or_update_alert now id ht lat lon conf m)) = some a2
      ∧ a2.confirmations = a1.confirmations := by
  have hstep := alert_find_add_same now id ht lat lon conf m
  have hrec : ∀ a1, alert_find (make_alert_key ht lat lon)
      (add_or_update_alert now id ht lat lon conf m) = some a1 → id ∈ a1.confirmers := by
    intro a1 h1
    rw [hstep] at h1
    cases hf : alert_find (make_alert_key ht lat lon) m with
    | none =>
      rw [hf] at h1
      simp only [Option.some.injEq] at h1
      rw [← h1]
      simp [alert_new]
    | some a =>
      rw [hf] at h1
      simp only [Option.some.injEq] at h1
      rw [← h1]
      by_cases hid : id ∈ a.confirmers
      · rw [(alert_update_known now id conf a hid).2.1]
        exact hid
      · rw [(alert_update_fresh now id conf a hid).2.1]
        rcases hroom a hf with h | h
        · exact absurd h hid
        · rw [if_pos (by simpa [CONFIRMERS_MAX] using h)]
          simp
  obtain ⟨a', hf', hc', _⟩ := alerts_resend_known id ht lat lon rs
    (add_or_update_alert now id ht lat lon conf m) _ hsame hstep (hrec _ hstep)
  exact ⟨_, a', hstep, hf', hc'⟩

theorem alert_resubmit_witness :
    ∃ a1 a2,
      alert_find (make_alert_key "ice_patch".toList 40 (-74))
          (add_or_update_alert 100 "n1".toList "ice_patch".toList 40 (-74) 1 []) = some a1
      ∧ alert_find (make_alert_key "ice_patch".toList 40 (-74))
          (alerts_resend "n1".toList "ice_patch".toList
            [{ now := 101, lat := 40, lon := -74, confidence := 1 }]
            (add_or_update_alert 100 "n1".toList "ice_patch".toList 40 (-74) 1 [])) = some a2
      ∧ a2.confirmations = a1.confirmations :=
  alert_resubmit [] 100 "n1".toList "ice_patch".toList 40 (-74) 1
    [{ now := 101, lat := 40, lon := -74, confidence := 1 }]
    (by intro r hr; simp at hr; rw [hr])
    (by intro a h; simp [alert_find] at h)

/-- C18 as stated fails against the consensus map as the specification gives it:
an alert that already records 10 confirmers counts an eleventh sender without
recording it, so each further call of that sender for the same key adds one more
confirmation: 11 after its first call, 12 after its second. -/
theorem alert_resubmit_counterexample :
    (alert_find (make_alert_key "ice_patch".toList 40 (-74))
        (add_or_update_alert 101 "z".toList "ice_patch".toList 40 (-74) 1
          [{ alert_key := make_alert_key "ice_patch".toList 40 (-74), latitude := 40,
             longitude := -74, hazard_type := "ice_patch".toList, confidence := 1,
             first_seen := 90, last_seen := 100, confirmations := 10,
             confirmers := ["c0".toList, "c1".toList, "c2".toList, "c3".toList, "c4".toList,
                            "c5".toList, "c6".toList, "c7".toList, "c8".toList, "c9".toList],
             status := alert_status.VERIFIED }])).map (fun a => a.confirmations) = some 11
    ∧ (alert_find (make_alert_key "ice_patch".toList 40 (-74))
        (alerts_resend "z".toList "ice_patch".toList
          [{ now := 102, lat := 40, lon := -74, confidence := 1 }]
          (add_or_update_alert 101 "z".toList "ice_patch".toList 40 (-74) 1
            [{ alert_key := make_alert_key "ice_patch".toList 40 (-74), latitude := 40,
               longitude := -74, hazard_type := "ice_patch".toList, confidence := 1,
               first_seen := 90, last_seen := 100, confirmations := 10,
               confirmers := ["c0".toList, "c1".toList, "c2".toList, "c3".toList, "c4".toList,
                              "c5".toList, "c6".toList, "c7".toList, "c8".toList, "c9".toList],
               status := alert_status.VERIFIED }]))).map (fun a => a.confirmations)
      = some 12 := by
  have hz : "z".toList ∉ ["c0".toList, "c1".toList, "c2".toList, "c3".toList, "c4".toList,
      "c5".toList, "c6".toList, "c7".toList, "c8".toList, "c9".toList] := by decide
  constructor
  · rw [alert_find_add_same]
    simp only [alert_find, List.find?_cons, decide_True, Option.map_some']
    rw [(alert_update_fresh _ _ _ _ hz).1]
    rfl
  · simp only [alerts_resend, List.foldl_cons, List.foldl_nil]
    rw [alert_find_add_same, alert_find_add_same]
    simp only [alert_find, List.find?_cons, decide_True, Option.map_some']
    have hz2 : "z".toList ∉ (alert_update 101 "z".toList 1
        { alert_key := make_alert_key "ice_patch".toList 40 (-74), latitude := 40,
          longitude := -74, hazard_type := "ice_patch".toList, confidence := 1,
          first_seen := 90, last_seen := 100, confirmations := 10,
          confirmers := ["c0".toList, "c1".toList, "c2".toList, "c3".toList, "c4".toList,
                         "c5".toList, "c6".toList, "c7".toList, "c8".toList, "c9".toList],
          status := alert_status.VERIFIED }).confirmers := by
      rw [(alert_update_fresh _ _ _ _ hz).2.1]
      exact hz
    rw [(alert_update_fresh _ _ _ _ hz2).1, (alert_update_fresh _ _ _ _ hz).1]
    rfl

theorem add_or_update_alert_keys (now : Int) (id ht : CStr) (lat lon conf : ℚ)
    (m : List Alert) :
    (add_or_update_alert now id ht lat lon conf m).map (fun a => a.alert_key)
      = if make_alert_key ht lat lon ∈ m.map (fun a => a.alert_key) then
          m.map (fun a => a.alert_key)
        else m.map (fun a => a.alert_key) ++ [make_alert_key ht lat lon] := by
  induction m with
  | nil => simp [add_or_update_alert, alert_new]
  | cons a rest ih =>
    by_cases ha : a.alert_key = make_alert_key ht lat lon
    · rw [add_or_update_alert, if_pos ha, if_pos (by simp [ha])]
      simp only [List.map_cons, alert_update_key]
    · rw [add_or_update_alert, if_neg ha]
      simp only [List.map_cons, ih, List.mem_cons]
      have hne : ¬ (make_alert_key ht lat lon = a.alert_key) := fun h => ha h.symm
      by_cases hm : make_alert_key ht lat lon ∈ rest.map (fun a => a.alert_key)
      · rw [if_pos hm, if_pos (Or.inr hm)]
      · rw [if_neg hm, if_neg (by rintro (h | h); exact hne h; exact hm h)]
        rfl

theorem add_or_update_alert_forall (P : Alert → Prop) (now : Int) (id ht : CStr)
    (lat lon conf : ℚ) (m : List Alert) (hm : ∀ a ∈ m, P a)
    (hnew : P (alert_new now id ht lat lon conf))
    (hupd : ∀ a, P a → P (alert_update now id conf a)) :
    ∀ x ∈ add_or_update_alert now id ht lat lon conf m, P x := by
  induction m with
  | nil =>
    intro x hx
    simp only [add_or_update_alert, List.mem_singleton] at hx
    rw [hx]; exact hnew
  | cons a rest ih =>
    intro x hx
    by_cases ha : a.alert_key = make_alert_key ht lat lon
    · rw [add_or_update_alert, if_pos ha] at hx
      rcases List.mem_cons.mp hx with rfl | h
      · exact hupd a (hm a (List.mem_cons_self _ _))
      · exact hm x (List.mem_cons_of_mem _ h)
    · rw [add_or_update_alert, if_neg ha] at hx
      rcases List.mem_cons.mp hx with rfl | h
      · exact hm x (List.mem_cons_self _ _)
      · exact ih (fun y hy => hm y (List.mem_cons_of_mem _ hy)) x h

theorem alert_update_inv (now : Int) (id : CStr) (conf : ℚ) (a : Alert)
    (h : 1 ≤ a.confirmations
      ∧ (a.status = alert_status.VERIFIED ↔ ALERT_VERIFICATION_THRESHOLD ≤ a.confirmations)) :
    1 ≤ (alert_update now id conf a).confirmations
      ∧ ((alert_update now id conf a).status = alert_status.VERIFIED
          ↔ ALERT_VERIFICATION_THRESHOLD ≤ (alert_update now id conf a).confirmations) := by
  by_cases hid : id ∈ a.confirmers
  · obtain ⟨h1, _, h3⟩ := alert_update_known now id conf a hid
    rw [h1, h3]; exact h
  · obtain ⟨h1, _, h3⟩ := alert_update_fresh now id conf a hid
    rw [h1, h3]
    have hge : a.confirmations + 1 ≥ ALERT_VERIFICATION_THRESHOLD := by
      simp only [ALERT_VERIFICATION_THRESHOLD]; omega
    rw [if_pos hge]
    exact ⟨by omega, fun _ => hge, fun _ => rfl⟩

/-- Every operation keeps the invariant of the alert map. -/
theorem alert_inv_step (m : List Alert) (op : alert_op) (h : alert_inv m) :
    alert_inv (alerts_step m op) := by
  obtain ⟨h1, h2⟩ := h
  cases op with
  | report now id ht lat lon conf =>
    refine ⟨?_, ?_⟩
    · exact add_or_update_alert_forall _ now id ht lat lon conf m h1
        ⟨by simp [alert_new], by simp [alert_new, ALERT_VERIFICATION_THRESHOLD]⟩
        (fun a ha => alert_update_inv now id conf a ha)
    · simp only [alerts_step]
      rw [add_or_update_alert_keys]
      split
      · exact h2
      · rename_i hn
        rw [List.nodup_append]
        refine ⟨h2, List.nodup_singleton _, ?_⟩
        intro k hk hk'
        rw [List.mem_singleton] at hk'
        rw [hk'] at hk
        exact hn hk
  | expire now =>
    refine ⟨?_, ?_⟩
    · intro a ha
      simp only [alerts_step, expire_old_alerts] at ha
      exact h1 a (List.mem_filter.mp ha).1
    · simp only [alerts_step, expire_old_alerts]
      exact h2.sublist (List.Sublist.map _ (List.filter_sublist _))

theorem alert_inv_run (ops : List alert_op) (m : List Alert) (h : alert_inv m) :
    alert_inv (alerts_run ops m) := by
  induction ops generalizing m with
  | nil => exact h
  | cons op rest ih =>
    simp only [alerts_run, List.foldl_cons]
    exact ih (alerts_step m op) (alert_inv_step m op h)

/-- A VERIFIED alert that an operation leaves in the map is still VERIFIED. -/
theorem alert_verified_stays (m : List Alert) (op : alert_op) (hinv : alert_inv m)
    (k : alert_key_t) (a a' : Alert) (hf : alert_find k m = some a)
    (hv : a.status = alert_status.VERIFIED) (hf' : alert_find k (alerts_step m op) = some a') :
    a'.status = alert_status.VERIFIED := by
  cases op with
  | report now id ht lat lon conf =>
    simp only [alerts_step] at hf'
    by_cases hk : k = make_alert_key ht lat lon
    · subst hk
      rw [alert_find_add_same, hf] at hf'
      simp only [Option.some.injEq] at hf'
      rw [← hf']
      have ha := hinv.1 a (List.mem_of_find?_eq_some hf)
      have hu := alert_update_inv now id conf a ha
      rw [hu.2]
      have h2 := ha.2.mp hv
      by_cases hid : id ∈ a.confirmers
      · rw [(alert_update_known now id conf a hid).1]; exact h2
      · rw [(alert_update_fresh now id conf a hid).1]
        simp only [ALERT_VERIFICATION_THRESHOLD] at h2 ⊢
        omega
    · rw [alert_find_add_other now id ht lat lon conf m k hk, hf] at hf'
      simp only [Option.some.injEq] at hf'
      rw [← hf']; exact hv
  | expire now =>
    simp only [alerts_step, expire_old_alerts] at hf'
    have hm' : a' ∈ m := (List.mem_filter.mp (List.mem_of_find?_eq_some hf')).1
    have hm : a ∈ m := List.mem_of_find?_eq_some hf
    have hk' : a'.alert_key = k := by
      have := List.find?_some hf'
      simpa using this
    have hk : a.alert_key = k := by
      have := List.find?_some hf
      simpa using this
    have : a' = a := List.inj_on_of_nodup_map hinv.2 hm' hm (by rw [hk', hk])
    rw [this]; exact hv

/-- C19 (against the consensus map as the specification gives it): in every map
reached from the empty map by reports and expiry sweeps, an alert with fewer
than 2 confirmations is TENTATIVE and an alert with 2 or more is VERIFIED (so it
becomes VERIFIED when its count first reaches 2); and an alert that is VERIFIED
and still in the map after one more operation is still VERIFIED. -/
theorem alert_promotion (ops : List alert_op) :
    (∀ a ∈ alerts_run ops [],
      (a.confirmations < 2 → a.status = alert_status.TENTATIVE)
      ∧ (2 ≤ a.confirmations → a.status = alert_status.VERIFIED))
    ∧ (∀ (op : alert_op) (k : alert_key_t) (a a' : Alert),
        alert_find k (alerts_run ops []) = some a → a.status = alert_status.VERIFIED →
        alert_find k (alerts_step (alerts_run ops []) op) = some a' →
        a'.status = alert_status.VERIFIED) := by
  have hinv : alert_inv (alerts_run ops []) :=
    alert_inv_run ops [] ⟨by simp, by simp⟩
  refine ⟨?_, ?_⟩
  · intro a ha
    obtain ⟨_, h2⟩ := hinv.1 a ha
    simp only [ALERT_VERIFICATION_THRESHOLD] at h2
    refine ⟨?_, fun h => h2.mpr h⟩
    intro hlt
    cases hst : a.status with
    | TENTATIVE => rfl
    | VERIFIED =>
      have := h2.mp hst
      omega
  · intro op k a a' hf hv hf'
    exact alert_verified_stays _ op hinv k a a' hf hv hf'

theorem alert_quantize_scenario :
    alert_quantize 40.7128 = 40713 ∧ alert_quantize 40.7130 = 40713
      ∧ alert_quantize (-74.0060) = -74006 ∧ alert_quantize (-74.0061) = -74006 := by
  unfold alert_quantize
  refine ⟨?_, ?_, ?_, ?_⟩ <;> (rw [round_eq, Int.floor_eq_iff]; norm_num)

theorem alert_promotion_witness :
    alerts_run [alert_op.report 100 "n1".toList "ice_patch".toList 40.7128 (-74.0060) 0.6,
        alert_op.report 101 "n2".toList "ice_patch".toList 40.7130 (-74.0061) 0.9] []
      = [{ alert_key := { cell_lat := 40713, cell_lon := -74006,
                          hazard_type := "ice_patch".toList },
           latitude := 40.7128, longitude := -74.0060, hazard_type := "ice_patch".toList,
           confidence := 0.9, first_seen := 100, last_seen := 101, confirmations := 2,
           confirmers := ["n1".toList, "n2".toList], status := alert_status.VERIFIED }]
    ∧ ∀ a ∈ alerts_run
        [alert_op.report 100 "n1".toList "ice_patch".toList 40.7128 (-74.0060) 0.6,
         alert_op.report 101 "n2".toList "ice_patch".toList 40.7130 (-74.0061) 0.9] [],
        a.confirmations = 2 ∧ a.status = alert_status.VERIFIED := by
  obtain ⟨q1, q2, q3, q4⟩ := alert_quantize_scenario
  have hk1 : make_alert_key "ice_patch".toList 40.7128 (-74.0060)
      = { cell_lat := 40713, cell_lon := -74006, hazard_type := "ice_patch".toList } := by
    simp only [make_alert_key, q1, q3]
  have hk2 : make_alert_key "ice_patch".toList 40.7130 (-74.0061)
      = { cell_lat := 40713, cell_lon := -74006, hazard_type := "ice_patch".toList } := by
    simp only [make_alert_key, q2, q4]
  have hn : "n2".toList ∉ ["n1".toList] := by decide
  have hmax : max (0.6 : ℚ) 0.9 = 0.9 := by norm_num
  have hrun : alerts_run
      [alert_op.report 100 "n1".toList "ice_patch".toList 40.7128 (-74.0060) 0.6,
       alert_op.report 101 "n2".toList "ice_patch".toList 40.7130 (-74.0061) 0.9] []
      = [{ alert_key := { cell_lat := 40713, cell_lon := -74006,
                          hazard_type := "ice_patch".toList },
           latitude := 40.7128, longitude := -74.0060, hazard_type := "ice_patch".toList,
           confidence := 0.9, first_seen := 100, last_seen := 101, confirmations := 2,
           confirmers := ["n1".toList, "n2".toList], status := alert_status.VERIFIED }] := by
    simp only [alerts_run, List.foldl_cons, List.foldl_nil, alerts_step, add_or_update_alert,
      alert_new, hk1, hk2, if_true, alert_update, hn, if_false, hmax]
    simp [promote_alert_if_threshold, ALERT_VERIFICATION_THRESHOLD, CONFIRMERS_MAX]
  refine ⟨hrun, ?_⟩
  intro a ha
  have h2 : a.confirmations = 2 := by
    rw [hrun, List.mem_singleton] at ha
    rw [ha]
  exact ⟨h2, ((alert_promotion _).1 a ha).2 (by omega)⟩

/-! ## The rate limiter and its reference definition -/

theorem ratelimit_on_entry_mem (now : Int) (id : CStr) (l : List rate_entry_t)
    (r : Int × List rate_entry_t) (h : ratelimit_on_entry now id l = some r) :
    ∀ x ∈ r.2, x ∈ l
      ∨ ∃ e ∈ l, e.id = id ∧ x = (ratelimit_window now e).2 ∧ r.1 = (ratelimit_window now e).1 := by
  induction l generalizing r with
  | nil => simp [ratelimit_on_entry] at h
  | cons e rest ih =>
    by_cases hid : e.id = id
    · simp only [ratelimit_on_entry, hid, if_true, Option.some.injEq] at h
      subst h
      intro x hx
      rcases List.mem_cons.mp hx with rfl | hx'
      · exact Or.inr ⟨e, List.mem_cons_self _ _, hid, rfl, rfl⟩
      · exact Or.inl (List.mem_cons_of_mem _ hx')
    · simp only [ratelimit_on_entry, hid, if_false] at h
      cases hrec : ratelimit_on_entry now id rest with
      | none => rw [hrec] at h; simp at h
      | some r' =>
        rw [hrec] at h
        simp only [Option.some.injEq] at h
        subst h
        intro x hx
        rcases List.mem_cons.mp hx with rfl | hx'
        · exact Or.inl (List.mem_cons_self _ _)
        · rcases ih r' hrec x hx' with h1 | ⟨e', he', h2, h3, h4⟩
          · exact Or.inl (List.mem_cons_of_mem _ h1)
          · exact Or.inr ⟨e', List.mem_cons_of_mem _ he', h2, h3, h4⟩

theorem admitted_since_mono (s : CStr) (th : Int) (k : rate_call) (r : Int)
    (H : List (rate_call × Int)) :
    admitted_since s th H ≤ admitted_since s th ((k, r) :: H) := by
  rw [admitted_since_cons]; omega

/-- One call keeps the converse invariant. -/
theorem rate_inv_stored_step (l : rate_limiter_t) (H : List (rate_call × Int)) (T now : Int)
    (a : Bool) (oid : Option CStr) (hinv : rate_inv l H T) (hst : rate_inv_stored l H T)
    (hT : T ≤ now) (hnz : now ≠ 0) (hshort : ∀ id, oid = some id → id.length < 64) :
    rate_inv_stored (ratelimit_allow now a oid l).2
      (({ now := now, alloc_ok := a, ephemeral_id := oid }, (ratelimit_allow now a oid l).1) :: H)
      now := by
  have hold : ∀ (r : Int) (e : rate_entry_t), e ∈ l.entries → ∀ th, now - 10 ≤ th →
      stored_since th (some e) ≤ admitted_since e.id th
        (({ now := now, alloc_ok := a, ephemeral_id := oid }, r) :: H) := by
    intro r e he th hth
    exact le_trans (hst e he th (by omega)) (admitted_since_mono _ _ _ _ _)
  cases oid with
  | none =>
    intro e he th hth
    exact hold _ e he th hth
  | some id =>
    have hsw : ∀ e ∈ (ratelimit_expire_inactive_senders now l).entries, e ∈ l.entries := by
      intro e he
      rw [ratelimit_expire_entries] at he
      exact (List.mem_filter.mp he).1
    obtain ⟨hlenS, _⟩ := rate_inv_sweep l H T now hinv hT
    have hid := strncpy_str_short id 63 (by have := hshort id rfl; omega)
    cases hl : rate_lookup id (ratelimit_expire_inactive_senders now l).entries with
    | none =>
      cases a with
      | false =>
        rw [ratelimit_allow_nomem now id l hl]
        intro e he th hth
        exact hold _ e (hsw e he) th hth
      | true =>
        rw [ratelimit_allow_fresh now id l hl, hid]
        intro e he th hth
        rcases List.mem_cons.mp he with rfl | he'
        · rw [admitted_since_cons]
          simp only [stored_since, List.filter_cons]
          by_cases h : th ≤ now <;> simp [h, hnz]
        · exact hold _ e (hsw e he') th hth
    | some e0 =>
      obtain ⟨h1, _, _, _, _, _⟩ := ratelimit_allow_found now a id l e0 hl
      intro x hx th hth
      rw [ratelimit_allow_some] at hx
      cases hr : ratelimit_on_entry now id (ratelimit_expire_inactive_senders now l).entries with
      | none =>
        rw [(ratelimit_on_entry_none now id _).mp hr] at hl
        exact absurd hl (by simp)
      | some r =>
        rw [hr] at hx
        simp only at hx
        have hret : (ratelimit_allow now a (some id) l).1 = r.1 := by
          rw [ratelimit_allow_some, hr]
        rcases ratelimit_on_entry_mem now id _ r hr x hx with hm | ⟨e, he, heid, hxe, hre⟩
        · exact hold _ x (hsw x hm) th hth
        · rw [hxe, ratelimit_window_id, heid, admitted_since_cons,
            stored_since_window now th e (hlenS e he) hth hnz, hret, hre]
          have hb := hst e (hsw e he) th (by omega)
          rw [heid] at hb
          by_cases hc : (ratelimit_window now e).1 = 1 ∧ th ≤ now
          · rw [if_pos hc, if_pos ⟨rfl, hc.1, hc.2⟩]
            omega
          · rw [if_neg hc]
            omega

/-- The decision of one call, by the trace: with the allocation succeeding, the
call returns 1 exactly when fewer than six earlier calls of the sender were
admitted within the ten seconds before it, and 0 otherwise. -/
theorem rate_step_decision (l : rate_limiter_t) (H : List (rate_call × Int)) (T now : Int)
    (id : CStr) (hinv : rate_inv l H T) (hst : rate_inv_stored l H T)
    (hT : T ≤ now) :
    (ratelimit_allow now true (some id) l).1
      = if admitted_since id (now - 10) H < 6 then 1 else 0 := by
  obtain ⟨hlenS, hcS⟩ := rate_inv_sweep l H T now hinv hT
  cases hl : rate_lookup id (ratelimit_expire_inactive_senders now l).entries with
  | none =>
    have h0 := hcS id (now - 10) (by omega)
    rw [hl] at h0
    simp only [stored_since] at h0
    rw [ratelimit_allow_fresh now id l hl, if_pos (by omega)]
  | some e =>
    obtain ⟨h1, _⟩ := ratelimit_allow_found now true id l e hl
    have hmemS : e ∈ (ratelimit_expire_inactive_senders now l).entries :=
      List.mem_of_find?_eq_some hl
    have hmem : e ∈ l.entries := by
      rw [ratelimit_expire_entries] at hmemS
      exact (List.mem_filter.mp hmemS).1
    have heid : e.id = id := by
      have := List.find?_some hl
      simpa using this
    have hle := hcS id (now - 10) (by omega)
    rw [hl] at hle
    have hge := hst e hmem (now - 10) (by omega)
    rw [heid] at hge
    simp only [stored_since] at hle hge
    rw [← stored_since_window_count now e.timestamps] at hle hge
    rw [h1, ratelimit_window_eq now e (hlenS e hmemS)]
    simp only [MAX_PER_WINDOW]
    by_cases hk : (e.timestamps.filter (ts_within now WINDOW_SECONDS)).length ≥ 6
    · rw [if_pos hk, if_neg (by omega)]
    · rw [if_neg hk, if_pos (by omega)]

theorem admitted_since_reference (s : CStr) (now : Int) (hist : List ((Int × CStr) × Int)) :
    admitted_since s (now - 10) (hist.map (fun h => (rate_call_of h.1, h.2)))
      = (hist.filter (fun h => decide (h.1.2 = s ∧ h.2 = 1 ∧ now - h.1.1 ≤ 10))).length := by
  induction hist with
  | nil => rfl
  | cons h rest ih =>
    rw [List.map_cons, admitted_since_cons, ih, List.filter_cons]
    have hiff : ((rate_call_of h.1).ephemeral_id = some s ∧ h.2 = 1
        ∧ now - 10 ≤ (rate_call_of h.1).now) ↔ (h.1.2 = s ∧ h.2 = 1 ∧ now - h.1.1 ≤ 10) := by
      simp only [rate_call_of, Option.some.injEq]
      constructor
      · rintro ⟨h1, h2, h3⟩
        exact ⟨h1, h2, by omega⟩
      · rintro ⟨h1, h2, h3⟩
        exact ⟨h1, h2, by omega⟩
    by_cases hc : h.1.2 = s ∧ h.2 = 1 ∧ now - h.1.1 ≤ 10
    · rw [if_pos (hiff.mpr hc), if_pos (decide_eq_true hc), List.length_cons]
      omega
    · rw [if_neg (fun hh => hc (hiff.mp hh)), if_neg (by rw [decide_eq_true_eq]; exact hc),
        Nat.zero_add]

/-- Along a run at non-decreasing, non-zero clock readings with short ids and
allocations succeeding, the values `ratelimit_allow` returns are those of the
reference definition. -/
theorem rate_run_reference (reqs : List (Int × CStr)) (l : rate_limiter_t)
    (hist : List ((Int × CStr) × Int)) (T : Int)
    (hinv : rate_inv l (hist.map (fun h => (rate_call_of h.1, h.2))) T)
    (hst : rate_inv_stored l (hist.map (fun h => (rate_call_of h.1, h.2))) T)
    (hsorted : List.Pairwise (fun a b : Int × CStr => a.1 ≤ b.1) reqs)
    (hT : ∀ q ∈ reqs, T ≤ q.1) (hnz : ∀ q ∈ reqs, q.1 ≠ 0)
    (hshort : ∀ q ∈ reqs, q.2.length < 64) :
    (ratelimit_run (reqs.map rate_call_of) l).1.map Prod.snd = ratelimit_reference reqs hist := by
  induction reqs generalizing l hist T with
  | nil => rfl
  | cons q qs ih =>
    obtain ⟨hq, hqs⟩ := List.pairwise_cons.mp hsorted
    have hTq := hT q (List.mem_cons_self _ _)
    have hnzq := hnz q (List.mem_cons_self _ _)
    have hdec := rate_step_decision l _ T q.1 q.2 hinv hst hTq
    rw [admitted_since_reference] at hdec
    have hstep := (rate_inv_step l _ T q.1 true (some q.2) hinv hTq hnzq
      (by intro id hid; cases hid; exact hshort q (List.mem_cons_self _ _))).1
    have hstep2 := rate_inv_stored_step l _ T q.1 true (some q.2) hinv hst hTq hnzq
      (by intro id hid; cases hid; exact hshort q (List.mem_cons_self _ _))
    have hrec := ih (ratelimit_allow q.1 true (some q.2) l).2
      ((q, (ratelimit_allow q.1 true (some q.2) l).1) :: hist) q.1 hstep hstep2 hqs hq
      (fun q' hq' => hnz q' (List.mem_cons_of_mem _ hq'))
      (fun q' hq' => hshort q' (List.mem_cons_of_mem _ hq'))
    simp only [List.map_cons, ratelimit_run, rate_call_of, ratelimit_reference]
    simp only [rate_call_of] at hrec
    rw [hrec, hdec]

/-- C20: for every sequence of `ratelimit_allow` calls from the empty limiter at
non-decreasing, non-zero clock readings with sender ids shorter than 64
characters (allocations succeeding), the values returned are those of the
reference definition: the call for sender `s` at `now` returns 1 if and only if
fewer than 6 earlier calls for `s` returned 1 at times `t` with `now - t <= 10`. -/
theorem ratelimit_refines_reference (reqs : List (Int × CStr))
    (hsorted : List.Pairwise (fun a b : Int × CStr => a.1 ≤ b.1) reqs)
    (hnz : ∀ q ∈ reqs, q.1 ≠ 0) (hshort : ∀ q ∈ reqs, q.2.length < 64) :
    (ratelimit_run (reqs.map rate_call_of) ratelimit_init).1.map Prod.snd
      = ratelimit_reference reqs [] := by
  cases reqs with
  | nil => rfl
  | cons q qs =>
    have hinv : rate_inv ratelimit_init
        (([] : List ((Int × CStr) × Int)).map (fun h => (rate_call_of h.1, h.2))) q.1 := by
      refine ⟨by simp [ratelimit_init], ?_⟩
      intro s th _
      simp [admitted_since]
    have hst : rate_inv_stored ratelimit_init
        (([] : List ((Int × CStr) × Int)).map (fun h => (rate_call_of h.1, h.2))) q.1 := by
      intro e he
      simp [ratelimit_init] at he
    exact rate_run_reference (q :: qs) ratelimit_init [] q.1 hinv hst hsorted
      (by
        intro q' hq'
        rcases List.mem_cons.mp hq' with rfl | h
        · exact le_refl _
        · exact (List.pairwise_cons.mp hsorted).1 q' h)
      hnz hshort

theorem ratelimit_refines_reference_witness :
    (ratelimit_run ([(100, "B".toList), (100, "B".toList), (101, "C".toList),
        (102, "B".toList), (103, "B".toList), (104, "B".toList), (105, "B".toList),
        (106, "B".toList), (111, "B".toList)].map rate_call_of) ratelimit_init).1.map Prod.snd
      = ratelimit_reference [(100, "B".toList), (100, "B".toList), (101, "C".toList),
        (102, "B".toList), (103, "B".toList), (104, "B".toList), (105, "B".toList),
        (106, "B".toList), (111, "B".toList)] [] :=
  ratelimit_refines_reference [(100, "B".toList), (100, "B".toList), (101, "C".toList),
        (102, "B".toList), (103, "B".toList), (104, "B".toList), (105, "B".toList),
        (106, "B".toList), (111, "B".toList)]
    (by decide) (by decide) (by decide)

/-! ## Only duplicates are rejected -/

/-- C21 (as the code has it): for every sequence of `replay_cache_check_and_add`
calls from the empty cache whose sender ids are shorter than 64 characters (any
sequence numbers, clock readings and allocation outcomes), a call whose
(sender id, seq) pair differs from the pair of every earlier call, and whose
allocation succeeds, returns 1. -/
theorem replay_rejects_only_duplicates (calls : List replay_call) (now : Int) (id : CStr)
    (seq : Nat)
    (hshort : ∀ k ∈ calls, ∀ id', k.ephemeral_id = some id' → id'.length < 64)
    (hnew : ∀ k ∈ calls, ¬ (k.ephemeral_id = some id ∧ k.seq = seq)) :
    (replay_cache_check_and_add now true (some id) seq
      (replay_run calls replay_cache_init)).1 = 1 := by
  have hcalls : ∀ k ∈ calls, (∀ id', k.ephemeral_id = some id' → id'.length < 64) ∧
      ¬ (k.ephemeral_id = some id ∧ k.seq = seq) := fun k hk => ⟨hshort k hk, hnew k hk⟩
  have h0 := replay_run_pair_stamp calls replay_cache_init id seq 0 hcalls
    (by intro e he; simp [replay_cache_init] at he)
  have h1 := replay_run_pair_stamp calls replay_cache_init id seq 1 hcalls
    (by intro e he; simp [replay_cache_init] at he)
  have hs : ¬ (replay_scan id seq (replay_cache_expire_old_entries now
      (replay_run calls replay_cache_init)).entries = true) := by
    intro hh
    obtain ⟨e, he, hi, hq⟩ := (replay_scan_iff id seq _).mp hh
    rw [replay_expire_entries] at he
    have hm := (List.mem_filter.mp he).1
    have e0 := h0 e hm hi hq
    have e1 := h1 e hm hi hq
    omega
  rw [replay_check_some, if_neg hs, if_pos rfl]

theorem replay_rejects_only_duplicates_witness :
    (replay_cache_check_and_add 1002 true (some "A".toList) 6
      (replay_run [⟨1000, true, some "A".toList, 5⟩, ⟨1001, true, some "B".toList, 6⟩]
        replay_cache_init)).1 = 1 :=
  replay_rejects_only_duplicates
    [⟨1000, true, some "A".toList, 5⟩, ⟨1001, true, some "B".toList, 6⟩] 1002 "A".toList 6
    (by decide) (by decide)

/-- C21 as stated fails: after a call with a 64-character id, whose entry holds
the id cut to 63 characters, a call with those 63 characters as its id and the
same seq is a different pair and yet returns 0. -/
theorem replay_rejects_only_duplicates_counterexample :
    (some (List.replicate 63 'A'), 5) ≠ (some (List.replicate 64 'A'), 5)
    ∧ (replay_cache_check_and_add 1000 true (some (List.replicate 63 'A')) 5
        (replay_run [⟨1000, true, some (List.replicate 64 'A'), 5⟩] replay_cache_init)).1
      = 0 := by
  decide

/-! ## The peer argument -/

theorem strchr_eq (s : CStr) (ch : Char) :
    strchr s ch = if ch ∈ s then some (s.dropWhile (fun x => decide (x ≠ ch))) else none := by
  induction s with
  | nil => simp [strchr]
  | cons c cs ih =>
    by_cases hc : c = ch
    · subst hc
      simp [strchr, List.dropWhile_cons]
    · have hne : ¬ (ch = c) := fun h => hc h.symm
      rw [strchr, if_neg hc, ih, List.dropWhile_cons]
      simp only [ne_eq, hc, not_false_eq_true, decide_True, if_true, List.mem_cons, hne, false_or]

theorem length_sub_dropWhile (s : CStr) (p : Char → Bool) :
    s.length - (s.dropWhile p).length = (s.takeWhile p).length
    ∧ s.take (s.length - (s.dropWhile p).length) = s.takeWhile p := by
  have h := List.takeWhile_append_dropWhile p s
  have hl : s.length = (s.takeWhile p).length + (s.dropWhile p).length := by
    conv_lhs => rw [← h]
    rw [List.length_append]
  have h1 : s.length - (s.dropWhile p).length = (s.takeWhile p).length := by omega
  refine ⟨h1, ?_⟩
  have ht : List.take (s.takeWhile p).length (s.takeWhile p ++ s.dropWhile p)
      = s.takeWhile p := List.take_left _ _
  rw [h] at ht
  rw [h1]
  exact ht

/-- `parse_ip_port` by the text before and after the first colon. -/
theorem parse_ip_port_eq (s ip0 : CStr) (port0 : Int) :
    parse_ip_port s ip0 port0 =
      if ':' ∈ s then
        if (s.takeWhile (fun x => decide (x ≠ ':'))).length ≥ 63 then (-1, ip0, port0)
        else
          (if c_atoi ((s.dropWhile (fun x => decide (x ≠ ':'))).drop 1) > 0
              ∧ c_atoi ((s.dropWhile (fun x => decide (x ≠ ':'))).drop 1) < 65536
            then 0 else -1,
           s.takeWhile (fun x => decide (x ≠ ':')),
           c_atoi ((s.dropWhile (fun x => decide (x ≠ ':'))).drop 1))
      else (-1, ip0, port0) := by
  obtain ⟨hlen, htake⟩ := length_sub_dropWhile s (fun x => decide (x ≠ ':'))
  unfold parse_ip_port
  rw [strchr_eq]
  by_cases hmem : ':' ∈ s
  · rw [if_pos hmem, if_pos hmem]
    rw [hlen] at htake
    simp only [hlen, htake]
  · rw [if_neg hmem, if_neg hmem]

/-- C25: `parse_ip_port(s)` returns 0 if and only if `s` contains a ':', the text
before the first ':' is shorter than 63 characters, and the integer `atoi` reads
from the text after it is in 1..65535; on success `out_ip` is the text before
the first ':' and `out_port` that integer; otherwise it returns -1. -/
theorem parse_ip_port_spec (s ip0 : CStr) (port0 : Int) :
    ((parse_ip_port s ip0 port0).1 = 0 ↔
      (':' ∈ s ∧ (s.takeWhile (fun x => decide (x ≠ ':'))).length < 63
        ∧ 1 ≤ c_atoi ((s.dropWhile (fun x => decide (x ≠ ':'))).drop 1)
        ∧ c_atoi ((s.dropWhile (fun x => decide (x ≠ ':'))).drop 1) ≤ 65535))
    ∧ ((parse_ip_port s ip0 port0).1 = 0 →
        (parse_ip_port s ip0 port0).2.1 = s.takeWhile (fun x => decide (x ≠ ':'))
        ∧ (parse_ip_port s ip0 port0).2.2
            = c_atoi ((s.dropWhile (fun x => decide (x ≠ ':'))).drop 1))
    ∧ ((parse_ip_port s ip0 port0).1 ≠ 0 → (parse_ip_port s ip0 port0).1 = -1) := by
  rw [parse_ip_port_eq]
  have hne : ((-1 : Int) = 0) ↔ False := by decide
  generalize c_atoi ((s.dropWhile (fun x => decide (x ≠ ':'))).drop 1) = port
  generalize s.takeWhile (fun x => decide (x ≠ ':')) = ip
  by_cases hmem : ':' ∈ s
  · rw [if_pos hmem]
    by_cases h63 : ip.length ≥ 63
    · rw [if_pos h63]
      simp only [hne, false_iff, not_and, false_imp_iff, true_and, ne_eq, not_false_eq_true,
        imp_self, and_true]
      intro _ h
      omega
    · rw [if_neg h63]
      by_cases hp : port > 0 ∧ port < 65536
      · rw [if_pos hp]
        simp only [true_iff, true_imp_iff, and_self, ne_eq, not_true_eq_false, false_imp_iff,
          and_true]
        exact ⟨hmem, by omega, by omega, by omega⟩
      · rw [if_neg hp]
        simp only [hne, false_iff, not_and, false_imp_iff, true_and, ne_eq, not_false_eq_true,
          imp_self, and_true]
        intro _ _ h1 h2
        exact hp ⟨by omega, by omega⟩
  · rw [if_neg hmem]
    simp only [hne, false_iff, not_and, false_imp_iff, true_and, ne_eq, not_false_eq_true,
      imp_self, and_true]
    intro h
    exact absurd h hmem

/-! ## The confirmers JSON -/

set_option maxRecDepth 100000 in
/-- C24 at an alert with ten confirmer ids of 63 characters and confirmations 10:
the text `alert_to_verified` builds for `confirmers_json` has 661 characters,
more than the 511 that fit the 512-byte field with its terminator. -/
theorem confirmers_json_overflow :
    (∀ c ∈ List.replicate 10 (List.replicate 63 'a'), c.length ≤ 63)
    ∧ (alert_to_verified_confirmers_json
        { alert_key := { cell_lat := 0, cell_lon := 0, hazard_type := [] },
          latitude := 0, longitude := 0, hazard_type := [], confidence := 0,
          first_seen := 0, last_seen := 0, confirmations := 10,
          confirmers := List.replicate 10 (List.replicate 63 'a'),
          status := alert_status.VERIFIED }).length = 661
    ∧ ¬ (661 ≤ CONFIRMERS_JSON_SIZE - 1) := by
  refine ⟨by decide, by decide, by decide⟩

/-! ## Base64 -/

/-- C23 at the one-byte input 0x41: `base64_encode` gives "QQ==", of length
`4 * ceil(1 / 3)`, and `base64_decode` of that string ends with `out_len = 3`,
not 1, whatever value the lookup of '=' in the alphabet yields; with that value
0 the bytes written are 0x41, 0, 0. -/
theorem base64_roundtrip_one_byte :
    base64_encode true [0x41] = some "QQ==".toList
    ∧ (∀ miss, (base64_decode true miss "QQ==".toList).map Prod.snd = some 3)
    ∧ base64_decode true 0 "QQ==".toList = some ([0x41, 0, 0], 3) := by
  refine ⟨by decide, fun miss => rfl, by decide⟩

/-! ## Independence of the senders -/

theorem admitted_since_filter (s : CStr) (th : Int) (H : List (rate_call × Int)) :
    admitted_since s th (H.filter (fun kr => decide (kr.1.ephemeral_id = some s)))
      = admitted_since s th H := by
  unfold admitted_since
  rw [List.filter_filter]
  congr 1
  apply List.filter_congr
  intro kr _
  by_cases h : kr.1.ephemeral_id = some s <;> simp [h]

/-- Along a run at non-decreasing, non-zero clock readings with short ids, in
which the allocations of the calls of `s` succeed, the values returned to `s`
are those its own calls determine. -/
theorem rate_run_sender (s : CStr) (calls : List rate_call) (l : rate_limiter_t)
    (H : List (rate_call × Int)) (T : Int)
    (hinv : rate_inv l H T) (hst : rate_inv_stored l H T)
    (hsorted : List.Pairwise (fun a b : rate_call => a.now ≤ b.now) calls)
    (hT : ∀ k ∈ calls, T ≤ k.now) (hnz : ∀ k ∈ calls, k.now ≠ 0)
    (hshort : ∀ k ∈ calls, ∀ id, k.ephemeral_id = some id → id.length < 64)
    (halloc : ∀ k ∈ calls, k.ephemeral_id = some s → k.alloc_ok = true) :
    ((ratelimit_run calls l).1.filter
        (fun kr => decide (kr.1.ephemeral_id = some s))).map Prod.snd
      = sender_results s (calls.filter (fun k => decide (k.ephemeral_id = some s)))
          (H.filter (fun kr => decide (kr.1.ephemeral_id = some s))) := by
  induction calls generalizing l H T with
  | nil => rfl
  | cons k ks ih =>
    obtain ⟨hk, hks⟩ := List.pairwise_cons.mp hsorted
    have hTk := hT k (List.mem_cons_self _ _)
    have hnzk := hnz k (List.mem_cons_self _ _)
    have hshk := hshort k (List.mem_cons_self _ _)
    have hstep := (rate_inv_step l H T k.now k.alloc_ok k.ephemeral_id hinv hTk hnzk hshk).1
    have hstep2 := rate_inv_stored_step l H T k.now k.alloc_ok k.ephemeral_id hinv hst hTk hnzk
      hshk
    have hrec := ih (ratelimit_allow k.now k.alloc_ok k.ephemeral_id l).2
      ((k, (ratelimit_allow k.now k.alloc_ok k.ephemeral_id l).1) :: H) k.now hstep hstep2 hks
      hk (fun k' hk' => hnz k' (List.mem_cons_of_mem _ hk'))
      (fun k' hk' => hshort k' (List.mem_cons_of_mem _ hk'))
      (fun k' hk' => halloc k' (List.mem_cons_of_mem _ hk'))
    simp only [ratelimit_run]
    by_cases hs : k.ephemeral_id = some s
    · have ha := halloc k (List.mem_cons_self _ _) hs
      have hdec : (ratelimit_allow k.now k.alloc_ok k.ephemeral_id l).1
          = if admitted_since s (k.now - 10) H < 6 then 1 else 0 := by
        rw [hs, ha]
        exact rate_step_decision l H T k.now s hinv hst hTk
      rw [List.filter_cons, if_pos (by simpa using hs), List.map_cons, hrec,
        List.filter_cons, if_pos (by simpa using hs),
        List.filter_cons, if_pos (by simpa using hs)]
      simp only [sender_results, admitted_since_filter]
      rw [hdec]
    · rw [List.filter_cons, if_neg (by simpa using hs), hrec,
        List.filter_cons, if_neg (by simpa using hs),
        List.filter_cons, if_neg (by simpa using hs)]

/-- C22: for sender ids shorter than 64 characters and non-decreasing, non-zero
clock readings, two call sequences from the empty limiter that contain the same
calls for `s` (allocations succeeding) and differ only in the calls made for
other senders return the same results to `s`. -/
theorem ratelimit_sender_independence (s : CStr) (calls1 calls2 : List rate_call)
    (hs1 : List.Pairwise (fun a b : rate_call => a.now ≤ b.now) calls1)
    (hs2 : List.Pairwise (fun a b : rate_call => a.now ≤ b.now) calls2)
    (hnz1 : ∀ k ∈ calls1, k.now ≠ 0) (hnz2 : ∀ k ∈ calls2, k.now ≠ 0)
    (hshort1 : ∀ k ∈ calls1, ∀ id, k.ephemeral_id = some id → id.length < 64)
    (hshort2 : ∀ k ∈ calls2, ∀ id, k.ephemeral_id = some id → id.length < 64)
    (halloc1 : ∀ k ∈ calls1, k.ephemeral_id = some s → k.alloc_ok = true)
    (halloc2 : ∀ k ∈ calls2, k.ephemeral_id = some s → k.alloc_ok = true)
    (hsame : calls1.filter (fun k => decide (k.ephemeral_id = some s))
      = calls2.filter (fun k => decide (k.ephemeral_id = some s))) :
    ((ratelimit_run calls1 ratelimit_init).1.filter
        (fun kr => decide (kr.1.ephemeral_id = some s))).map Prod.snd
      = ((ratelimit_run calls2 ratelimit_init).1.filter
        (fun kr => decide (kr.1.ephemeral_id = some s))).map Prod.snd := by
  have key : ∀ calls : List rate_call,
      List.Pairwise (fun a b : rate_call => a.now ≤ b.now) calls →
      (∀ k ∈ calls, k.now ≠ 0) →
      (∀ k ∈ calls, ∀ id, k.ephemeral_id = some id → id.length < 64) →
      (∀ k ∈ calls, k.ephemeral_id = some s → k.alloc_ok = true) →
      ((ratelimit_run calls ratelimit_init).1.filter
          (fun kr => decide (kr.1.ephemeral_id = some s))).map Prod.snd
        = sender_results s (calls.filter (fun k => decide (k.ephemeral_id = some s))) [] := by
    intro calls hsorted hnz hshort halloc
    cases calls with
    | nil => rfl
    | cons k ks =>
      have hinv : rate_inv ratelimit_init [] k.now := by
        refine ⟨by simp [ratelimit_init], ?_⟩
        intro s' th _
        simp [admitted_since]
      have hst : rate_inv_stored ratelimit_init [] k.now := by
        intro e he
        simp [ratelimit_init] at he
      exact rate_run_sender s (k :: ks) ratelimit_init [] k.now hinv hst hsorted
        (by
          intro k' hk'
          rcases List.mem_cons.mp hk' with rfl | h
          · exact le_refl _
          · exact (List.pairwise_cons.mp hsorted).1 k' h)
        hnz hshort halloc
  rw [key calls1 hs1 hnz1 hshort1 halloc1, key calls2 hs2 hnz2 hshort2 halloc2, hsame]

theorem ratelimit_sender_independence_witness :
    ((ratelimit_run [⟨100, true, some "B".toList⟩, ⟨100, false, some "C".toList⟩,
        ⟨101, true, some "B".toList⟩, ⟨125, true, some "D".toList⟩,
        ⟨126, true, some "B".toList⟩] ratelimit_init).1.filter
        (fun kr => decide (kr.1.ephemeral_id = some "B".toList))).map Prod.snd
      = ((ratelimit_run [⟨100, true, some "B".toList⟩, ⟨101, true, some "B".toList⟩,
        ⟨126, true, some "B".toList⟩] ratelimit_init).1.filter
        (fun kr => decide (kr.1.ephemeral_id = some "B".toList))).map Prod.snd :=
  ratelimit_sender_independence "B".toList
    [⟨100, true, some "B".toList⟩, ⟨100, false, some "C".toList⟩,
      ⟨101, true, some "B".toList⟩, ⟨125, true, some "D".toList⟩, ⟨126, true, some "B".toList⟩]
    [⟨100, true, some "B".toList⟩, ⟨101, true, some "B".toList⟩, ⟨126, true, some "B".toList⟩]
    (by decide) (by decide) (by decide) (by decide) (by decide) (by decide) (by decide)
    (by decide) (by decide)

theorem base64_encode_loop_length (x : List Nat) :
    (base64_encode_loop x).length = 4 * ((x.length + 2) / 3) := by
  induction x using base64_encode_loop.induct with
  | case1 => rfl
  | case2 a => simp [base64_encode_loop, base64_quad]
  | case3 a b => simp [base64_encode_loop, base64_quad]
  | case4 a b c rest ih =>
    rw [base64_encode_loop, List.length_append, ih]
    simp only [base64_quad, List.length_cons, List.length_nil]
    omega

theorem foldl_set_length (out : CStr) (js : List Nat) (f : Nat → Nat) :
    (js.foldl (fun o i => o.set (f i) '=') out).length = out.length := by
  induction js generalizing out with
  | nil => rfl
  | cons j rest ih => rw [List.foldl_cons, ih, List.length_set]

/-- The length of what `base64_encode` returns: `4 * ceil(in_len / 3)`. -/
theorem base64_encode_length (x : List Nat) (out : CStr) (h : base64_encode true x = some out) :
    out.length = 4 * ((x.length + 2) / 3) := by
  simp only [base64_encode, if_true, Option.some.injEq] at h
  rw [← h, foldl_set_length _ _ (fun i => (base64_encode_loop x).length - 1 - i),
    base64_encode_loop_length]

end V2V
